import Mathlib

/-!
# MediaCodecSource: the Puller and the encoding pipeline

A shallow embedding of `media/libstagefright/MediaCodecSource.cpp`.

* Each handler of the pipeline's looper is a function on an explicit `State`, each
  handler of the Puller's looper a function on an explicit `Puller`.
* The encoder (`MediaCodec`) is an external collaborator: it is a parameter
  `C : MediaCodec E`, a deterministic machine over an arbitrary state type `E`.
  The pipeline holds `mEncoder : Option E` (`none` is the cleared `sp<>`).
* Every call that leaves the object (encoder calls with their results, buffer
  releases, replies, calls to the Puller) is appended to `State.log`, oldest first.
* A failed `CHECK`, a call through a null reference and `Vector::itemAt` with a slot
  index past the end of a cached slot table abort the process; the handlers return
  `Except Fault _` and such a run ends in `Except.error`.
* Payload bytes, reference counts and the observer pointer of a `MediaBuffer`
  are not represented: a buffer is its size and the metadata keys the code uses.
* The loopers are mailboxes: a `System` holds the Puller, the pipeline and the
  messages under way, and an `Event` picks what is handled next.
-/

namespace MediaCodecSource

/-! ## Status codes and flags -/

/-- The C type status_t (a 32-bit signed integer). -/
abbrev Status := Int

/-- Modelled from the spec: the status codes are declared in `utils/Errors.h` and
`MediaErrors.h`, which are not among the sources; OK is the success status. -/
def OK : Status := 0

/-- Modelled from the spec: the end-of-stream status (`MEDIA_ERROR_BASE - 11`). -/
def ERROR_END_OF_STREAM : Status := -1011

/-- Modelled from the spec: the reserved dequeue result "format changed"
(`MEDIA_ERROR_BASE - 12`). -/
def INFO_FORMAT_CHANGED : Status := -1012

/-- Modelled from the spec: the reserved dequeue result "output-slot-table changed"
(`MEDIA_ERROR_BASE - 14`). -/
def INFO_OUTPUT_BUFFERS_CHANGED : Status := -1014

/-- Modelled from the spec: the status of the already-stopping error (`-ENOSYS`). -/
def INVALID_OPERATION : Status := -38

/-- Modelled from the spec: the not-initialized status (`-ENODEV`). -/
def NO_INIT : Status := -19

/-- Modelled from the spec: the errno value behind the would-block status, which the
code writes as `-EAGAIN`. -/
def EAGAIN : Int := 11

/-- The largest int32_t, used when an activity message carries no count. -/
def INT32_MAX : Int := 2147483647

/-- Modelled from the spec: flag bit of `MediaCodecSource.h` (absent from the sources)
selecting surface-input (push) mode. -/
def FLAG_USE_SURFACE_INPUT : Nat := 1

/-- Modelled from the spec: flag bit of `MediaCodecSource.h` selecting metadata input. -/
def FLAG_USE_METADATA_INPUT : Nat := 2

/-- Modelled from the spec: slot flag of `MediaCodec.h` marking a sync frame. -/
def BUFFER_FLAG_SYNCFRAME : Nat := 1

/-- Modelled from the spec: slot flag of `MediaCodec.h` marking codec configuration data. -/
def BUFFER_FLAG_CODECCONFIG : Nat := 2

/-- Modelled from the spec: slot flag of `MediaCodec.h` marking end of stream. -/
def BUFFER_FLAG_EOS : Nat := 4

/-- Modelled from the spec: the default argument of `signalEOS(status_t err = ...)`,
declared in `MediaCodecSource.h`; a call without argument signals end of stream. -/
def signalEOS_default : Status := ERROR_END_OF_STREAM

/-- Modelled from the spec: the default argument of `resume(int64_t skipFramesBeforeUs = -1ll)`,
declared in `MediaCodecSource.h`: no threshold. -/
def resume_default : Int := -1

/-! ## Data model -/

/-- How a handler can abort the process: a failed `CHECK`, a call through a null
pointer, or `Vector::itemAt` with an index past the end of the vector. -/
inductive Fault where
  | checkFailed
  | nullDeref
  | outOfRange
deriving DecidableEq, Repr

/-- A `MediaBuffer`: its size and the metadata keys this file reads or writes. -/
structure MediaBuffer where
  size : Nat
  kKeyTime : Option Int
  kKeyDecodingTime : Option Int
  kKeyIsCodecConfig : Bool
  kKeyIsSyncFrame : Bool
deriving DecidableEq, Repr

/-- The `MetaData` given to `start`: only `kKeyTime` is looked up. -/
structure MetaData where
  kKeyTime : Option Int
deriving DecidableEq, Repr

/-- Out-parameters of `MediaCodec::dequeueOutputBuffer`. -/
structure BufferInfo where
  index : Nat
  offset : Nat
  size : Nat
  timeUs : Int
  flags : Nat
deriving DecidableEq, Repr

/-- The message given to `MediaCodec::setParameters`: the int32 "drop-input-frames" and
the optional int64 "skip-frames-before". -/
structure Params where
  dropInputFrames : Bool
  skipFramesBefore : Option Int
deriving DecidableEq, Repr

/-- A reference to an encoder-owned `ABuffer` held in a cached slot table. -/
abbrev ABufferRef := Nat

/-- What leaves the pipeline object, in the order it happens. Encoder calls carry the
arguments and the returned status. -/
inductive Effect where
  | encRelease
  | queueInputBuffer (index offset size : Nat) (timeUs : Int) (flags : Nat) (err : Status)
  | dequeueInputBuffer (err : Status) (index : Nat)
  | dequeueOutputBuffer (err : Status) (info : BufferInfo)
  | releaseOutputBuffer (index : Nat)
  | getOutputBuffers
  | setParameters (p : Params)
  | requestActivityNotification
  | signalEndOfInputStream
  | mbufRelease (b : MediaBuffer)
  | setMediaBufferBase (index : Nat) (b : Option MediaBuffer)
  | condSignal
  | postReply (replyID : Nat) (err : Option Status)
  | pullerStart
  | pullerPause
  | pullerResume
deriving DecidableEq, Repr

/-- The encoder as the pipeline sees it: each operation maps the encoder's state to
its results and next state. -/
structure MediaCodec (E : Type) where
  configure : E → Status × E
  createInputSurface : E → Status × E
  start : E → Status × E
  getInputBuffers : E → Status × List ABufferRef × E
  getOutputBuffers : E → Status × List ABufferRef × E
  dequeueInputBuffer : E → Status × Nat × E
  queueInputBuffer : E → Nat → Nat → Nat → Int → Nat → Status × E
  dequeueOutputBuffer : E → Status × BufferInfo × E
  /-- The call `size()` on an ABuffer of the output table (storage shared with the
  encoder); the argument is the entry of the table. -/
  outputBufferSize : E → ABufferRef → Nat
  releaseOutputBuffer : E → Nat → E
  setParameters : E → Params → E
  requestActivityNotification : E → E
  signalEndOfInputStream : E → E

/-- The members of `MediaCodecSource` the handlers use. `mPuller` is whether the
pointer is non-null; `mEncoderActivityNotify` whether the message has been created. -/
structure State (E : Type) where
  mFlags : Nat
  mIsVideo : Bool
  mStarted : Bool
  mStopping : Bool
  mDoMoreWorkPending : Bool
  mEncoderActivityNotify : Bool
  mFirstSampleTimeUs : Int
  mPuller : Bool
  mEncoder : Option E
  mEncoderInputBuffers : List ABufferRef
  mEncoderOutputBuffers : List ABufferRef
  mInputBufferQueue : List (Option MediaBuffer)
  mAvailEncoderInputIndices : List Nat
  mOutputBufferQueue : List MediaBuffer
  mEncoderReachedEOS : Bool
  mErrorCode : Status
  mStopReplyIDQueue : List Nat
  log : List Effect

/-- A message of the pipeline's looper. `kWhatStart` also carries `pullerErr`, the
status `Puller::start` returns to the handler if the handler calls it. -/
inductive Message where
  | kWhatPullerNotify (accessUnit : Option MediaBuffer)
  | kWhatEncoderActivity (inputBuffers outputBuffers : Option Int)
  | kWhatStart (replyID : Nat) (params : Option MetaData) (pullerErr : Status)
  | kWhatStop (replyID : Nat)
  | kWhatPause
deriving DecidableEq, Repr

variable {E : Type}

/-- Appends effects to the log. -/
def State.emit (s : State E) (es : List Effect) : State E :=
  { s with log := s.log ++ es }

/-! ## Construction -/

/-- The constructor: flags and the media kind are given, everything else starts
cleared; the Puller exists exactly when the surface-input flag is clear. -/
def construct (flags : Nat) (isVideo : Bool) : State E :=
  { mFlags := flags
    mIsVideo := isVideo
    mStarted := false
    mStopping := false
    mDoMoreWorkPending := false
    mEncoderActivityNotify := false
    mFirstSampleTimeUs := -1
    mPuller := decide (flags &&& FLAG_USE_SURFACE_INPUT = 0)
    mEncoder := none
    mEncoderInputBuffers := []
    mEncoderOutputBuffers := []
    mInputBufferQueue := []
    mAvailEncoderInputIndices := []
    mOutputBufferQueue := []
    mEncoderReachedEOS := false
    mErrorCode := OK
    mStopReplyIDQueue := []
    log := [] }

/-! ## Teardown -/

/-- The releases of `releaseEncoder`'s first loop: every non-null queued input. -/
def releaseInputs : List (Option MediaBuffer) → List Effect
  | [] => []
  | none :: q => releaseInputs q
  | some b :: q => Effect.mbufRelease b :: releaseInputs q

/-- The method `MediaCodecSource::releaseEncoder`. -/
def releaseEncoder (s : State E) : State E :=
  match s.mEncoder with
  | none => s
  | some _ =>
    { s with
      mEncoder := none
      mInputBufferQueue := []
      mEncoderInputBuffers := []
      mEncoderOutputBuffers := []
      log := s.log ++ [Effect.encRelease] ++ releaseInputs s.mInputBufferQueue
        ++ (List.range s.mEncoderInputBuffers.length).map
            (fun i => Effect.setMediaBufferBase i none) }

/-- The method `MediaCodecSource::signalEOS`. -/
def signalEOS (err : Status) (s : State E) : State E :=
  let s1 : State E :=
    if s.mEncoderReachedEOS = false then
      releaseEncoder
        { s with
          log := s.log ++ s.mOutputBufferQueue.map Effect.mbufRelease ++ [Effect.condSignal]
          mOutputBufferQueue := []
          mEncoderReachedEOS := true
          mErrorCode := err }
    else s
  if s1.mStopping = true ∧ s1.mEncoderReachedEOS = true then
    { s1 with
      log := s1.log ++ s1.mStopReplyIDQueue.map (fun id => Effect.postReply id none)
      mStopReplyIDQueue := []
      mStopping := false }
  else s1

/-! ## Initialisation -/

/-- The method `MediaCodecSource::initEncoder`; `created` is the result of
`MediaCodec::CreateByType` (`none` when it returns NULL). -/
def initEncoder (C : MediaCodec E) (created : Option E) (s : State E) :
    Except Fault (Status × State E) :=
  match created with
  | none => .ok (NO_INIT, s)
  | some e0 =>
    let c := C.configure e0
    if c.1 ≠ OK then .ok (c.1, { s with mEncoder := some c.2 })
    else
      let surf : Except Fault (Status × E) :=
        if s.mFlags &&& FLAG_USE_SURFACE_INPUT ≠ 0 then
          if s.mIsVideo = false then .error Fault.checkFailed
          else .ok (C.createInputSurface c.2)
        else .ok (OK, c.2)
      match surf with
      | .error f => .error f
      | .ok (err1, e1) =>
        if err1 ≠ OK then .ok (err1, { s with mEncoder := some e1 })
        else
          let st := C.start e1
          if st.1 ≠ OK then .ok (st.1, { s with mEncoder := some st.2 })
          else
            let gi := C.getInputBuffers st.2
            if gi.1 ≠ OK then
              .ok (gi.1, { s with mEncoder := some gi.2.2, mEncoderInputBuffers := gi.2.1 })
            else
              let go := C.getOutputBuffers gi.2.2
              let s1 : State E :=
                { s with
                  mEncoder := some go.2.2
                  mEncoderInputBuffers := gi.2.1
                  mEncoderOutputBuffers := go.2.1 }
              if go.1 ≠ OK then .ok (go.1, s1)
              else .ok (OK, { s1 with mEncoderReachedEOS := false, mErrorCode := OK })

/-- The method `MediaCodecSource::init`. -/
def init (C : MediaCodec E) (created : Option E) (s : State E) :
    Except Fault (Status × State E) :=
  match initEncoder C created s with
  | .error f => .error f
  | .ok (err, s1) => if err ≠ OK then .ok (err, releaseEncoder s1) else .ok (err, s1)

/-- The method `MediaCodecSource::Create`: the object when `init` succeeded, NULL otherwise. -/
def Create (C : MediaCodec E) (created : Option E) (flags : Nat) (isVideo : Bool) :
    Except Fault (Option (State E)) :=
  match init C created (construct flags isVideo) with
  | .error f => .error f
  | .ok (err, s) => if err = OK then .ok (some s) else .ok none

/-! ## Suspend, resume, scheduling -/

/-- The method `MediaCodecSource::suspend`. -/
def suspend (C : MediaCodec E) (s : State E) : Except Fault (State E) :=
  if s.mFlags &&& FLAG_USE_SURFACE_INPUT = 0 then .error Fault.checkFailed
  else
    match s.mEncoder with
    | none => .ok s
    | some e =>
      let params : Params := { dropInputFrames := true, skipFramesBefore := none }
      .ok { s with
            mEncoder := some (C.setParameters e params)
            log := s.log ++ [Effect.setParameters params] }

/-- The method `MediaCodecSource::resume`. -/
def resume (C : MediaCodec E) (skipFramesBeforeUs : Int) (s : State E) :
    Except Fault (State E) :=
  if s.mFlags &&& FLAG_USE_SURFACE_INPUT = 0 then .error Fault.checkFailed
  else
    match s.mEncoder with
    | none => .ok s
    | some e =>
      let params : Params :=
        { dropInputFrames := false
          skipFramesBefore := if skipFramesBeforeUs > 0 then some skipFramesBeforeUs else none }
      .ok { s with
            mEncoder := some (C.setParameters e params)
            log := s.log ++ [Effect.setParameters params] }

/-- The method `MediaCodecSource::scheduleDoMoreWork`. -/
def scheduleDoMoreWork (C : MediaCodec E) (s : State E) : Except Fault (State E) :=
  if s.mDoMoreWorkPending = true then .ok s
  else
    match s.mEncoder with
    | none => .error Fault.nullDeref
    | some e =>
      .ok { s with
            mDoMoreWorkPending := true
            mEncoderActivityNotify := true
            mEncoder := some (C.requestActivityNotification e)
            log := s.log ++ [Effect.requestActivityNotification] }

/-! ## Feed -/

/-- One `mEncoder->queueInputBuffer(...)` call: the status and the state after it. -/
def callQueueInputBuffer (C : MediaCodec E) (index offset size : Nat) (timeUs : Int)
    (flags : Nat) (s : State E) : Except Fault (Status × State E) :=
  match s.mEncoder with
  | none => .error Fault.nullDeref
  | some e =>
    let r := C.queueInputBuffer e index offset size timeUs flags
    .ok (r.1, { s with
                mEncoder := some r.2
                log := s.log ++ [Effect.queueInputBuffer index offset size timeUs flags r.1] })

/-- The loop of `feedEncoderInputBuffers`; the first argument is `mInputBufferQueue`
of the state, on which the loop recurses. A buffer is copied into
`mEncoderInputBuffers.itemAt(bufferIndex)`, which aborts when the slot is not in the
table; the null sentinel is submitted without touching the table. -/
def feedLoop (C : MediaCodec E) : List (Option MediaBuffer) → State E →
    Except Fault (Status × State E)
  | [], s => .ok (OK, s)
  | mbuf :: rest, s =>
    match s.mAvailEncoderInputIndices with
    | [] => .ok (OK, s)
    | bufferIndex :: avail =>
      let s1 : State E :=
        { s with mInputBufferQueue := rest, mAvailEncoderInputIndices := avail }
      match mbuf with
      | some b =>
        match b.kKeyTime with
        | none => .error Fault.checkFailed
        | some timeUs =>
          match s1.mEncoderInputBuffers[bufferIndex]? with
          | none => .error Fault.outOfRange
          | some _ =>
            let s2 := s1.emit
              [if s1.mIsVideo = true then Effect.setMediaBufferBase bufferIndex (some b)
               else Effect.mbufRelease b]
            match callQueueInputBuffer C bufferIndex 0 b.size timeUs 0 s2 with
            | .error f => .error f
            | .ok (err, s3) => if err ≠ OK then .ok (err, s3) else feedLoop C rest s3
      | none =>
        match callQueueInputBuffer C bufferIndex 0 0 0 BUFFER_FLAG_EOS s1 with
        | .error f => .error f
        | .ok (err, s3) => if err ≠ OK then .ok (err, s3) else feedLoop C rest s3

/-- The method `MediaCodecSource::feedEncoderInputBuffers`. -/
def feedEncoderInputBuffers (C : MediaCodec E) (s : State E) :
    Except Fault (Status × State E) :=
  feedLoop C s.mInputBufferQueue s

/-! ## Drain -/

/-- The first loop of `doMoreWork`: `while (numInput-- > 0)`, run with the number of
iterations the condition allows. The status is the local `err` at loop exit. -/
def dequeueInputLoop (C : MediaCodec E) : Nat → State E → Except Fault (Status × State E)
  | 0, s => .ok (OK, s)
  | n + 1, s =>
    match s.mEncoder with
    | none => .error Fault.nullDeref
    | some e =>
      let r := C.dequeueInputBuffer e
      let s1 : State E :=
        { s with mEncoder := some r.2.2, log := s.log ++ [Effect.dequeueInputBuffer r.1 r.2.1] }
      if r.1 ≠ OK then .ok (r.1, s1)
      else
        dequeueInputLoop C n
          { s1 with mAvailEncoderInputIndices := s1.mAvailEncoderInputIndices ++ [r.2.1] }

/-- The `MediaBuffer` that `doMoreWork` builds for a completed slot without the
end-of-stream flag; a failed `CHECK_GE(timeUs, 0ll)` aborts. -/
def makeOutputBuffer (mFlags : Nat) (mIsVideo : Bool) (outbufSize : Nat) (info : BufferInfo) :
    Except Fault MediaBuffer :=
  let mbuf : MediaBuffer :=
    { size := outbufSize, kKeyTime := none, kKeyDecodingTime := none,
      kKeyIsCodecConfig := false, kKeyIsSyncFrame := false }
  let withMeta : Except Fault MediaBuffer :=
    if info.flags &&& BUFFER_FLAG_CODECCONFIG = 0 then
      if mIsVideo = true then
        if mFlags &&& FLAG_USE_SURFACE_INPUT ≠ 0 then
          if info.timeUs < 0 then .error Fault.checkFailed
          else .ok { mbuf with kKeyDecodingTime := some info.timeUs, kKeyTime := some info.timeUs }
        else .ok { mbuf with kKeyDecodingTime := some info.timeUs, kKeyTime := some info.timeUs }
      else .ok { mbuf with kKeyTime := some info.timeUs }
    else .ok { mbuf with kKeyIsCodecConfig := true }
  match withMeta with
  | .error f => .error f
  | .ok m =>
    if info.flags &&& BUFFER_FLAG_SYNCFRAME ≠ 0 then .ok { m with kKeyIsSyncFrame := true }
    else .ok m

/-- The second loop of `doMoreWork`: `while (numOutput-- > 0)`, run with the number of
iterations the condition allows; `err` is the local variable on entry to the
loop condition. A completed slot without the end-of-stream flag is copied from
`mEncoderOutputBuffers.itemAt(bufferIndex)`, which aborts when the slot is not in the
table. -/
def drainLoop (C : MediaCodec E) : Nat → Status → State E → Except Fault (Status × State E)
  | 0, err, s => .ok (err, s)
  | n + 1, _, s =>
    match s.mEncoder with
    | none => .error Fault.nullDeref
    | some e =>
      let r := C.dequeueOutputBuffer e
      let info := r.2.1
      let s1 : State E :=
        { s with mEncoder := some r.2.2, log := s.log ++ [Effect.dequeueOutputBuffer r.1 info] }
      if r.1 ≠ OK then
        if r.1 = INFO_FORMAT_CHANGED then drainLoop C n r.1 s1
        else if r.1 = INFO_OUTPUT_BUFFERS_CHANGED then
          let g := C.getOutputBuffers r.2.2
          drainLoop C n r.1
            { s1 with
              mEncoder := some g.2.2
              mEncoderOutputBuffers := g.2.1
              log := s1.log ++ [Effect.getOutputBuffers] }
        else .ok (if r.1 = -EAGAIN then OK else r.1, s1)
      else
        let queued : Except Fault (State E) :=
          if info.flags &&& BUFFER_FLAG_EOS = 0 then
            match s1.mEncoderOutputBuffers[info.index]? with
            | none => .error Fault.outOfRange
            | some outbuf =>
              match makeOutputBuffer s.mFlags s.mIsVideo (C.outputBufferSize r.2.2 outbuf)
                  info with
              | .error f => .error f
              | .ok mbuf =>
                .ok { s1 with
                      mOutputBufferQueue := s1.mOutputBufferQueue ++ [mbuf]
                      log := s1.log ++ [Effect.condSignal] }
          else .ok s1
        match queued with
        | .error f => .error f
        | .ok s2 =>
          let s3 : State E :=
            { s2 with
              mEncoder := some (C.releaseOutputBuffer r.2.2 info.index)
              log := s2.log ++ [Effect.releaseOutputBuffer info.index] }
          if info.flags &&& BUFFER_FLAG_EOS ≠ 0 then .ok (ERROR_END_OF_STREAM, s3)
          else drainLoop C n OK s3

/-- The method `MediaCodecSource::doMoreWork`. -/
def doMoreWork (C : MediaCodec E) (numInput numOutput : Int) (s : State E) :
    Except Fault (Status × State E) :=
  if s.mFlags &&& FLAG_USE_SURFACE_INPUT = 0 then
    match dequeueInputLoop C numInput.toNat s with
    | .error f => .error f
    | .ok (err, s1) =>
      match feedEncoderInputBuffers C s1 with
      | .error f => .error f
      | .ok (_, s2) => drainLoop C numOutput.toNat err s2
  else drainLoop C numOutput.toNat OK s

/-! ## Start and the message handler -/

/-- The method `MediaCodecSource::onStart`; `pullerErr` is what `mPuller->start` returns. -/
def onStart (C : MediaCodec E) (params : Option MetaData) (pullerErr : Status) (s : State E) :
    Except Fault (Status × State E) :=
  if s.mStopping = true then .ok (INVALID_OPERATION, s)
  else if s.mStarted = true then
    if s.mFlags &&& FLAG_USE_SURFACE_INPUT ≠ 0 then
      match resume C resume_default s with
      | .error f => .error f
      | .ok s1 => .ok (OK, s1)
    else if s.mPuller = false then .error Fault.checkFailed
    else .ok (OK, s.emit [Effect.pullerResume])
  else if s.mFlags &&& FLAG_USE_SURFACE_INPUT ≠ 0 then
    let startTimeUs : Int :=
      match params with
      | none => -1
      | some p =>
        match p.kKeyTime with
        | none => -1
        | some t => t
    match resume C startTimeUs s with
    | .error f => .error f
    | .ok s1 =>
      match scheduleDoMoreWork C s1 with
      | .error f => .error f
      | .ok s2 => .ok (OK, { s2 with mStarted := true })
  else if s.mPuller = false then .error Fault.checkFailed
  else
    let s1 := s.emit [Effect.pullerStart]
    if pullerErr ≠ OK then .ok (pullerErr, s1)
    else .ok (OK, { s1 with mStarted := true })

/-- The count an activity message carries in one of its int32 fields, INT32_MAX when
`findInt32` does not find the field. -/
def countOrMax (field : Option Int) : Int :=
  match field with
  | some n => n
  | none => INT32_MAX

/-- The method `MediaCodecSource::onMessageReceived`. -/
def onMessageReceived (C : MediaCodec E) (msg : Message) (s : State E) :
    Except Fault (State E) :=
  match msg with
  | Message.kWhatPullerNotify mbuf =>
    let s1 : State E :=
      match mbuf with
      | none => signalEOS signalEOS_default s
      | some _ => s
    match s1.mEncoder with
    | none =>
      match mbuf with
      | some b => .ok (s1.emit [Effect.mbufRelease b])
      | none => .ok s1
    | some _ =>
      let s2 : State E := { s1 with mInputBufferQueue := s1.mInputBufferQueue ++ [mbuf] }
      match feedEncoderInputBuffers C s2 with
      | .error f => .error f
      | .ok (_, s3) => scheduleDoMoreWork C s3
  | Message.kWhatEncoderActivity inputBuffers outputBuffers =>
    let s1 : State E := { s with mDoMoreWorkPending := false }
    match s1.mEncoder with
    | none => .ok s1
    | some _ =>
      match doMoreWork C (countOrMax inputBuffers) (countOrMax outputBuffers) s1 with
      | .error f => .error f
      | .ok (err, s2) =>
        if err = OK then scheduleDoMoreWork C s2
        else .ok (signalEOS err s2)
  | Message.kWhatStart replyID params pullerErr =>
    match onStart C params pullerErr s with
    | .error f => .error f
    | .ok (err, s1) => .ok (s1.emit [Effect.postReply replyID (some err)])
  | Message.kWhatStop replyID =>
    if s.mEncoderReachedEOS = true then .ok (s.emit [Effect.postReply replyID none])
    else
      let s1 : State E := { s with mStopReplyIDQueue := s.mStopReplyIDQueue ++ [replyID] }
      if s1.mStopping = true then .ok s1
      else
        let s2 : State E := { s1 with mStopping := true }
        if s2.mFlags &&& FLAG_USE_SURFACE_INPUT ≠ 0 then
          match s2.mEncoder with
          | none => .error Fault.nullDeref
          | some e =>
            .ok { s2 with
                  mEncoder := some (C.signalEndOfInputStream e)
                  log := s2.log ++ [Effect.signalEndOfInputStream] }
        else .ok (signalEOS signalEOS_default s2)
  | Message.kWhatPause =>
    if s.mFlags ≠ 0 ∧ FLAG_USE_SURFACE_INPUT ≠ 0 then suspend C s
    else if s.mPuller = false then .error Fault.checkFailed
    else .ok (s.emit [Effect.pullerPause])

/-- Handling a sequence of messages, one after the other. -/
def run (C : MediaCodec E) : List Message → State E → Except Fault (State E)
  | [], s => .ok s
  | m :: ms, s =>
    match onMessageReceived C m s with
    | .error f => .error f
    | .ok s1 => run C ms s1

/-! ## The consumer side -/

/-- The method `MediaCodecSource::read`: `none` when the call blocks on the condition variable
(empty queue, EOS not reached); otherwise the status, the buffer and the state. -/
def read (s : State E) : Option (Status × Option MediaBuffer × State E) :=
  match s.mOutputBufferQueue, s.mEncoderReachedEOS with
  | [], false => none
  | b :: rest, false => some (OK, some b, { s with mOutputBufferQueue := rest })
  | _, true => some (s.mErrorCode, none, s)

/-- The method `MediaCodecSource::postSynchronouslyAndReturnError`, given the status of
`postAndAwaitResponse` and the "err" field of the response (if set). -/
def postSynchronouslyAndReturnError (postErr : Status) (response : Option Status) : Status :=
  if postErr ≠ OK then postErr
  else
    match response with
    | some err => err
    | none => OK

/-- The method `MediaCodecSource::stop` as its caller sees it: the status it returns, given the
status of the round trip and the "err" field of the response, and whether it goes on
to call `Puller::stop`. -/
def stop (s : State E) (postErr : Status) (response : Option Status) : Status × Bool :=
  (postSynchronouslyAndReturnError postErr response, s.mPuller)

/-- The method `MediaCodecSource::start` as its caller sees it: the status it returns,
given the status of the round trip and the "err" field of the response. -/
def start (postErr : Status) (response : Option Status) : Status :=
  postSynchronouslyAndReturnError postErr response

/-! ## The Puller -/

/-- The raw source as the Puller sees it: each operation maps the source's state to
its results and next state. `read` yields the status and the buffer pointer. -/
structure MediaSource (S : Type) where
  start : S → Status × S
  read : S → Status × Option MediaBuffer × S
  stop : S → Status × S

/-- The members of `MediaCodecSource::Puller` its handler uses. -/
structure Puller (S : Type) where
  mSource : S
  mPullGeneration : Int
  mIsAudio : Bool
  mPaused : Bool
  mReachedEOS : Bool
deriving DecidableEq, Repr

/-- A message of the Puller's looper. -/
inductive PullerMessage where
  | kWhatStart
  | kWhatStop
  | kWhatPull (generation : Int)
  | kWhatPause
  | kWhatResume
deriving DecidableEq, Repr

/-- What the Puller's handler does towards the outside, in the order it happens. -/
inductive PullerEffect where
  | sourceStart (err : Status)
  | sourceRead (err : Status)
  | mbufRelease (b : MediaBuffer)
  | postNotify (accessUnit : Option MediaBuffer)
  | postPull (generation : Int)
  | postReply (err : Status)
deriving DecidableEq, Repr

/-- The value of an int32_t after an arithmetic result `x` (two's complement wrap). -/
def wrapInt32 (x : Int) : Int := (x + 2147483648) % 4294967296 - 2147483648

/-- The constructor `Puller::Puller`; `isAudio` is what the MIME type of the source says. -/
def Puller.construct {S : Type} (source : S) (isAudio : Bool) : Puller S :=
  { mSource := source, mPullGeneration := 0, mIsAudio := isAudio, mPaused := false,
    mReachedEOS := false }

/-- The method `Puller::schedulePull`: the pull message it posts. -/
def Puller.schedulePull {S : Type} (p : Puller S) : List PullerEffect :=
  [PullerEffect.postPull p.mPullGeneration]

/-- The method `Puller::handleEOS`. -/
def Puller.handleEOS {S : Type} (p : Puller S) : Puller S × List PullerEffect :=
  if p.mReachedEOS = false then
    ({ p with mReachedEOS := true }, [PullerEffect.postNotify none])
  else (p, [])

/-- The method `Puller::onMessageReceived`: the state after the message and what was done. -/
def Puller.onMessageReceived {S : Type} (M : MediaSource S) (msg : PullerMessage)
    (p : Puller S) : Except Fault (Puller S × List PullerEffect) :=
  match msg with
  | PullerMessage.kWhatStart =>
    let r := M.start p.mSource
    let p1 : Puller S := { p with mReachedEOS := false, mSource := r.2 }
    .ok (p1, [PullerEffect.sourceStart r.1]
      ++ (if r.1 = OK then p1.schedulePull else [])
      ++ [PullerEffect.postReply r.1])
  | PullerMessage.kWhatStop =>
    let p1 : Puller S := { p with mPullGeneration := wrapInt32 (p.mPullGeneration + 1) }
    .ok p1.handleEOS
  | PullerMessage.kWhatPull generation =>
    if generation ≠ p.mPullGeneration then .ok (p, [])
    else
      let r := M.read p.mSource
      let err := r.1
      let mbuf := r.2.1
      let p1 : Puller S := { p with mSource := r.2.2 }
      if p1.mPaused = true then
        if err = OK then
          match mbuf with
          | none => .error Fault.nullDeref
          | some b =>
            .ok (p1, [PullerEffect.sourceRead err, PullerEffect.mbufRelease b,
              PullerEffect.postPull generation])
        else .ok (p1, [PullerEffect.sourceRead err, PullerEffect.postPull generation])
      else if err ≠ OK then
        let h := p1.handleEOS
        .ok (h.1, PullerEffect.sourceRead err :: h.2)
      else
        .ok (p1, [PullerEffect.sourceRead err, PullerEffect.postNotify mbuf,
          PullerEffect.postPull generation])
  | PullerMessage.kWhatPause => .ok ({ p with mPaused := true }, [])
  | PullerMessage.kWhatResume => .ok ({ p with mPaused := false }, [])

/-- The method `Puller::postSynchronouslyAndReturnError`, given the status of
`postAndAwaitResponse` and the "err" field of the response (if set). -/
def Puller.postSynchronouslyAndReturnError (postErr : Status) (response : Option Status) :
    Status :=
  if postErr ≠ OK then postErr
  else
    match response with
    | some err => err
    | none => OK

/-- The "err" field of the response the Puller's handler posted, if it posted one. -/
def repliedStatus : List PullerEffect → Option Status
  | [] => none
  | PullerEffect.postReply err :: _ => some err
  | _ :: l => repliedStatus l

/-- The method `Puller::start` when the round trip to the Puller's looper succeeds: the
looper handles the start message and the caller gets the "err" field of the response. -/
def Puller.start {S : Type} (M : MediaSource S) (p : Puller S) :
    Except Fault (Status × Puller S × List PullerEffect) :=
  match Puller.onMessageReceived M PullerMessage.kWhatStart p with
  | .error f => .error f
  | .ok (p1, effs) =>
    .ok (Puller.postSynchronouslyAndReturnError OK (repliedStatus effs), p1, effs)

/-- Handling a sequence of Puller messages, one after the other: the state at the end
and everything that was done, oldest first. -/
def Puller.run {S : Type} (M : MediaSource S) :
    List PullerMessage → Puller S → Except Fault (Puller S × List PullerEffect)
  | [], p => .ok (p, [])
  | m :: ms, p =>
    match Puller.onMessageReceived M m p with
    | .error f => .error f
    | .ok (p1, effs) =>
      match Puller.run M ms p1 with
      | .error f => .error f
      | .ok (p2, effs2) => .ok (p2, effs ++ effs2)

/-! ## Encoders and a source to run the handlers on

The handlers are evaluated on concrete collaborators: a scripted encoder that answers
each kind of call from a list of prepared responses, an encoder with slots that emits
one output per input, and a source that yields the buffers of a list. -/

/-- The responses a scripted encoder still has to give, oldest first. -/
structure Script where
  dequeueInput : List (Status × Nat)
  queueInput : List Status
  dequeueOutput : List (Status × BufferInfo)
deriving DecidableEq, Repr

/-- The scripted encoder: a dequeue call with no response left would block, a
queue call with no response left succeeds, all other calls succeed. -/
def scriptCodec : MediaCodec Script where
  configure e := (OK, e)
  createInputSurface e := (OK, e)
  start e := (OK, e)
  getInputBuffers e := (OK, [0, 1], e)
  getOutputBuffers e := (OK, [0, 1], e)
  dequeueInputBuffer e :=
    match e.dequeueInput with
    | [] => (-EAGAIN, 0, e)
    | r :: rest => (r.1, r.2, { e with dequeueInput := rest })
  queueInputBuffer e _ _ _ _ _ :=
    match e.queueInput with
    | [] => (OK, e)
    | r :: rest => (r, { e with queueInput := rest })
  dequeueOutputBuffer e :=
    match e.dequeueOutput with
    | [] => (-EAGAIN, ⟨0, 0, 0, 0, 0⟩, e)
    | r :: rest => (r.1, r.2, { e with dequeueOutput := rest })
  outputBufferSize _ _ := 0
  releaseOutputBuffer e _ := e
  setParameters e _ := e
  requestActivityNotification e := e
  signalEndOfInputStream e := e

/-- Modelled from the spec: a source that yields the buffers of a list, one per read,
and then end-of-stream on every read; starting and stopping it succeed. -/
def listSource : MediaSource (List MediaBuffer) where
  start l := (OK, l)
  read l :=
    match l with
    | [] => (ERROR_END_OF_STREAM, none, [])
    | b :: rest => (OK, some b, rest)
  stop l := (OK, l)

/-- What a slot of the slot encoder holds: size, timestamp and flags of the data. -/
structure Job where
  slot : Nat
  size : Nat
  timeUs : Int
  flags : Nat
deriving DecidableEq, Repr

/-- Modelled from the spec: an encoder with input and output slots that emits one
output per input, with the input's size, timestamp and flags. `freeInputs` are the
slots the client may dequeue, `pending` the queued inputs not yet encoded, `freeOutputs`
the slots the encoder may fill, `ready` the completed outputs not yet dequeued and
`held` the outputs the client has dequeued and not yet released. -/
structure SlotEncoder where
  freeInputs : List Nat
  pending : List Job
  freeOutputs : List Nat
  ready : List Job
  held : List Job
deriving DecidableEq, Repr

/-- Modelled from the spec: the calls of the slot encoder. A dequeue with nothing
available would block; every other call succeeds. Entry `i` of either table is the
buffer of slot `i`. -/
def slotCodec : MediaCodec SlotEncoder where
  configure e := (OK, e)
  createInputSurface e := (OK, e)
  start e := (OK, e)
  getInputBuffers e := (OK, [0, 1], e)
  getOutputBuffers e := (OK, [0, 1], e)
  dequeueInputBuffer e :=
    match e.freeInputs with
    | [] => (-EAGAIN, 0, e)
    | i :: rest => (OK, i, { e with freeInputs := rest })
  queueInputBuffer e index _ size timeUs flags :=
    (OK, { e with pending := e.pending ++ [⟨index, size, timeUs, flags⟩] })
  dequeueOutputBuffer e :=
    match e.ready with
    | [] => (-EAGAIN, ⟨0, 0, 0, 0, 0⟩, e)
    | j :: rest =>
      (OK, ⟨j.slot, 0, j.size, j.timeUs, j.flags⟩,
        { e with ready := rest, held := e.held ++ [j] })
  outputBufferSize e outbuf :=
    match e.held.find? (fun j => j.slot == outbuf) with
    | some j => j.size
    | none => 0
  releaseOutputBuffer e index :=
    { e with
      held := e.held.filter (fun j => j.slot != index)
      freeOutputs := e.freeOutputs ++ [index] }
  setParameters e _ := e
  requestActivityNotification e := e
  signalEndOfInputStream e := e

/-- Modelled from the spec: the slot encoder completes its oldest queued input into
its oldest free output slot and frees the input slot; with no queued input or no free
output slot nothing happens. -/
def SlotEncoder.encode (e : SlotEncoder) : SlotEncoder :=
  match e.pending, e.freeOutputs with
  | j :: ps, o :: fo =>
    { e with
      pending := ps
      freeInputs := e.freeInputs ++ [j.slot]
      freeOutputs := fo
      ready := e.ready ++ [{ j with slot := o }] }
  | _, _ => e

/-- The slot encoder with 2 input and 2 output slots, all free. -/
def twoSlots : SlotEncoder :=
  { freeInputs := [0, 1], pending := [], freeOutputs := [0, 1], ready := [], held := [] }

/-! ## The pull-mode system -/

/-- The Puller on a list source, the pipeline on the slot encoder, the two mailboxes
between the loopers, and the results of the consumer's completed `read` calls. -/
structure System where
  puller : Puller (List MediaBuffer)
  pullQueue : List PullerMessage
  pipeline : State SlotEncoder
  notifyQueue : List (Option MediaBuffer)
  reads : List (Status × Option MediaBuffer)

/-- What can happen next: the Puller's looper handles its oldest message; the
pipeline's looper handles the oldest puller notification; the pipeline's looper
handles an encoder-activity notification (without counts, or reporting counts); the
encoder completes an input; the consumer calls `read`. -/
inductive Event where
  | pull
  | pullerNotify
  | encoderActivity (counts : Option (Nat × Nat))
  | encode
  | read
deriving DecidableEq, Repr

/-- The pull messages among the effects of the Puller's handler. -/
def postedPulls : List PullerEffect → List PullerMessage
  | [] => []
  | PullerEffect.postPull g :: l => PullerMessage.kWhatPull g :: postedPulls l
  | _ :: l => postedPulls l

/-- The notifications among the effects of the Puller's handler. -/
def postedNotifies : List PullerEffect → List (Option MediaBuffer)
  | [] => []
  | PullerEffect.postNotify au :: l => au :: postedNotifies l
  | _ :: l => postedNotifies l

/-- How many input slots the encoder of the pipeline has free. -/
def availableInputs (s : State SlotEncoder) : Nat :=
  match s.mEncoder with
  | some e => e.freeInputs.length
  | none => 0

/-- How many completed outputs the encoder of the pipeline has ready. -/
def availableOutputs (s : State SlotEncoder) : Nat :=
  match s.mEncoder with
  | some e => e.ready.length
  | none => 0

/-- The pipeline of the system handles a message. -/
def System.handle (msg : Message) (sys : System) : Except Fault System :=
  match onMessageReceived slotCodec msg sys.pipeline with
  | .error f => .error f
  | .ok s1 => .ok { sys with pipeline := s1 }

/-- One event. An event that cannot happen (empty mailbox, a `read` that would block,
an activity notification reporting more than is available) leaves the system as it
is. -/
def System.step (ev : Event) (sys : System) : Except Fault System :=
  match ev with
  | Event.pull =>
    match sys.pullQueue with
    | [] => .ok sys
    | m :: rest =>
      match Puller.onMessageReceived listSource m sys.puller with
      | .error f => .error f
      | .ok (p, effs) =>
        .ok { sys with
              puller := p
              pullQueue := rest ++ postedPulls effs
              notifyQueue := sys.notifyQueue ++ postedNotifies effs }
  | Event.pullerNotify =>
    match sys.notifyQueue with
    | [] => .ok sys
    | au :: rest =>
      System.handle (Message.kWhatPullerNotify au) { sys with notifyQueue := rest }
  | Event.encoderActivity none => System.handle (Message.kWhatEncoderActivity none none) sys
  | Event.encoderActivity (some (i, o)) =>
    if i ≤ availableInputs sys.pipeline ∧ o ≤ availableOutputs sys.pipeline then
      System.handle (Message.kWhatEncoderActivity (some (i : Int)) (some (o : Int))) sys
    else .ok sys
  | Event.encode =>
    .ok { sys with
          pipeline := { sys.pipeline with
                        mEncoder := sys.pipeline.mEncoder.map SlotEncoder.encode } }
  | Event.read =>
    match read sys.pipeline with
    | none => .ok sys
    | some (st, mbuf, s1) =>
      .ok { sys with pipeline := s1, reads := sys.reads ++ [(st, mbuf)] }

/-- A sequence of events, one after the other. -/
def System.run : List Event → System → Except Fault System
  | [], sys => .ok sys
  | ev :: rest, sys =>
    match System.step ev sys with
    | .error f => .error f
    | .ok sys1 => System.run rest sys1

/-- The started pull-mode pipeline on a fresh two-slot encoder: what `Create` and the
start handler leave. -/
def startedPipeline (isVideo : Bool) : State SlotEncoder :=
  { (construct 0 isVideo : State SlotEncoder) with
    mEncoder := some twoSlots
    mEncoderInputBuffers := [0, 1]
    mEncoderOutputBuffers := [0, 1]
    mStarted := true
    log := [Effect.pullerStart, Effect.postReply 0 (some OK)] }

/-- The system right after a successful start on the source `bufs`: the Puller has
started the source and posted its first pull. -/
def System.started (isVideo : Bool) (bufs : List MediaBuffer) : System :=
  { puller := Puller.construct bufs (!isVideo)
    pullQueue := [PullerMessage.kWhatPull 0]
    pipeline := startedPipeline isVideo
    notifyQueue := []
    reads := [] }

/-! ## Vocabulary of the statements -/

/-- The successful submission that pairs a queued input with a slot: a buffer goes
with offset 0, its size, its timestamp and no flag; the null sentinel goes with
size 0, timestamp 0 and the end-of-stream flag. -/
def submission (mbuf : Option MediaBuffer) (slot : Nat) : Effect :=
  match mbuf with
  | some b => Effect.queueInputBuffer slot 0 b.size (b.kKeyTime.getD 0) 0 OK
  | none => Effect.queueInputBuffer slot 0 0 0 BUFFER_FLAG_EOS OK

/-- What the feed loop does for one pair when the submission succeeds. -/
def feedEffects (isVideo : Bool) (p : Option MediaBuffer × Nat) : List Effect :=
  match p.1 with
  | some b =>
    [if isVideo = true then Effect.setMediaBufferBase p.2 (some b) else Effect.mbufRelease b,
     submission p.1 p.2]
  | none => [submission p.1 p.2]

/-- Whether an effect belongs to the input side of the feed and drain algorithms. -/
def Effect.isInputWork : Effect → Bool
  | Effect.queueInputBuffer _ _ _ _ _ _ => true
  | Effect.dequeueInputBuffer _ _ => true
  | Effect.mbufRelease _ => true
  | Effect.setMediaBufferBase _ _ => true
  | _ => false

/-- Whether an effect belongs to the output side of the drain algorithm. -/
def Effect.isOutputWork : Effect → Bool
  | Effect.dequeueOutputBuffer _ _ => true
  | Effect.releaseOutputBuffer _ => true
  | Effect.getOutputBuffers => true
  | Effect.condSignal => true
  | _ => false

/-- Whether an effect belongs to the feed and drain algorithms. -/
def Effect.isWork (x : Effect) : Bool := x.isInputWork || x.isOutputWork

/-- Whether an effect is neither the encoder's release nor a reply. -/
def Effect.isQuiet : Effect → Bool
  | Effect.encRelease => false
  | Effect.postReply _ _ => false
  | _ => true

/-- Whether an effect is a reply. -/
def Effect.isReply : Effect → Bool
  | Effect.postReply _ _ => true
  | _ => false

/-- Whether an effect belongs to the EOS handling. -/
def Effect.isTeardown : Effect → Bool
  | Effect.encRelease => true
  | Effect.mbufRelease _ => true
  | Effect.setMediaBufferBase _ _ => true
  | Effect.condSignal => true
  | Effect.postReply _ _ => true
  | _ => false

/-- A status that is neither success, nor would-block, nor a reserved code. -/
def isFatal (e : Status) : Prop :=
  e ≠ OK ∧ e ≠ -EAGAIN ∧ e ≠ INFO_FORMAT_CHANGED ∧ e ≠ INFO_OUTPUT_BUFFERS_CHANGED

/-- How the status `st` of the output loop relates to the effects `ext` it added, for a
loop allowed `n` iterations and entered with the local `err`. -/
structure DrainOutcome (n : Nat) (err : Status) (ext : List Effect) (st : Status) : Prop where
  fatal : ∀ e info, Effect.dequeueOutputBuffer e info ∈ ext → isFatal e → st = e
  cases : st = OK ∨ (n = 0 ∧ st = err) ∨
    (∃ info, Effect.dequeueOutputBuffer st info ∈ ext ∧ st ≠ OK ∧ st ≠ -EAGAIN) ∨
    (st = ERROR_END_OF_STREAM ∧ ∃ info, Effect.dequeueOutputBuffer OK info ∈ ext ∧
      info.flags &&& BUFFER_FLAG_EOS ≠ 0)

/-- What the feed and drain algorithms leave as it was; `p` bounds the effects added. -/
structure WorkFrame (p : Effect → Bool) (s s1 : State E) : Prop where
  mFlags : s1.mFlags = s.mFlags
  mIsVideo : s1.mIsVideo = s.mIsVideo
  mStarted : s1.mStarted = s.mStarted
  mStopping : s1.mStopping = s.mStopping
  mDoMoreWorkPending : s1.mDoMoreWorkPending = s.mDoMoreWorkPending
  mPuller : s1.mPuller = s.mPuller
  mEncoderInputBuffers : s1.mEncoderInputBuffers = s.mEncoderInputBuffers
  mEncoderReachedEOS : s1.mEncoderReachedEOS = s.mEncoderReachedEOS
  mErrorCode : s1.mErrorCode = s.mErrorCode
  mStopReplyIDQueue : s1.mStopReplyIDQueue = s.mStopReplyIDQueue
  mEncoder : s1.mEncoder.isSome = s.mEncoder.isSome
  outputs : ∃ new, s1.mOutputBufferQueue = s.mOutputBufferQueue ++ new
  log : ∃ ext, s1.log = s.log ++ ext ∧ ∀ x ∈ ext, p x = true

/-- How the status `st` of `doMoreWork` relates to the effects `ext` it added. -/
structure WorkOutcome (numOutput : Int) (ext : List Effect) (st : Status) : Prop where
  fatal : ∀ e info, Effect.dequeueOutputBuffer e info ∈ ext → isFatal e → st = e
  cases : st = OK ∨
    (numOutput ≤ 0 ∧ ∃ i, Effect.dequeueInputBuffer st i ∈ ext ∧ st ≠ OK) ∨
    (∃ info, Effect.dequeueOutputBuffer st info ∈ ext ∧ st ≠ OK ∧ st ≠ -EAGAIN) ∨
    (st = ERROR_END_OF_STREAM ∧ ∃ info, Effect.dequeueOutputBuffer OK info ∈ ext ∧
      info.flags &&& BUFFER_FLAG_EOS ≠ 0)

/-- The responses posted to the requester `replyID`, oldest first. -/
def repliesTo (replyID : Nat) : List Effect → List (Option Status)
  | [] => []
  | Effect.postReply id r :: l =>
    if id = replyID then r :: repliesTo replyID l else repliesTo replyID l
  | _ :: l => repliesTo replyID l

/-- The results of `n` consecutive `read` calls; a call that blocks ends the list
with `none`. -/
def readRepeat : Nat → State E → List (Option (Status × Option MediaBuffer))
  | 0, _ => []
  | n + 1, s =>
    match read s with
    | none => [none]
    | some (err, mbuf, s1) => some (err, mbuf) :: readRepeat n s1

/-- A step taken after EOS: a handled message or a further `signalEOS` call. -/
inductive Step where
  | handle (msg : Message)
  | eos (err : Status)
deriving DecidableEq, Repr

/-- Taking a sequence of steps, one after the other. -/
def runSteps (C : MediaCodec E) : List Step → State E → Except Fault (State E)
  | [], s => .ok s
  | Step.handle m :: rest, s =>
    match onMessageReceived C m s with
    | .error f => .error f
    | .ok s1 => runSteps C rest s1
  | Step.eos err :: rest, s => runSteps C rest (signalEOS err s)

/-- How many times the encoder's release operation has been invoked. -/
def releaseCount (log : List Effect) : Nat := log.count Effect.encRelease

/-- The torn-down pipeline: EOS reached, no encoder, empty slot tables, empty output
queue. -/
structure Torn (s : State E) : Prop where
  eos : s.mEncoderReachedEOS = true
  encoder : s.mEncoder = none
  inputs : s.mEncoderInputBuffers = []
  outputs : s.mEncoderOutputBuffers = []
  queue : s.mOutputBufferQueue = []

/-- What a step of a torn-down pipeline keeps. -/
structure Kept (s s1 : State E) : Prop where
  torn : Torn s1
  code : s1.mErrorCode = s.mErrorCode
  releases : releaseCount s1.log = releaseCount s.log

/-- The reply id a message carries, if its sender awaits a response. -/
def Message.replyID : Message → Option Nat
  | Message.kWhatStart id _ _ => some id
  | Message.kWhatStop id => some id
  | _ => none

/-- The invariant of a successfully initialised pipeline that has handled the messages
`hist`: the encoder is null exactly after EOS, stopping excludes EOS, pending stop
requests imply stopping, the release was invoked once after EOS and never before, every
requester has as many replies and pending entries as it sent requests, and a reply with
a status answers a start request. -/
structure Sound (hist : List Message) (s : State E) : Prop where
  enc_eos : s.mEncoder = none ↔ s.mEncoderReachedEOS = true
  stopping_eos : s.mStopping = true → s.mEncoderReachedEOS = false
  queue_stopping : s.mStopReplyIDQueue ≠ [] → s.mStopping = true
  release : releaseCount s.log = if s.mEncoderReachedEOS = true then 1 else 0
  replies : ∀ id, (repliesTo id s.log).length + s.mStopReplyIDQueue.count id =
    (hist.filterMap Message.replyID).count id
  noStatus : ∀ id r, r ∈ repliesTo id s.log → r ≠ none →
    ∃ p e, Message.kWhatStart id p e ∈ hist

/-- What the handlers leave as it was outside EOS handling and replies. -/
structure CtlFrame (s s1 : State E) : Prop where
  mStopping : s1.mStopping = s.mStopping
  mEncoderReachedEOS : s1.mEncoderReachedEOS = s.mEncoderReachedEOS
  mStopReplyIDQueue : s1.mStopReplyIDQueue = s.mStopReplyIDQueue
  mEncoder : s1.mEncoder.isSome = s.mEncoder.isSome
  log : ∃ ext, s1.log = s.log ++ ext ∧ ∀ x ∈ ext, x.isQuiet = true

/-- What a `read` result shows: the status and the timestamp of the buffer, if any. -/
def summary (r : Status × Option MediaBuffer) : Status × Option Int :=
  (r.1, match r.2 with
        | some b => b.kKeyTime
        | none => none)

/-- The timestamps of queued jobs. -/
def jobTimes (l : List Job) : List (Option Int) := l.map (fun j => some j.timeUs)

/-- The timestamps of buffers. -/
def bufferTimes (l : List MediaBuffer) : List (Option Int) := l.map (fun b => b.kKeyTime)

/-- The timestamps of the buffers among access units (the null sentinel has none). -/
def unitTimes : List (Option MediaBuffer) → List (Option Int)
  | [] => []
  | none :: l => unitTimes l
  | some b :: l => b.kKeyTime :: unitTimes l

/-- The timestamps inside the encoder, oldest first: completed outputs, then queued
inputs. -/
def encoderTimes : Option SlotEncoder → List (Option Int)
  | some e => jobTimes e.ready ++ jobTimes e.pending
  | none => []

/-- The timestamps inside the pipeline, oldest first: output queue, encoder, input
queue. -/
def pipeChain (s : State SlotEncoder) : List (Option Int) :=
  bufferTimes s.mOutputBufferQueue ++ encoderTimes s.mEncoder ++ unitTimes s.mInputBufferQueue

/-- The timestamps in the whole system, oldest first: what the consumer has read, the
pipeline, the notifications under way, what the source still holds. -/
def System.chain (sys : System) : List (Option Int) :=
  sys.reads.map (fun r => (summary r).2) ++ pipeChain sys.pipeline
    ++ unitTimes sys.notifyQueue ++ bufferTimes sys.puller.mSource

/-- A pull-mode pipeline before EOS on the slot encoder: live encoder, no flagged job,
only stamped buffers in the input queue, cached tables of two buffers each, and only
the slots 0 and 1 in the free-slot list and inside the encoder. -/
structure Good (s : State SlotEncoder) : Prop where
  eos : s.mEncoderReachedEOS = false
  pull : s.mFlags &&& FLAG_USE_SURFACE_INPUT = 0
  live : s.mEncoder ≠ none
  jobs : ∀ e, s.mEncoder = some e → ∀ j ∈ e.ready ++ e.pending, j.flags = 0
  inputs : ∀ x ∈ s.mInputBufferQueue, ∃ b, x = some b ∧ b.kKeyTime ≠ none
  tables : s.mEncoderInputBuffers.length = 2 ∧ s.mEncoderOutputBuffers.length = 2
  avail : ∀ i ∈ s.mAvailEncoderInputIndices, i < 2
  slots : ∀ e, s.mEncoder = some e →
    (∀ i ∈ e.freeInputs, i < 2) ∧ (∀ j ∈ e.pending, j.slot < 2) ∧
    (∀ o ∈ e.freeOutputs, o < 2) ∧ (∀ j ∈ e.ready, j.slot < 2)

/-- The invariant of the pull-mode system on the source `bufs`: the Puller is not
paused and has only pulls in its mailbox; before EOS the timestamps in the system are
those of the source, in order, and every read returned OK; after EOS the pipeline is
torn down with the end-of-stream status and the reads are an initial segment of the
source followed by end-of-stream results. -/
structure SystemInv (bufs : List MediaBuffer) (sys : System) : Prop where
  notPaused : sys.puller.mPaused = false
  pulls : ∀ m ∈ sys.pullQueue, ∃ g, m = PullerMessage.kWhatPull g
  phase :
    (Good sys.pipeline ∧ (∀ r ∈ sys.reads, r.1 = OK) ∧ sys.chain = bufferTimes bufs) ∨
    (Torn sys.pipeline ∧ sys.pipeline.mErrorCode = ERROR_END_OF_STREAM ∧
      ∃ k m, sys.reads.map summary =
        ((bufferTimes bufs).take k).map (fun t => (OK, t))
          ++ List.replicate m (ERROR_END_OF_STREAM, none))

/-- The values an int32_t can hold. -/
def InRange32 (x : Int) : Prop := -2147483648 ≤ x ∧ x ≤ 2147483647

/-- The interface of the raw source: a read that returns OK yields a buffer. -/
def Delivers {S : Type} (M : MediaSource S) : Prop :=
  ∀ src, (M.read src).1 = OK → (M.read src).2.1 ≠ none

/-- What a paused pull does after the read: the buffer, if any, is released. -/
def releasedUnread (err : Status) (mbuf : Option MediaBuffer) : List PullerEffect :=
  if err = OK then
    match mbuf with
    | some b => [PullerEffect.mbufRelease b]
    | none => []
  else []

/-- What a start request does on a started pipeline before it replies: in surface-input
mode the resume request to the encoder, if there is one; in pull mode the call of
`Puller::resume`. -/
def resumeEffects (s : State E) : List Effect :=
  if s.mFlags &&& FLAG_USE_SURFACE_INPUT ≠ 0 then
    match s.mEncoder with
    | some _ => [Effect.setParameters { dropInputFrames := false, skipFramesBefore := none }]
    | none => []
  else [Effect.pullerResume]

/-- The output slots whose dequeue succeeded, among the effects, oldest first. -/
def dequeuedSlots (ext : List Effect) : List BufferInfo :=
  ext.filterMap (fun x =>
    match x with
    | Effect.dequeueOutputBuffer err info => if err = OK then some info else none
    | _ => none)

/-- The output slots released to the encoder, among the effects, oldest first. -/
def releasedSlots (ext : List Effect) : List Nat :=
  ext.filterMap (fun x =>
    match x with
    | Effect.releaseOutputBuffer index => some index
    | _ => none)

/-- Whether a completed slot carries the end-of-stream flag. -/
def BufferInfo.isEOS (info : BufferInfo) : Bool :=
  decide (info.flags &&& BUFFER_FLAG_EOS ≠ 0)

/-- The successfully dequeued slots without the end-of-stream flag, oldest first. -/
def copiedSlots (ext : List Effect) : List BufferInfo :=
  (dequeuedSlots ext).filter (fun info => !info.isEOS)

/-- The buffer is the one the output loop builds for the slot (for some size of the
slot's storage). -/
def Built (mFlags : Nat) (mIsVideo : Bool) (info : BufferInfo) (mbuf : MediaBuffer) : Prop :=
  ∃ size, makeOutputBuffer mFlags mIsVideo size info = .ok mbuf

/-- What the output loop, allowed `n` iterations, has done between `s` and `s1` when it
returns `st`: `ext` is what it added to the log and `new` what it appended to the
output queue. -/
structure DrainTrace (s s1 : State E) (st : Status) (n : Nat) (ext : List Effect)
    (new : List MediaBuffer) : Prop where
  log : s1.log = s.log ++ ext
  queue : s1.mOutputBufferQueue = s.mOutputBufferQueue ++ new
  inputs : s1.mInputBufferQueue = s.mInputBufferQueue
  avail : s1.mAvailEncoderInputIndices = s.mAvailEncoderInputIndices
  outputWork : ∀ x ∈ ext, x.isOutputWork = true
  built : List.Forall₂ (Built s.mFlags s.mIsVideo) (copiedSlots ext) new
  released : releasedSlots ext = (dequeuedSlots ext).map BufferInfo.index
  bound : (dequeuedSlots ext).length ≤ n
  eos : ∀ info ∈ dequeuedSlots ext, info.isEOS = true →
    st = ERROR_END_OF_STREAM ∧
    ∃ pre, ext = pre ++ [Effect.dequeueOutputBuffer OK info,
        Effect.releaseOutputBuffer info.index] ∧
      ∀ i ∈ dequeuedSlots pre, i.isEOS = false

/-- Whether an effect is the submission of an input slot flagged end-of-stream. -/
def Effect.submitsEOS : Effect → Bool
  | Effect.queueInputBuffer _ _ _ _ flags _ => decide (flags &&& BUFFER_FLAG_EOS ≠ 0)
  | _ => false

/-- What a step of the pipeline keeps: the flags and the Puller; and from an input
queue without the null sentinel it leaves such a queue and submits no input slot
flagged end-of-stream. -/
structure Tidy (s s1 : State E) : Prop where
  mFlags : s1.mFlags = s.mFlags
  mPuller : s1.mPuller = s.mPuller
  inputs : none ∉ s.mInputBufferQueue → none ∉ s1.mInputBufferQueue
  log : none ∉ s.mInputBufferQueue →
    ∃ ext, s1.log = s.log ++ ext ∧ ∀ x ∈ ext, x.submitsEOS = false

/-- Whether the loopers can deliver the message to the state: a puller notification
reaches only a pull-mode pipeline (only the Puller posts it), and an encoder-activity
notification comes only while one has been requested and not yet handled. -/
def mayArrive (m : Message) (s : State E) : Bool :=
  match m with
  | Message.kWhatPullerNotify _ => decide (s.mFlags &&& FLAG_USE_SURFACE_INPUT = 0)
  | Message.kWhatEncoderActivity _ _ => s.mDoMoreWorkPending
  | _ => true

/-- Whether the loopers can deliver the messages, one after the other, from the state.
A run that aborts ends the test. -/
def deliverable (C : MediaCodec E) : List Message → State E → Bool
  | [], _ => true
  | m :: ms, s =>
    mayArrive m s &&
    (match onMessageReceived C m s with
      | .ok s1 => deliverable C ms s1
      | .error _ => true)

/-- A surface-input pipeline that has not been started has requested no activity
notification and has not reached EOS. -/
def QuietBeforeStart (s : State E) : Prop :=
  s.mFlags &&& FLAG_USE_SURFACE_INPUT ≠ 0 → s.mStarted = false →
    s.mDoMoreWorkPending = false ∧ s.mEncoderReachedEOS = false

/-- No stop is under way: the stopping flag is clear and no stop request is pending. -/
def Idle (s : State E) : Prop :=
  s.mStopping = false ∧ s.mStopReplyIDQueue = []

/-- What the stop handler does before it replies, on a pipeline that has not reached
EOS and is not stopping: the EOS handling with the release of the encoder. -/
def stopTeardown (s : State E) : List Effect :=
  s.mOutputBufferQueue.map Effect.mbufRelease ++ [Effect.condSignal] ++ [Effect.encRelease]
    ++ releaseInputs s.mInputBufferQueue
    ++ (List.range s.mEncoderInputBuffers.length).map (fun i => Effect.setMediaBufferBase i none)

/-! ## Concrete inputs -/

/-- A raw buffer of 10 bytes stamped 0. -/
def bufA : MediaBuffer := ⟨10, some 0, none, false, false⟩

/-- A raw buffer of 20 bytes stamped 33. -/
def bufB : MediaBuffer := ⟨20, some 33, none, false, false⟩

/-- A raw buffer of `size` bytes stamped `timeUs`. -/
def rawBuffer (size : Nat) (timeUs : Int) : MediaBuffer :=
  { size := size, kKeyTime := some timeUs, kKeyDecodingTime := none,
    kKeyIsCodecConfig := false, kKeyIsSyncFrame := false }

/-- The source of the example: three buffers stamped 0, 33 and 66. -/
def threeBuffers : List MediaBuffer := [rawBuffer 10 0, rawBuffer 10 33, rawBuffer 10 66]

/-- What a successful `Create` with the scripted encoder `e` yields. -/
def liveState (flags : Nat) (isVideo : Bool) (e : Script) : State Script :=
  { (construct flags isVideo : State Script) with
    mEncoder := some e
    mEncoderInputBuffers := [0, 1]
    mEncoderOutputBuffers := [0, 1] }

/-- The state after the scripted pipeline has handled the messages `ms`; a run that
aborts leaves the state it started from. -/
def afterMsgs (ms : List Message) (s : State Script) : State Script :=
  match run scriptCodec ms s with
  | .ok t => t
  | .error _ => s

/-- The state after the scripted pipeline has taken the steps; a run that aborts
leaves the state it started from. -/
def afterSteps (steps : List Step) (s : State Script) : State Script :=
  match runSteps scriptCodec steps s with
  | .ok t => t
  | .error _ => s

/-- The state of the system after the events; a run that aborts leaves the state it
started from. -/
def System.after (evs : List Event) (sys : System) : System :=
  match System.run evs sys with
  | .ok t => t
  | .error _ => sys

/-- A pull-mode video pipeline after the activity handler drained one completed slot
stamped 10: one buffer is queued for the consumer and EOS has not been reached. -/
def readExample : State Script :=
  afterMsgs [Message.kWhatEncoderActivity (some 0) (some 1)]
    (liveState 0 true ⟨[], [], [(OK, ⟨0, 0, 5, 10, 0⟩)]⟩)

/-- The pipeline of `readExample` after it has handled the Puller's end-of-stream
notification: EOS reached with the end-of-stream status. -/
def readAtEos : State Script :=
  afterMsgs [Message.kWhatPullerNotify none] readExample

/-- The pull-mode pipeline with a fresh scripted encoder and the metadata-input flag. -/
def metadataPipeline : Except Fault (Option (State Script)) :=
  Create scriptCodec (some ⟨[], [], []⟩) FLAG_USE_METADATA_INPUT true

/-- A pull-mode pipeline whose encoder answers the first output dequeue with
"format changed". -/
def formatChangedPipeline : Except Fault (Option (State Script)) :=
  Create scriptCodec (some ⟨[], [], [(INFO_FORMAT_CHANGED, ⟨0, 0, 0, 0, 0⟩)]⟩) 0 true

/-- A surface-input pipeline whose encoder completes one slot flagged end-of-stream. -/
def surfaceEosPipeline : Except Fault (Option (State Script)) :=
  Create scriptCodec (some ⟨[], [], [(OK, ⟨0, 0, 0, 0, BUFFER_FLAG_EOS⟩)]⟩)
    FLAG_USE_SURFACE_INPUT true

/-- A stopping surface-input pipeline with two pending stop requests. -/
def stoppingExample : State Script :=
  { (construct FLAG_USE_SURFACE_INPUT true : State Script) with
    mEncoder := some ⟨[], [], []⟩
    mStarted := true
    mStopping := true
    mStopReplyIDQueue := [7, 9] }

/-- Steps of every kind, taken after EOS. -/
def stepsAfterEos : List Step :=
  [Step.handle (Message.kWhatStop 3), Step.handle (Message.kWhatPullerNotify (some bufA)),
   Step.eos OK, Step.handle (Message.kWhatEncoderActivity none none),
   Step.handle (Message.kWhatStart 4 none OK), Step.handle Message.kWhatPause,
   Step.handle (Message.kWhatPullerNotify none)]

/-- Two stop requests handled back to back on a fresh pull-mode pipeline. -/
def twoStops : List Message := [Message.kWhatStop 1, Message.kWhatStop 2]

/-- The order in which the Puller runs ahead: all four pulls, then the four
notifications, then a read. -/
def pullerFirst : List Event :=
  [Event.pull, Event.pull, Event.pull, Event.pull,
   Event.pullerNotify, Event.pullerNotify, Event.pullerNotify, Event.pullerNotify,
   Event.read]

/-- An order that goes in lock step for the first two buffers; then the last buffer
and the end of the stream are pulled and notified back to back. -/
def lastBufferLate : List Event :=
  [Event.encoderActivity (some (2, 0)),
   Event.pull, Event.pullerNotify, Event.encode, Event.encoderActivity (some (1, 1)), Event.read,
   Event.pull, Event.pullerNotify, Event.encode, Event.encoderActivity (some (1, 1)), Event.read,
   Event.pull, Event.pull, Event.pullerNotify, Event.pullerNotify, Event.read]

/-- An order in which every buffer is fed, encoded, drained and read before the next
one is pulled. -/
def lockStep : List Event :=
  [Event.encoderActivity (some (2, 0)),
   Event.pull, Event.pullerNotify, Event.encode, Event.encoderActivity (some (1, 1)), Event.read,
   Event.pull, Event.pullerNotify, Event.encode, Event.encoderActivity (some (1, 1)), Event.read,
   Event.pull, Event.pullerNotify, Event.encode, Event.encoderActivity (some (1, 1)), Event.read,
   Event.pull, Event.pullerNotify, Event.read]

/-- A Puller whose source is empty and which has been paused. -/
def pausedAtEnd : Puller (List MediaBuffer) :=
  { (Puller.construct [] false : Puller (List MediaBuffer)) with mPaused := true }

/-- A Puller on the three-buffer source. -/
def freshPuller : Puller (List MediaBuffer) := Puller.construct threeBuffers false

/-- Messages of every kind but a start: pulls while running and while paused, and two
stops. -/
def afterStartMessages : List PullerMessage :=
  [PullerMessage.kWhatPull 0, PullerMessage.kWhatPause, PullerMessage.kWhatPull 0,
   PullerMessage.kWhatResume, PullerMessage.kWhatPull 0, PullerMessage.kWhatPull 0,
   PullerMessage.kWhatPull 0, PullerMessage.kWhatStop, PullerMessage.kWhatPull 0,
   PullerMessage.kWhatStop]

/-- A source whose start fails with status -5. -/
def failingSource : MediaSource (List MediaBuffer) :=
  { listSource with start := fun l => (-5, l) }

/-- A started surface-input pipeline with a live scripted encoder. -/
def startedSurface : State Script :=
  { liveState FLAG_USE_SURFACE_INPUT true ⟨[], [], []⟩ with mStarted := true }

/-- The surface-input pipeline whose encoder completes one slot flagged end-of-stream,
as `Create` leaves it. -/
def surfaceEosState : State Script :=
  liveState FLAG_USE_SURFACE_INPUT true ⟨[], [], [(OK, ⟨0, 0, 0, 0, BUFFER_FLAG_EOS⟩)]⟩

/-- The state after `doMoreWork` on the scripted encoder; a call that aborts leaves the
state it started from. -/
def afterWork (numInput numOutput : Int) (s : State Script) : State Script :=
  match doMoreWork scriptCodec numInput numOutput s with
  | .ok (_, t) => t
  | .error _ => s

/-- A buffer fed and submitted, the end of the stream, a late buffer, and a second
end-of-stream notification. -/
def notifiesThroughEos : List Message :=
  [Message.kWhatPullerNotify (some bufA), Message.kWhatEncoderActivity (some 1) (some 0),
   Message.kWhatPullerNotify none, Message.kWhatPullerNotify (some bufB),
   Message.kWhatPullerNotify none]

/-- An activity notification that finds a slot flagged end-of-stream, handled before
the first start request. -/
def earlyEosThenStart : List Message :=
  [Message.kWhatEncoderActivity (some 0) (some 1), Message.kWhatStart 1 none OK]

/-- A start, the activity notification it requested (which finds the end of the
stream), a second start and a stop. -/
def startThenEos : List Message :=
  [Message.kWhatStart 1 none OK, Message.kWhatEncoderActivity (some 0) (some 1),
   Message.kWhatStart 2 none OK, Message.kWhatStop 3]

/-- A raw source whose start is refused with the status INVALID_OPERATION; reads and
stop are those of the list source. -/
def refusingSource : MediaSource (List MediaBuffer) :=
  { listSource with start := fun l => (INVALID_OPERATION, l) }

/-- Messages of every kind on a pull-mode pipeline, two stops among them. -/
def pullModeMessages : List Message :=
  [Message.kWhatStart 1 none OK, Message.kWhatPullerNotify (some bufA),
   Message.kWhatEncoderActivity (some 1) (some 0), Message.kWhatStop 2,
   Message.kWhatPullerNotify none, Message.kWhatStop 3, Message.kWhatStart 4 none OK]

/-! # Theorems -/

/-! ## Frames of the feed and drain algorithms -/

/-- Doing nothing is a frame step. -/
theorem WorkFrame.same (p : Effect → Bool) (s : State E) : WorkFrame p s s :=
  ⟨rfl, rfl, rfl, rfl, rfl, rfl, rfl, rfl, rfl, rfl, rfl, ⟨[], by simp⟩, ⟨[], by simp⟩⟩

/-- Frame steps compose. -/
theorem WorkFrame.andThen {p : Effect → Bool} {s s1 s2 : State E}
    (h1 : WorkFrame p s s1) (h2 : WorkFrame p s1 s2) : WorkFrame p s s2 := by
  obtain ⟨n1, hn1⟩ := h1.outputs
  obtain ⟨n2, hn2⟩ := h2.outputs
  obtain ⟨x1, hx1, hw1⟩ := h1.log
  obtain ⟨x2, hx2, hw2⟩ := h2.log
  refine ⟨h2.mFlags.trans h1.mFlags, h2.mIsVideo.trans h1.mIsVideo, h2.mStarted.trans h1.mStarted,
    h2.mStopping.trans h1.mStopping, h2.mDoMoreWorkPending.trans h1.mDoMoreWorkPending,
    h2.mPuller.trans h1.mPuller, h2.mEncoderInputBuffers.trans h1.mEncoderInputBuffers,
    h2.mEncoderReachedEOS.trans h1.mEncoderReachedEOS, h2.mErrorCode.trans h1.mErrorCode,
    h2.mStopReplyIDQueue.trans h1.mStopReplyIDQueue, h2.mEncoder.trans h1.mEncoder,
    ⟨n1 ++ n2, by rw [hn2, hn1, List.append_assoc]⟩,
    ⟨x1 ++ x2, by rw [hx2, hx1, List.append_assoc], ?_⟩⟩
  intro x hx
  rcases List.mem_append.mp hx with h | h
  · exact hw1 x h
  · exact hw2 x h

/-- A frame step for a class of effects is one for every larger class. -/
theorem WorkFrame.mono {p q : Effect → Bool} {s s1 : State E} (h : WorkFrame p s s1)
    (hpq : ∀ x, p x = true → q x = true) : WorkFrame q s s1 := by
  obtain ⟨x1, hx1, hw1⟩ := h.log
  exact ⟨h.mFlags, h.mIsVideo, h.mStarted, h.mStopping, h.mDoMoreWorkPending, h.mPuller,
    h.mEncoderInputBuffers, h.mEncoderReachedEOS, h.mErrorCode, h.mStopReplyIDQueue, h.mEncoder,
    h.outputs, ⟨x1, hx1, fun x hx => hpq x (hw1 x hx)⟩⟩

/-- One `queueInputBuffer` call is a frame step of the input side. -/
theorem callQueueInputBuffer_frame (C : MediaCodec E) (i o n : Nat) (t : Int) (f : Nat)
    (s s1 : State E) (st : Status)
    (h : callQueueInputBuffer C i o n t f s = .ok (st, s1)) :
    WorkFrame Effect.isInputWork s s1 := by
  unfold callQueueInputBuffer at h
  split at h
  · cases h
  · rename_i e he
    simp only [Except.ok.injEq, Prod.mk.injEq] at h
    obtain ⟨_, rfl⟩ := h
    exact ⟨rfl, rfl, rfl, rfl, rfl, rfl, rfl, rfl, rfl, rfl, by simp [he], ⟨[], by simp⟩,
      ⟨_, rfl, by simp [Effect.isInputWork]⟩⟩

/-- The feed loop is a frame step of the input side, whatever the encoder returns. -/
theorem feedLoop_frame (C : MediaCodec E) :
    ∀ (q : List (Option MediaBuffer)) (s s1 : State E) (st : Status),
      feedLoop C q s = .ok (st, s1) → WorkFrame Effect.isInputWork s s1 := by
  intro q
  induction q with
  | nil =>
    intro s s1 st h
    simp only [feedLoop, Except.ok.injEq, Prod.mk.injEq] at h
    obtain ⟨_, rfl⟩ := h
    exact WorkFrame.same _ _
  | cons mbuf rest ih =>
    intro s s1 st h
    unfold feedLoop at h
    split at h
    · simp only [Except.ok.injEq, Prod.mk.injEq] at h
      obtain ⟨_, rfl⟩ := h
      exact WorkFrame.same _ _
    · rename_i idx avail hav
      have base : ∀ (ext : List Effect), (∀ x ∈ ext, x.isInputWork = true) →
          WorkFrame Effect.isInputWork s
            ({ s with mInputBufferQueue := rest, mAvailEncoderInputIndices := avail }.emit ext) :=
          fun ext hext =>
        ⟨rfl, rfl, rfl, rfl, rfl, rfl, rfl, rfl, rfl, rfl, rfl, ⟨[], by simp [State.emit]⟩,
          ⟨ext, rfl, hext⟩⟩
      split at h
      · rename_i b
        split at h
        · cases h
        · rename_i t ht
          dsimp only at h
          split at h
          · cases h
          · split at h
            · cases h
            · rename_i err s3 hc
              have f1 := callQueueInputBuffer_frame C _ _ _ _ _ _ _ _ hc
              have f0 := base [if s.mIsVideo = true then Effect.setMediaBufferBase idx (some b)
                else Effect.mbufRelease b] (by
                  intro x hx
                  simp only [List.mem_singleton] at hx
                  subst hx
                  split <;> rfl)
              split at h
              · simp only [Except.ok.injEq, Prod.mk.injEq] at h
                obtain ⟨_, rfl⟩ := h
                exact f0.andThen f1
              · exact (f0.andThen f1).andThen (ih _ _ _ h)
      · dsimp only at h
        split at h
        · cases h
        · rename_i err s3 hc
          have f1 := callQueueInputBuffer_frame C _ _ _ _ _ _ _ _ hc
          have f0 := base [] (by simp)
          simp only [State.emit, List.append_nil] at f0
          split at h
          · simp only [Except.ok.injEq, Prod.mk.injEq] at h
            obtain ⟨_, rfl⟩ := h
            exact f0.andThen f1
          · exact (f0.andThen f1).andThen (ih _ _ _ h)

/-- The input-slot loop: frame, and its status is OK or the status of a failed dequeue. -/
theorem dequeueInputLoop_frame (C : MediaCodec E) :
    ∀ (n : Nat) (s s1 : State E) (st : Status),
      dequeueInputLoop C n s = .ok (st, s1) →
      WorkFrame Effect.isInputWork s s1 ∧
      ∀ ext, s1.log = s.log ++ ext →
        (st = OK ∨ ∃ i, Effect.dequeueInputBuffer st i ∈ ext ∧ st ≠ OK) := by
  intro n
  induction n with
  | zero =>
    intro s s1 st h
    simp only [dequeueInputLoop, Except.ok.injEq, Prod.mk.injEq] at h
    obtain ⟨rfl, rfl⟩ := h
    exact ⟨WorkFrame.same _ _, fun _ _ => Or.inl rfl⟩
  | succ k ih =>
    intro s s1 st h
    unfold dequeueInputLoop at h
    split at h
    · cases h
    · rename_i e he
      dsimp only at h
      have f0 : ∀ (av : List Nat), WorkFrame Effect.isInputWork s
          { s with mEncoder := some (C.dequeueInputBuffer e).2.2
                   log := s.log ++ [Effect.dequeueInputBuffer (C.dequeueInputBuffer e).1
                      (C.dequeueInputBuffer e).2.1]
                   mAvailEncoderInputIndices := av } := fun av =>
        ⟨rfl, rfl, rfl, rfl, rfl, rfl, rfl, rfl, rfl, rfl, by simp [he], ⟨[], by simp⟩,
          ⟨_, rfl, by simp [Effect.isInputWork]⟩⟩
      split at h
      · rename_i hne
        simp only [Except.ok.injEq, Prod.mk.injEq] at h
        obtain ⟨rfl, rfl⟩ := h
        refine ⟨f0 _, fun ext hext => Or.inr ⟨(C.dequeueInputBuffer e).2.1, ?_, hne⟩⟩
        have := List.append_cancel_left hext
        rw [← this]; simp
      · obtain ⟨f1, hst⟩ := ih _ _ _ h
        refine ⟨(f0 _).andThen f1, fun ext hext => ?_⟩
        obtain ⟨ext1, hext1, _⟩ := f1.log
        rcases hst ext1 hext1 with h0 | ⟨i, hi, hne⟩
        · exact Or.inl h0
        · refine Or.inr ⟨i, ?_, hne⟩
          rw [hext1, List.append_assoc] at hext
          rw [← List.append_cancel_left hext]
          exact List.mem_append_right _ hi

/-- An iteration that adds the effects `pre` and goes on with status `errin` keeps the
outcome of the remaining iterations. -/
theorem DrainOutcome.after {pre ext : List Effect} {st errin err0 : Status} {k n : Nat}
    (hpre : ∀ e info, Effect.dequeueOutputBuffer e info ∈ pre → ¬ isFatal e)
    (hmid : errin = OK ∨
      ∃ info, Effect.dequeueOutputBuffer errin info ∈ pre ∧ errin ≠ OK ∧ errin ≠ -EAGAIN)
    (h : DrainOutcome k errin ext st) : DrainOutcome n err0 (pre ++ ext) st := by
  constructor
  · intro e info hmem hf
    rcases List.mem_append.mp hmem with hm | hm
    · exact absurd hf (hpre e info hm)
    · exact h.fatal e info hm hf
  · rcases h.cases with h0 | ⟨_, h1⟩ | ⟨info, hm, h2⟩ | ⟨h3, info, hm, h4⟩
    · exact Or.inl h0
    · rcases hmid with hm | ⟨info, hm, hne⟩
      · exact Or.inl (h1.trans hm)
      · subst h1
        exact Or.inr (Or.inr (Or.inl ⟨info, List.mem_append_left _ hm, hne⟩))
    · exact Or.inr (Or.inr (Or.inl ⟨info, List.mem_append_right _ hm, h2⟩))
    · exact Or.inr (Or.inr (Or.inr ⟨h3, info, List.mem_append_right _ hm, h4⟩))

/-- The output loop: frame, and how its status arises. -/
theorem drainLoop_frame (C : MediaCodec E) :
    ∀ (n : Nat) (err : Status) (s s1 : State E) (st : Status),
      drainLoop C n err s = .ok (st, s1) →
      WorkFrame Effect.isOutputWork s s1 ∧
      ∀ ext, s1.log = s.log ++ ext → DrainOutcome n err ext st := by
  intro n
  induction n with
  | zero =>
    intro err s s1 st h
    simp only [drainLoop, Except.ok.injEq, Prod.mk.injEq] at h
    obtain ⟨rfl, rfl⟩ := h
    refine ⟨WorkFrame.same _ _, fun ext hext => ?_⟩
    have : ext = [] := by simpa using hext
    subst this
    exact ⟨by simp, Or.inr (Or.inl ⟨rfl, rfl⟩)⟩
  | succ k ih =>
    intro err s s1 st h
    unfold drainLoop at h
    split at h
    · cases h
    · rename_i e he
      dsimp only at h
      have f0 : ∀ (tbl : List ABufferRef) (e1 : E) (out : List MediaBuffer) (more : List Effect),
          (∀ x ∈ more, x.isOutputWork = true) →
          WorkFrame Effect.isOutputWork s
          { s with mEncoder := some e1
                   mEncoderOutputBuffers := tbl
                   mOutputBufferQueue := s.mOutputBufferQueue ++ out
                   log := s.log ++ (Effect.dequeueOutputBuffer (C.dequeueOutputBuffer e).1
                      (C.dequeueOutputBuffer e).2.1 :: more) } := fun tbl e1 out more hmore =>
        ⟨rfl, rfl, rfl, rfl, rfl, rfl, rfl, rfl, rfl, rfl, by simp [he], ⟨out, rfl⟩,
          ⟨_, rfl, by
            intro x hx
            rcases List.mem_cons.mp hx with hx | hx
            · subst hx; rfl
            · exact hmore x hx⟩⟩
      split at h
      · rename_i hne
        split at h
        · rename_i hfc
          obtain ⟨f1, ho⟩ := ih _ _ _ _ h
          have fa := f0 s.mEncoderOutputBuffers (C.dequeueOutputBuffer e).2.2 [] [] (by simp)
          simp only [List.append_nil] at fa
          refine ⟨fa.andThen f1, fun ext hext => ?_⟩
          obtain ⟨ext1, hext1, _⟩ := f1.log
          have hout := ho ext1 hext1
          rw [hext1, List.append_assoc] at hext
          rw [← List.append_cancel_left hext]
          refine DrainOutcome.after ?_ ?_ hout
          · intro e0 info hm hf
            simp only [List.mem_singleton, Effect.dequeueOutputBuffer.injEq] at hm
            exact hf.2.2.1 (hm.1.trans hfc)
          · exact Or.inr ⟨(C.dequeueOutputBuffer e).2.1, by simp, hne, by rw [hfc]; decide⟩
        · split at h
          · rename_i hnf hbc
            obtain ⟨f1, ho⟩ := ih _ _ _ _ h
            have fa := f0 (C.getOutputBuffers (C.dequeueOutputBuffer e).2.2).2.1
              (C.getOutputBuffers (C.dequeueOutputBuffer e).2.2).2.2 []
              [Effect.getOutputBuffers] (by simp [Effect.isOutputWork])
            simp only [List.append_nil] at fa
            have fb : WorkFrame Effect.isOutputWork s s1 := by
              refine WorkFrame.andThen ?_ f1
              simpa [List.append_assoc] using fa
            refine ⟨fb, fun ext hext => ?_⟩
            obtain ⟨ext1, hext1, _⟩ := f1.log
            have hout := ho ext1 hext1
            rw [hext1] at hext
            simp only [List.append_assoc] at hext
            rw [← List.append_cancel_left hext]
            have : [Effect.dequeueOutputBuffer (C.dequeueOutputBuffer e).1
                (C.dequeueOutputBuffer e).2.1] ++ ([Effect.getOutputBuffers] ++ ext1) =
                [Effect.dequeueOutputBuffer (C.dequeueOutputBuffer e).1
                (C.dequeueOutputBuffer e).2.1, Effect.getOutputBuffers] ++ ext1 := by simp
            rw [this]
            refine DrainOutcome.after ?_ ?_ hout
            · intro e0 info hm hf
              simp only [List.mem_cons, Effect.dequeueOutputBuffer.injEq, List.mem_singleton,
                reduceCtorEq, or_false, List.not_mem_nil] at hm
              exact hf.2.2.2 (hm.1.trans hbc)
            · exact Or.inr ⟨(C.dequeueOutputBuffer e).2.1, by simp, hne, by rw [hbc]; decide⟩
          · rename_i hnf hnb
            simp only [Except.ok.injEq, Prod.mk.injEq] at h
            obtain ⟨rfl, rfl⟩ := h
            have fa := f0 s.mEncoderOutputBuffers (C.dequeueOutputBuffer e).2.2 [] [] (by simp)
            simp only [List.append_nil] at fa
            refine ⟨fa, fun ext hext => ?_⟩
            have hx := List.append_cancel_left hext
            subst hx
            constructor
            · intro e0 info hm hf
              simp only [List.mem_singleton, Effect.dequeueOutputBuffer.injEq] at hm
              rw [hm.1] at hf
              rw [if_neg hf.2.1]; exact hm.1.symm
            · by_cases hag : (C.dequeueOutputBuffer e).1 = -EAGAIN
              · left; rw [if_pos hag]
              · right; right; left
                rw [if_neg hag]
                exact ⟨(C.dequeueOutputBuffer e).2.1, by simp, hne, hag⟩
      · rename_i hok
        have hok : (C.dequeueOutputBuffer e).1 = OK := by simpa using hok
        split at h
        · cases h
        · rename_i s2 hq
          split at hq
          · rename_i hnoeos
            split at hq
            · cases hq
            split at hq
            · cases hq
            · rename_i mbuf hmk
              simp only [Except.ok.injEq] at hq
              subst hq
              rw [if_neg (by simpa using hnoeos)] at h
              obtain ⟨f1, ho⟩ := ih _ _ _ _ h
              have fa := f0 s.mEncoderOutputBuffers
                (C.releaseOutputBuffer (C.dequeueOutputBuffer e).2.2
                  (C.dequeueOutputBuffer e).2.1.index) [mbuf]
                [Effect.condSignal, Effect.releaseOutputBuffer (C.dequeueOutputBuffer e).2.1.index]
                (by simp [Effect.isOutputWork])
              have fb : WorkFrame Effect.isOutputWork s s1 := by
                refine WorkFrame.andThen ?_ f1
                simpa [List.append_assoc] using fa
              refine ⟨fb, fun ext hext => ?_⟩
              obtain ⟨ext1, hext1, _⟩ := f1.log
              have hout := ho ext1 hext1
              rw [hext1] at hext
              simp only [List.append_assoc] at hext
              rw [← List.append_cancel_left hext]
              have : [Effect.dequeueOutputBuffer (C.dequeueOutputBuffer e).1
                  (C.dequeueOutputBuffer e).2.1] ++ ([Effect.condSignal] ++
                  ([Effect.releaseOutputBuffer (C.dequeueOutputBuffer e).2.1.index] ++ ext1)) =
                  [Effect.dequeueOutputBuffer (C.dequeueOutputBuffer e).1
                  (C.dequeueOutputBuffer e).2.1, Effect.condSignal,
                  Effect.releaseOutputBuffer (C.dequeueOutputBuffer e).2.1.index] ++ ext1 := by
                simp
              rw [this]
              refine DrainOutcome.after ?_ (Or.inl rfl) hout
              intro e0 info hm hf
              simp only [List.mem_cons, Effect.dequeueOutputBuffer.injEq, List.mem_singleton,
                reduceCtorEq, or_false, List.not_mem_nil] at hm
              exact hf.1 (hm.1.trans hok)
          · rename_i heos
            simp only [Except.ok.injEq] at hq
            subst hq
            rw [if_pos (by simpa using heos)] at h
            simp only [Except.ok.injEq, Prod.mk.injEq] at h
            obtain ⟨rfl, rfl⟩ := h
            have fa := f0 s.mEncoderOutputBuffers
                (C.releaseOutputBuffer (C.dequeueOutputBuffer e).2.2
                  (C.dequeueOutputBuffer e).2.1.index) []
                [Effect.releaseOutputBuffer (C.dequeueOutputBuffer e).2.1.index]
                (by simp [Effect.isOutputWork])
            refine ⟨by simpa [List.append_assoc] using fa, fun ext hext => ?_⟩
            simp only [List.append_assoc] at hext
            have hx := List.append_cancel_left hext
            subst hx
            constructor
            · intro e0 info hm hf
              simp only [List.singleton_append, List.mem_cons, Effect.dequeueOutputBuffer.injEq,
                List.mem_singleton, reduceCtorEq, or_false, List.not_mem_nil] at hm
              exact absurd (hm.1.trans hok) hf.1
            · right; right; right
              refine ⟨rfl, (C.dequeueOutputBuffer e).2.1, ?_, by simpa using heos⟩
              rw [hok]; simp

/-- The function `feedEncoderInputBuffers` is a frame step of the input side. -/
theorem feedEncoderInputBuffers_frame (C : MediaCodec E) (s s1 : State E) (st : Status)
    (h : feedEncoderInputBuffers C s = .ok (st, s1)) : WorkFrame Effect.isInputWork s s1 :=
  feedLoop_frame C _ _ _ _ h

/-- The function `doMoreWork`: frame, and how its status arises. -/
theorem doMoreWork_frame (C : MediaCodec E) (numInput numOutput : Int) (s s1 : State E)
    (st : Status) (h : doMoreWork C numInput numOutput s = .ok (st, s1)) :
    WorkFrame Effect.isWork s s1 ∧
    ∀ ext, s1.log = s.log ++ ext → WorkOutcome numOutput ext st := by
  have hin : ∀ x, Effect.isInputWork x = true → Effect.isWork x = true := by
    intro x hx; simp [Effect.isWork, hx]
  have hout : ∀ x, Effect.isOutputWork x = true → Effect.isWork x = true := by
    intro x hx; simp [Effect.isWork, hx]
  unfold doMoreWork at h
  split at h
  · split at h
    · cases h
    · rename_i err sa ha
      split at h
      · cases h
      · rename_i x sb hb
        obtain ⟨fa, hsa⟩ := dequeueInputLoop_frame C _ _ _ _ ha
        have fb := feedEncoderInputBuffers_frame C _ _ _ hb
        obtain ⟨fc, hsc⟩ := drainLoop_frame C _ _ _ _ _ h
        have fab := fa.andThen fb
        refine ⟨(fab.mono hin).andThen (fc.mono hout), fun ext hext => ?_⟩
        obtain ⟨xa, hxa, _⟩ := fa.log
        obtain ⟨xab, hxab, hwab⟩ := fab.log
        obtain ⟨xb, hxb, _⟩ := fb.log
        obtain ⟨xc, hxc, _⟩ := fc.log
        have hd := hsc xc hxc
        have hsplit : ext = xab ++ xc := by
          rw [hxc, hxab, List.append_assoc] at hext
          exact (List.append_cancel_left hext).symm
        have hxab2 : xab = xa ++ xb := by
          rw [hxb, hxa, List.append_assoc] at hxab
          exact (List.append_cancel_left hxab).symm
        subst hsplit
        constructor
        · intro e info hm hf
          rcases List.mem_append.mp hm with hm | hm
          · have := hwab _ hm
            simp [Effect.isInputWork] at this
          · exact hd.fatal e info hm hf
        · rcases hd.cases with h0 | ⟨hz, h1⟩ | ⟨info, hm, h2⟩ | ⟨h3, info, hm, h4⟩
          · exact Or.inl h0
          · rcases hsa xa hxa with h5 | ⟨i, hi, hne⟩
            · exact Or.inl (h1.trans h5)
            · subst h1
              refine Or.inr (Or.inl ⟨?_, i, ?_, hne⟩)
              · exact Int.toNat_eq_zero.mp hz
              · rw [hxab2]
                exact List.mem_append_left _ (List.mem_append_left _ hi)
          · exact Or.inr (Or.inr (Or.inl ⟨info, List.mem_append_right _ hm, h2⟩))
          · exact Or.inr (Or.inr (Or.inr ⟨h3, info, List.mem_append_right _ hm, h4⟩))
  · obtain ⟨fc, hsc⟩ := drainLoop_frame C _ _ _ _ _ h
    refine ⟨fc.mono hout, fun ext hext => ?_⟩
    have hd := hsc ext hext
    refine ⟨hd.fatal, ?_⟩
    rcases hd.cases with h0 | ⟨_, h1⟩ | h2 | h3
    · exact Or.inl h0
    · exact Or.inl h1
    · exact Or.inr (Or.inr (Or.inl h2))
    · exact Or.inr (Or.inr (Or.inr h3))

/-! ## Feeding -/

/-- One iteration of the feed loop on a buffer whose slot is in the input table and
whose submission succeeds. -/
theorem feedLoop_cons_some (C : MediaCodec E) (s : State E) (e0 : E) (b : MediaBuffer)
    (rest : List (Option MediaBuffer)) (idx : Nat) (avail : List Nat) (t : Int)
    (hav : s.mAvailEncoderInputIndices = idx :: avail) (hk : b.kKeyTime = some t)
    (hin : idx < s.mEncoderInputBuffers.length)
    (he : s.mEncoder = some e0) (hr : (C.queueInputBuffer e0 idx 0 b.size t 0).1 = OK) :
    feedLoop C (some b :: rest) s = feedLoop C rest
      { s with
        mInputBufferQueue := rest
        mAvailEncoderInputIndices := avail
        mEncoder := some (C.queueInputBuffer e0 idx 0 b.size t 0).2
        log := s.log ++ feedEffects s.mIsVideo (some b, idx) } := by
  simp [feedLoop, hav, hk, List.getElem?_eq_getElem hin, callQueueInputBuffer, he, hr,
    State.emit, feedEffects, submission]

/-- After EOS `read` returns the stored status, no buffer and the unchanged state, any
number of times. -/
theorem read_after_eos (s : State E) (he : s.mEncoderReachedEOS = true) :
    read s = some (s.mErrorCode, none, s) ∧
    ∀ n, readRepeat n s = List.replicate n (some (s.mErrorCode, none)) := by
  have hr : read s = some (s.mErrorCode, none, s) := by
    unfold read; rw [he]; cases s.mOutputBufferQueue <;> rfl
  refine ⟨hr, ?_⟩
  intro n
  induction n with
  | zero => rfl
  | succ k ih => simp [readRepeat, hr, ih, List.replicate_succ]

/-- The call `read` blocks exactly while its wait loop's condition holds: the output
queue is empty and EOS has not been reached. -/
theorem read_blocks_iff (s : State E) :
    read s = none ↔ (s.mOutputBufferQueue = [] ∧ s.mEncoderReachedEOS = false) := by
  unfold read
  cases s.mOutputBufferQueue <;> cases s.mEncoderReachedEOS <;> simp

/-- C3: in a state where the wait loop of `read` is not entered (the output queue is
not empty or EOS has been reached), either EOS has been reached and `read` returns the
stored status with no buffer and the state unchanged (so any number of further reads
return the same), or EOS has not been reached, the queue is not empty and `read` returns
OK with the oldest buffer, leaving the tail of the queue. -/
theorem read_nonblocking (s : State E)
    (h : ¬ (s.mOutputBufferQueue = [] ∧ s.mEncoderReachedEOS = false)) :
    (s.mEncoderReachedEOS = true ∧ read s = some (s.mErrorCode, none, s) ∧
      ∀ n, readRepeat n s = List.replicate n (some (s.mErrorCode, none))) ∨
    (s.mEncoderReachedEOS = false ∧ ∃ b rest, s.mOutputBufferQueue = b :: rest ∧
      read s = some (OK, some b, { s with mOutputBufferQueue := rest })) := by
  cases he : s.mEncoderReachedEOS with
  | true =>
    left
    exact ⟨rfl, (read_after_eos s he).1, (read_after_eos s he).2⟩
  | false =>
    right
    cases hq : s.mOutputBufferQueue with
    | nil => exact absurd ⟨hq, he⟩ h
    | cons b rest =>
      exact ⟨rfl, b, rest, rfl, by unfold read; rw [he, hq]⟩

/-- C3 at two states the handlers produce: before EOS, with the buffer of a drained
slot queued, `read` returns OK with that buffer and empties the queue; after the
end-of-stream notification every `read` returns the end-of-stream status and no
buffer. -/
theorem read_nonblocking_witness :
    (read readExample = some (OK, some ⟨0, some 10, some 10, false, false⟩,
        { readExample with mOutputBufferQueue := [] })) ∧
    (read readAtEos = some (ERROR_END_OF_STREAM, none, readAtEos) ∧
      ∀ n, readRepeat n readAtEos = List.replicate n (some (ERROR_END_OF_STREAM, none))) := by
  constructor
  · rcases read_nonblocking readExample (fun h => absurd h.1 (by decide)) with
      ⟨heos, _⟩ | ⟨_, b, rest, hq, hr⟩
    · exact absurd heos (by decide)
    · have hq0 : readExample.mOutputBufferQueue = [⟨0, some 10, some 10, false, false⟩] := rfl
      rw [hq0] at hq
      simp only [List.cons.injEq] at hq
      obtain ⟨rfl, rfl⟩ := hq
      exact hr
  · rcases read_nonblocking readAtEos (fun h => absurd h.2 (by decide)) with
      ⟨_, hr, hn⟩ | ⟨heos, _⟩
    · exact ⟨hr, hn⟩
    · exact absurd heos (by decide)

/-! ## Pause -/

/-- C6 at the failing input: with only the metadata-input flag set (surface-input
clear), initialisation succeeds with a Puller, and the pause handler aborts on the
CHECK of `suspend` instead of forwarding to the Puller. -/
theorem pause_metadata_input_aborts :
    FLAG_USE_METADATA_INPUT &&& FLAG_USE_SURFACE_INPUT = 0 ∧
    ∃ s, metadataPipeline = .ok (some s) ∧ s.mPuller = true ∧
      (match onMessageReceived scriptCodec Message.kWhatPause s with
       | .error f => f = Fault.checkFailed
       | .ok _ => False) :=
  ⟨by decide, _, rfl, rfl, rfl⟩

/-- With no flag at all the pause handler forwards to the Puller and leaves the
encoder alone; with the surface-input flag it sets drop-input-frames on a live encoder. -/
theorem pause_other_flags (C : MediaCodec E) (s : State E) :
    (s.mFlags = 0 → s.mPuller = true →
      onMessageReceived C Message.kWhatPause s = .ok (s.emit [Effect.pullerPause])) ∧
    (s.mFlags &&& FLAG_USE_SURFACE_INPUT ≠ 0 → ∀ e, s.mEncoder = some e →
      onMessageReceived C Message.kWhatPause s =
        .ok { s with mEncoder := some (C.setParameters e ⟨true, none⟩)
                     log := s.log ++ [Effect.setParameters ⟨true, none⟩] }) := by
  constructor
  · intro h0 hp
    simp [onMessageReceived, h0, hp]
  · intro hs e he
    have hne : s.mFlags ≠ 0 := by
      intro h0; rw [h0] at hs; exact hs (by decide)
    simp [onMessageReceived, hne, FLAG_USE_SURFACE_INPUT, suspend, he]
    simpa [FLAG_USE_SURFACE_INPUT] using hs

/-! ## Reserved codes -/

/-- C7 at the failing input: with `numOutput = 1` and "format changed" as the answer
to the only output dequeue, `doMoreWork` returns the reserved code, and the activity
handler signals EOS with it: the encoder is released and `read` returns the code. -/
theorem doMoreWork_reserved_code_last_iteration :
    ∃ s s1 s2, formatChangedPipeline = .ok (some s) ∧
      doMoreWork scriptCodec 0 1 { s with mDoMoreWorkPending := false } =
        .ok (INFO_FORMAT_CHANGED, s1) ∧
      onMessageReceived scriptCodec (Message.kWhatEncoderActivity (some 0) (some 1)) s = .ok s2 ∧
      s2.mEncoderReachedEOS = true ∧ s2.mErrorCode = INFO_FORMAT_CHANGED ∧
      s2.mEncoder = none ∧ Effect.encRelease ∈ s2.log ∧
      read s2 = some (INFO_FORMAT_CHANGED, none, s2) :=
  ⟨_, _, _, rfl, rfl, rfl, rfl, rfl, rfl, by decide, rfl⟩

/-! ## Stop replies -/

/-- C5 fails as stated: a stop request (reply id 7) is pending when EOS fires with
the end-of-stream status; the reply posted to it carries no status, so `stop` returns
OK, which is not the status EOS fired with. -/
theorem stop_status_is_not_eos_status :
    ∃ s0 s1 s2, surfaceEosPipeline = .ok (some s0) ∧
      run scriptCodec [Message.kWhatStart 1 none OK, Message.kWhatStop 7] s0 = .ok s1 ∧
      s1.mEncoderReachedEOS = false ∧ s1.mStopReplyIDQueue = [7] ∧
      onMessageReceived scriptCodec (Message.kWhatEncoderActivity none none) s1 = .ok s2 ∧
      s2.mEncoderReachedEOS = true ∧ s2.mErrorCode = ERROR_END_OF_STREAM ∧
      repliesTo 7 s2.log = [none] ∧
      (stop s2 OK none).1 = OK ∧ (stop s2 OK none).1 ≠ s2.mErrorCode :=
  ⟨_, _, _, rfl, rfl, rfl, rfl, rfl, rfl, rfl, rfl, rfl, by decide⟩

/-- A list of replies consists of replies. -/
theorem filter_isReply_map (ids : List Nat) :
    (ids.map (fun id => Effect.postReply id none)).filter Effect.isReply =
      ids.map (fun id => Effect.postReply id none) := by
  induction ids with
  | nil => rfl
  | cons a l ih => simp [Effect.isReply, ih]

/-- Releasing the queued inputs posts no reply. -/
theorem filter_isReply_releaseInputs (q : List (Option MediaBuffer)) :
    (releaseInputs q).filter Effect.isReply = [] := by
  induction q with
  | nil => rfl
  | cons a l ih =>
    cases a with
    | none => simpa [releaseInputs] using ih
    | some b => simpa [releaseInputs, Effect.isReply] using ih

/-- The replies `signalEOS` posts when it fires for a stopping pipeline. -/
theorem signalEOS_replies (err : Status) (s : State E)
    (heos : s.mEncoderReachedEOS = false) (hstop : s.mStopping = true) :
    ((signalEOS err s).log.drop s.log.length).filter Effect.isReply =
      s.mStopReplyIDQueue.map (fun id => Effect.postReply id none) ∧
    (signalEOS err s).mErrorCode = err ∧ (signalEOS err s).mEncoderReachedEOS = true ∧
    (signalEOS err s).mStopReplyIDQueue = [] := by
  cases he : s.mEncoder with
  | none =>
    simp [signalEOS, heos, hstop, releaseEncoder, he, List.append_assoc, List.filter_append,
      filter_isReply_map, Effect.isReply, List.filter_map, Function.comp_def]
  | some e =>
    simp [signalEOS, heos, hstop, releaseEncoder, he, List.append_assoc, List.filter_append,
      filter_isReply_map, Effect.isReply, List.filter_map, Function.comp_def,
      filter_isReply_releaseInputs]

/-- C5 as amended: when EOS fires with any status `err` for a stopping pipeline, every
pending stop request gets a reply without status field, and `stop` returns OK for such
a reply; a stop request handled after EOS is answered at once with the same kind of
reply. -/
theorem stop_replies_carry_no_status (C : MediaCodec E) (err : Status) (s : State E)
    (heos : s.mEncoderReachedEOS = false) (hstop : s.mStopping = true) :
    (((signalEOS err s).log.drop s.log.length).filter Effect.isReply =
        s.mStopReplyIDQueue.map (fun id => Effect.postReply id none) ∧
      (signalEOS err s).mErrorCode = err ∧
      (signalEOS err s).mStopReplyIDQueue = []) ∧
    (∀ t : State E, (stop t OK none).1 = OK) ∧
    (∀ (t : State E) (replyID : Nat), t.mEncoderReachedEOS = true →
      onMessageReceived C (Message.kWhatStop replyID) t =
        .ok (t.emit [Effect.postReply replyID none])) := by
  obtain ⟨h1, h2, _, h4⟩ := signalEOS_replies err s heos hstop
  refine ⟨⟨h1, h2, h4⟩, fun _ => rfl, ?_⟩
  intro t id ht
  simp [onMessageReceived, ht]

/-- C5 as amended, at a concrete stopping pipeline and an error status. -/
theorem stop_replies_carry_no_status_witness :
    (((signalEOS (-5) stoppingExample).log.drop stoppingExample.log.length).filter
        Effect.isReply =
        stoppingExample.mStopReplyIDQueue.map (fun id => Effect.postReply id none) ∧
      (signalEOS (-5) stoppingExample).mErrorCode = -5 ∧
      (signalEOS (-5) stoppingExample).mStopReplyIDQueue = []) ∧
    (∀ t : State Script, (stop t OK none).1 = OK) ∧
    (∀ (t : State Script) (replyID : Nat), t.mEncoderReachedEOS = true →
      onMessageReceived scriptCodec (Message.kWhatStop replyID) t =
        .ok (t.emit [Effect.postReply replyID none])) :=
  stop_replies_carry_no_status scriptCodec (-5) stoppingExample rfl rfl

/-! ## Would-block and encoder errors -/

/-- The activity handler on a live encoder: it runs `doMoreWork` with the pending
flag cleared, then reschedules on OK and signals EOS otherwise. -/
theorem onEncoderActivity_eq (C : MediaCodec E) (s s1 : State E) (ib ob : Option Int)
    (st : Status) (henc : s.mEncoder ≠ none)
    (hrun : doMoreWork C (countOrMax ib) (countOrMax ob) { s with mDoMoreWorkPending := false } =
      .ok (st, s1)) :
    onMessageReceived C (Message.kWhatEncoderActivity ib ob) s =
      if st = OK then scheduleDoMoreWork C s1 else .ok (signalEOS st s1) := by
  cases he : s.mEncoder with
  | none => exact absurd he henc
  | some e =>
    simp only [he] at hrun
    simp only [onMessageReceived, he, hrun]

/-- C8 fails as stated: `queueInputBuffer` returns the error -5 while the puller
notification is handled, and the handler ends with EOS not reached; a `read` blocks
instead of returning -5. -/
theorem queueInputBuffer_error_is_dropped :
    ∃ s0 s1 s2, Create scriptCodec (some ⟨[(OK, 0)], [-5], []⟩) 0 true = .ok (some s0) ∧
      run scriptCodec [Message.kWhatStart 1 none OK,
        Message.kWhatEncoderActivity (some 1) (some 1)] s0 = .ok s1 ∧
      s1.mEncoderReachedEOS = false ∧ s1.mAvailEncoderInputIndices = [0] ∧
      onMessageReceived scriptCodec (Message.kWhatPullerNotify (some bufA)) s1 = .ok s2 ∧
      Effect.queueInputBuffer 0 0 10 0 0 (-5) ∈ s2.log.drop s1.log.length ∧
      s2.mEncoderReachedEOS = false ∧ s2.mErrorCode = OK ∧ read s2 = none :=
  ⟨_, _, _, rfl, rfl, rfl, rfl, rfl, by decide, rfl, rfl, rfl⟩

/-- Releasing the queued inputs adds only teardown effects. -/
theorem releaseInputs_isTeardown (q : List (Option MediaBuffer)) :
    ∀ x ∈ releaseInputs q, x.isTeardown = true := by
  induction q with
  | nil => simp [releaseInputs]
  | cons a l ih =>
    cases a with
    | none => simpa [releaseInputs] using ih
    | some b =>
      intro x hx
      simp only [releaseInputs, List.mem_cons] at hx
      rcases hx with rfl | hx
      · rfl
      · exact ih x hx

/-- The function `releaseEncoder` adds only teardown effects. -/
theorem releaseEncoder_log (s : State E) :
    ∃ more, (releaseEncoder s).log = s.log ++ more ∧ ∀ x ∈ more, x.isTeardown = true := by
  unfold releaseEncoder
  split
  · exact ⟨[], by simp, by simp⟩
  · refine ⟨_, by simp only [List.append_assoc]; rfl, ?_⟩
    intro x hx
    simp only [List.mem_append, List.mem_singleton, List.mem_map, List.mem_range] at hx
    rcases hx with rfl | hx | ⟨i, _, rfl⟩
    · rfl
    · exact releaseInputs_isTeardown _ x hx
    · rfl

/-- The function `signalEOS` adds only teardown effects. -/
theorem signalEOS_log (err : Status) (s : State E) :
    ∃ more, (signalEOS err s).log = s.log ++ more ∧ ∀ x ∈ more, x.isTeardown = true := by
  have hrep : ∀ (ids : List Nat), ∀ x ∈ ids.map (fun id => Effect.postReply id none),
      x.isTeardown = true := by
    intro ids x hx
    simp only [List.mem_map] at hx
    obtain ⟨i, _, rfl⟩ := hx
    rfl
  have key : ∀ (t : State E), (∃ m1, t.log = s.log ++ m1 ∧ ∀ x ∈ m1, x.isTeardown = true) →
      ∃ more, (if t.mStopping = true ∧ t.mEncoderReachedEOS = true then
          { t with
            log := t.log ++ t.mStopReplyIDQueue.map (fun id => Effect.postReply id none)
            mStopReplyIDQueue := []
            mStopping := false }
        else t).log = s.log ++ more ∧ ∀ x ∈ more, x.isTeardown = true := by
    intro t ht
    obtain ⟨m1, h1, h2⟩ := ht
    split
    · refine ⟨m1 ++ t.mStopReplyIDQueue.map (fun id => Effect.postReply id none), ?_, ?_⟩
      · simp only [h1, List.append_assoc]
      · intro x hx
        rcases List.mem_append.mp hx with h | h
        · exact h2 x h
        · exact hrep _ x h
    · exact ⟨m1, h1, h2⟩
  unfold signalEOS
  apply key
  split
  · obtain ⟨m, hm1, hm2⟩ := releaseEncoder_log
      { s with
          log := s.log ++ s.mOutputBufferQueue.map Effect.mbufRelease ++ [Effect.condSignal]
          mOutputBufferQueue := []
          mEncoderReachedEOS := true
          mErrorCode := err }
    refine ⟨s.mOutputBufferQueue.map Effect.mbufRelease ++ [Effect.condSignal] ++ m, ?_, ?_⟩
    · rw [hm1]; simp only [List.append_assoc]
    · intro x hx
      simp only [List.mem_append, List.mem_map, List.mem_singleton] at hx
      rcases hx with (⟨b, _, rfl⟩ | rfl) | hx
      · rfl
      · rfl
      · exact hm2 x hx
  · exact ⟨[], by simp, by simp⟩

/-- What `releaseEncoder` leaves as it was; afterwards the encoder is null. -/
theorem releaseEncoder_fields (s : State E) :
    (releaseEncoder s).mEncoderReachedEOS = s.mEncoderReachedEOS ∧
    (releaseEncoder s).mErrorCode = s.mErrorCode ∧
    (releaseEncoder s).mStopping = s.mStopping ∧
    (releaseEncoder s).mStopReplyIDQueue = s.mStopReplyIDQueue ∧
    (releaseEncoder s).mOutputBufferQueue = s.mOutputBufferQueue ∧
    (releaseEncoder s).mEncoder = none := by
  unfold releaseEncoder
  split
  · rename_i h; exact ⟨rfl, rfl, rfl, rfl, rfl, h⟩
  · exact ⟨rfl, rfl, rfl, rfl, rfl, rfl⟩

/-- The first `signalEOS` marks EOS and stores its status. -/
theorem signalEOS_fresh (err : Status) (s : State E) (heos : s.mEncoderReachedEOS = false) :
    (signalEOS err s).mEncoderReachedEOS = true ∧ (signalEOS err s).mErrorCode = err ∧
    (signalEOS err s).mEncoder = none ∧ (signalEOS err s).mOutputBufferQueue = [] ∧
    (signalEOS err s).mStopping = false := by
  obtain ⟨h1, h2, h3, h4, h5, h6⟩ := releaseEncoder_fields
      { s with
          log := s.log ++ s.mOutputBufferQueue.map Effect.mbufRelease ++ [Effect.condSignal]
          mOutputBufferQueue := []
          mEncoderReachedEOS := true
          mErrorCode := err }
  unfold signalEOS
  simp only [heos, if_true]
  split
  · exact ⟨h1, h2, h6, h5, rfl⟩
  · rename_i hn
    refine ⟨h1, h2, h6, h5, ?_⟩
    rw [h1] at hn
    simpa using hn

/-- The function `scheduleDoMoreWork` changes neither the EOS state nor the stored status. -/
theorem scheduleDoMoreWork_eos (C : MediaCodec E) (s s1 : State E)
    (h : scheduleDoMoreWork C s = .ok s1) :
    s1.mEncoderReachedEOS = s.mEncoderReachedEOS ∧ s1.mErrorCode = s.mErrorCode := by
  unfold scheduleDoMoreWork at h
  split at h
  · cases h; exact ⟨rfl, rfl⟩
  · split at h
    · cases h
    · cases h; exact ⟨rfl, rfl⟩

/-- C8 as amended: (1) when the activity handler completes from a state that has not
reached EOS and an output dequeue of that handler returned a status `e` that is neither
OK, nor would-block, nor a reserved code, the handler ends in the EOS-reached state with
stored status `e`, and every later `read` returns `e` with no buffer; (2) the
puller-notification handler for a buffer never changes the EOS state or the stored
status, whatever `queueInputBuffer` returns. -/
theorem encoder_errors_reach_eos (C : MediaCodec E) :
    (∀ (s s2 : State E) (ib ob : Option Int) (e : Status) (info : BufferInfo),
      s.mEncoderReachedEOS = false →
      onMessageReceived C (Message.kWhatEncoderActivity ib ob) s = .ok s2 →
      Effect.dequeueOutputBuffer e info ∈ s2.log.drop s.log.length →
      isFatal e →
      s2.mEncoderReachedEOS = true ∧ s2.mErrorCode = e ∧
        ∀ n, readRepeat n s2 = List.replicate n (some (e, none))) ∧
    (∀ (s s2 : State E) (b : MediaBuffer),
      onMessageReceived C (Message.kWhatPullerNotify (some b)) s = .ok s2 →
      s2.mEncoderReachedEOS = s.mEncoderReachedEOS ∧ s2.mErrorCode = s.mErrorCode) := by
  constructor
  · intro s s2 ib ob e info heos hrun hmem hf
    cases he : s.mEncoder with
    | none =>
      simp only [onMessageReceived, he] at hrun
      cases hrun
      simp at hmem
    | some e0 =>
      cases hw : doMoreWork C (countOrMax ib) (countOrMax ob)
          { s with mDoMoreWorkPending := false } with
      | error f =>
        simp only [he] at hw
        simp only [onMessageReceived, he, hw] at hrun
        cases hrun
      | ok r =>
        obtain ⟨st, s1⟩ := r
        rw [onEncoderActivity_eq C s s1 ib ob st (by simp [he]) hw] at hrun
        obtain ⟨fr, hout⟩ := doMoreWork_frame C _ _ _ _ _ hw
        obtain ⟨ext, hext, hwork⟩ := fr.log
        have hlog : s1.log = s.log ++ ext := hext
        by_cases hst : st = OK
        · rw [if_pos hst] at hrun
          have hs2 : ∃ more, s2.log = s1.log ++ more ∧
              ∀ x ∈ more, x = Effect.requestActivityNotification := by
            unfold scheduleDoMoreWork at hrun
            split at hrun
            · cases hrun; exact ⟨[], by simp, by simp⟩
            · split at hrun
              · cases hrun
              · cases hrun; exact ⟨_, rfl, by simp⟩
          obtain ⟨more, hmore, hreq⟩ := hs2
          rw [hmore, hlog, List.append_assoc, List.drop_left] at hmem
          rcases List.mem_append.mp hmem with hm | hm
          · have := (hout ext hext).fatal e info hm hf
            exact absurd (this.symm.trans hst) hf.1
          · exact absurd (hreq _ hm) (by simp)
        · rw [if_neg hst] at hrun
          cases hrun
          have hs1eos : s1.mEncoderReachedEOS = false := by
            rw [fr.mEncoderReachedEOS]; exact heos
          have hsig : (signalEOS st s1).mEncoderReachedEOS = true ∧
              (signalEOS st s1).mErrorCode = st ∧
              ∃ more, (signalEOS st s1).log = s1.log ++ more ∧
                ∀ x ∈ more, ∀ a c, x ≠ Effect.dequeueOutputBuffer a c := by
            obtain ⟨a1, a2, _, _, _⟩ := signalEOS_fresh st s1 hs1eos
            obtain ⟨more, hm1, hm2⟩ := signalEOS_log st s1
            refine ⟨a1, a2, more, hm1, ?_⟩
            intro x hx a c hxe
            have := hm2 x hx
            rw [hxe] at this
            cases this
          obtain ⟨h1, h2, more, hmore, hnd⟩ := hsig
          have hste : st = e := by
            rw [hmore, hlog, List.append_assoc, List.drop_left] at hmem
            rcases List.mem_append.mp hmem with hm | hm
            · exact (hout ext hext).fatal e info hm hf
            · exact absurd rfl (hnd _ hm e info)
          subst hste
          refine ⟨h1, h2, ?_⟩
          have h := (read_after_eos _ h1).2
          rw [h2] at h
          exact h
  · intro s s2 b hrun
    simp only [onMessageReceived] at hrun
    split at hrun
    · cases hrun; exact ⟨rfl, rfl⟩
    · split at hrun
      · cases hrun
      · rename_i x s3 hfeed
        have fr := feedEncoderInputBuffers_frame C _ _ _ hfeed
        obtain ⟨h1, h2⟩ := scheduleDoMoreWork_eos C _ _ hrun
        exact ⟨h1.trans fr.mEncoderReachedEOS, h2.trans fr.mErrorCode⟩

/-- C8 as amended, part (1), at a concrete pipeline: the output dequeue returns -5. -/
theorem encoder_errors_reach_eos_witness :
    Create scriptCodec (some ⟨[], [], [(-5, ⟨0, 0, 0, 0, 0⟩)]⟩) 0 true =
      .ok (some (liveState 0 true ⟨[], [], [(-5, ⟨0, 0, 0, 0, 0⟩)]⟩)) ∧
    ((afterMsgs [Message.kWhatEncoderActivity (some 0) (some 1)]
        (liveState 0 true ⟨[], [], [(-5, ⟨0, 0, 0, 0, 0⟩)]⟩)).mEncoderReachedEOS = true ∧
      (afterMsgs [Message.kWhatEncoderActivity (some 0) (some 1)]
        (liveState 0 true ⟨[], [], [(-5, ⟨0, 0, 0, 0, 0⟩)]⟩)).mErrorCode = -5 ∧
      ∀ n, readRepeat n (afterMsgs [Message.kWhatEncoderActivity (some 0) (some 1)]
        (liveState 0 true ⟨[], [], [(-5, ⟨0, 0, 0, 0, 0⟩)]⟩)) =
          List.replicate n (some (-5, none))) :=
  ⟨rfl,
    (encoder_errors_reach_eos scriptCodec).1
      (liveState 0 true ⟨[], [], [(-5, ⟨0, 0, 0, 0, 0⟩)]⟩)
      (afterMsgs [Message.kWhatEncoderActivity (some 0) (some 1)]
        (liveState 0 true ⟨[], [], [(-5, ⟨0, 0, 0, 0, 0⟩)]⟩))
      (some 0) (some 1) (-5) ⟨0, 0, 0, 0, 0⟩
      rfl rfl (by decide) (by unfold isFatal; decide)⟩

/-- With `numOutput = 0` the output loop does not run, and a would-block answer to
the input dequeue is returned by `doMoreWork` as it is: the activity handler signals EOS
with the would-block status. -/
theorem doMoreWork_input_would_block_leaks :
    (∃ s1, doMoreWork scriptCodec 1 0
        { liveState 0 true ⟨[], [], []⟩ with mDoMoreWorkPending := false } =
      .ok (-EAGAIN, s1)) ∧
    (afterMsgs [Message.kWhatEncoderActivity (some 1) (some 0)]
      (liveState 0 true ⟨[], [], []⟩)).mEncoderReachedEOS = true ∧
    (afterMsgs [Message.kWhatEncoderActivity (some 1) (some 0)]
      (liveState 0 true ⟨[], [], []⟩)).mErrorCode = -EAGAIN :=
  ⟨⟨_, rfl⟩, rfl, rfl⟩

/-- With `numOutput ≥ 1` the status of the input loop does not reach the result of
`doMoreWork`: the first output dequeue overwrites it. -/
theorem drainLoop_overwrites_status (C : MediaCodec E) (n : Nat) (err err1 : Status)
    (s : State E) : drainLoop C (n + 1) err s = drainLoop C (n + 1) err1 s := by
  simp only [drainLoop]

/-- An error of the input dequeue followed by a would-block output dequeue: `doMoreWork`
returns OK and the pipeline goes on. -/
theorem dequeueInputBuffer_error_is_overwritten :
    (afterMsgs [Message.kWhatEncoderActivity (some 1) (some 1)]
      (liveState 0 true ⟨[(-5, 0)], [], []⟩)).log =
      [Effect.dequeueInputBuffer (-5) 0, Effect.dequeueOutputBuffer (-EAGAIN) ⟨0, 0, 0, 0, 0⟩,
        Effect.requestActivityNotification] ∧
    (afterMsgs [Message.kWhatEncoderActivity (some 1) (some 1)]
      (liveState 0 true ⟨[(-5, 0)], [], []⟩)).mEncoderReachedEOS = false :=
  ⟨rfl, rfl⟩

/-! ## After EOS -/

/-- Doing nothing keeps a torn-down pipeline. -/
theorem Kept.still {s : State E} (h : Torn s) : Kept s s := ⟨h, rfl, rfl⟩

/-- Steps that keep a torn-down pipeline compose. -/
theorem Kept.thenKept {s s1 s2 : State E} (h1 : Kept s s1) (h2 : Kept s1 s2) : Kept s s2 :=
  ⟨h2.torn, h2.code.trans h1.code, h2.releases.trans h1.releases⟩

/-- Changing only fields outside the torn-down ones and adding effects other than the
release keeps everything. -/
theorem Kept.of_same_fields {s s1 : State E} (h : Torn s)
    (h1 : s1.mEncoderReachedEOS = s.mEncoderReachedEOS) (h2 : s1.mEncoder = s.mEncoder)
    (h3 : s1.mEncoderInputBuffers = s.mEncoderInputBuffers)
    (h4 : s1.mEncoderOutputBuffers = s.mEncoderOutputBuffers)
    (h5 : s1.mOutputBufferQueue = s.mOutputBufferQueue)
    (h6 : s1.mErrorCode = s.mErrorCode)
    (h7 : ∃ ext, s1.log = s.log ++ ext ∧ Effect.encRelease ∉ ext) : Kept s s1 := by
  refine ⟨⟨h1.trans h.eos, h2.trans h.encoder, h3.trans h.inputs, h4.trans h.outputs,
    h5.trans h.queue⟩, h6, ?_⟩
  obtain ⟨ext, hext, hno⟩ := h7
  rw [releaseCount, hext, List.count_append, List.count_eq_zero_of_not_mem hno]
  rfl

/-- A further `signalEOS` keeps a torn-down pipeline, its status and the release count. -/
theorem signalEOS_kept (err : Status) (s : State E) (h : Torn s) : Kept s (signalEOS err s) := by
  unfold signalEOS
  simp only [h.eos, Bool.true_eq_false, if_false, and_true]
  split
  · exact Kept.of_same_fields h (by simp [h.eos]) rfl rfl rfl rfl rfl ⟨_, rfl, by simp⟩
  · exact Kept.still h

/-- The function `resume` does nothing on a torn-down pipeline. -/
theorem resume_kept (C : MediaCodec E) (t : Int) (s s1 : State E) (h : Torn s)
    (hr : resume C t s = .ok s1) : s1 = s := by
  unfold resume at hr
  split at hr
  · cases hr
  · simp only [h.encoder] at hr
    cases hr; rfl

/-- The function `suspend` does nothing on a torn-down pipeline. -/
theorem suspend_kept (C : MediaCodec E) (s s1 : State E) (h : Torn s)
    (hr : suspend C s = .ok s1) : s1 = s := by
  unfold suspend at hr
  split at hr
  · cases hr
  · simp only [h.encoder] at hr
    cases hr; rfl

/-- The function `scheduleDoMoreWork` does nothing on a torn-down pipeline, if it completes. -/
theorem scheduleDoMoreWork_kept (C : MediaCodec E) (s s1 : State E) (h : Torn s)
    (hr : scheduleDoMoreWork C s = .ok s1) : s1 = s := by
  unfold scheduleDoMoreWork at hr
  split at hr
  · cases hr; rfl
  · simp only [h.encoder] at hr
    cases hr

/-- The function `onStart` keeps a torn-down pipeline. -/
theorem onStart_kept (C : MediaCodec E) (p : Option MetaData) (pe : Status) (s s1 : State E)
    (st : Status) (h : Torn s) (hr : onStart C p pe s = .ok (st, s1)) : Kept s s1 := by
  unfold onStart at hr
  split at hr
  · cases hr; exact Kept.still h
  · split at hr
    · split at hr
      · split at hr
        · cases hr
        · rename_i s2 h2
          cases hr
          rw [resume_kept C _ _ _ h h2]; exact Kept.still h
      · split at hr
        · cases hr
        · cases hr
          exact Kept.of_same_fields h rfl rfl rfl rfl rfl rfl ⟨_, rfl, by simp⟩
    · split at hr
      · dsimp only at hr
        split at hr
        · cases hr
        · rename_i s2 h2
          split at hr
          · cases hr
          · rename_i s3 h3
            cases hr
            have e2 := resume_kept C _ _ _ h h2
            subst e2
            have e3 := scheduleDoMoreWork_kept C _ _ h h3
            subst e3
            exact Kept.of_same_fields h rfl rfl rfl rfl rfl rfl ⟨[], by simp, by simp⟩
      · split at hr
        · cases hr
        · dsimp only at hr
          split at hr
          · cases hr
            exact Kept.of_same_fields h rfl rfl rfl rfl rfl rfl ⟨_, rfl, by simp⟩
          · cases hr
            exact Kept.of_same_fields h rfl rfl rfl rfl rfl rfl ⟨_, rfl, by simp⟩

/-- Every handled message keeps a torn-down pipeline, its status and the release count. -/
theorem onMessageReceived_kept (C : MediaCodec E) (m : Message) (s s1 : State E) (h : Torn s)
    (hr : onMessageReceived C m s = .ok s1) : Kept s s1 := by
  cases m with
  | kWhatPullerNotify mbuf =>
    cases mbuf with
    | none =>
      have hk := signalEOS_kept signalEOS_default s h
      simp only [onMessageReceived, hk.torn.encoder] at hr
      cases hr; exact hk
    | some b =>
      simp only [onMessageReceived, h.encoder] at hr
      cases hr
      exact Kept.of_same_fields h rfl rfl rfl rfl rfl rfl ⟨_, rfl, by simp⟩
  | kWhatEncoderActivity ib ob =>
    simp only [onMessageReceived, h.encoder] at hr
    cases hr
    exact Kept.of_same_fields h rfl (by simp [h.encoder]) rfl rfl rfl rfl ⟨[], by simp, by simp⟩
  | kWhatStart id p pe =>
    simp only [onMessageReceived] at hr
    split at hr
    · cases hr
    · rename_i st s2 h2
      cases hr
      have hk := onStart_kept C p pe s s2 st h h2
      exact hk.thenKept (Kept.of_same_fields hk.torn rfl rfl rfl rfl rfl rfl ⟨_, rfl, by simp⟩)
  | kWhatStop id =>
    simp only [onMessageReceived, h.eos, if_true] at hr
    cases hr
    exact Kept.of_same_fields h rfl rfl rfl rfl rfl rfl ⟨_, rfl, by simp⟩
  | kWhatPause =>
    simp only [onMessageReceived] at hr
    split at hr
    · rw [suspend_kept C _ _ h hr]; exact Kept.still h
    · split at hr
      · cases hr
      · cases hr
        exact Kept.of_same_fields h rfl rfl rfl rfl rfl rfl ⟨_, rfl, by simp⟩

/-- Every sequence of steps keeps a torn-down pipeline, its status and the release count. -/
theorem runSteps_kept (C : MediaCodec E) :
    ∀ (steps : List Step) (s s1 : State E), Torn s → runSteps C steps s = .ok s1 → Kept s s1 := by
  intro steps
  induction steps with
  | nil =>
    intro s s1 h hr
    cases hr; exact Kept.still h
  | cons x rest ih =>
    intro s s1 h hr
    cases x with
    | handle m =>
      simp only [runSteps] at hr
      split at hr
      · cases hr
      · rename_i s2 h2
        have hk := onMessageReceived_kept C m s s2 h h2
        exact hk.thenKept (ih _ _ hk.torn hr)
    | eos err =>
      simp only [runSteps] at hr
      have hk := signalEOS_kept err s h
      exact hk.thenKept (ih _ _ hk.torn hr)

/-- The first `signalEOS` on a live pipeline tears it down and invokes the release
once. -/
theorem signalEOS_torn (err : Status) (s : State E) (e0 : E) (hlive : s.mEncoder = some e0)
    (heos : s.mEncoderReachedEOS = false) :
    Torn (signalEOS err s) ∧ (signalEOS err s).mErrorCode = err ∧
      releaseCount (signalEOS err s).log = releaseCount s.log + 1 := by
  have hcount : ∀ (q : List (Option MediaBuffer)), (releaseInputs q).count Effect.encRelease = 0 := by
    intro q
    induction q with
    | nil => rfl
    | cons a l ih =>
      cases a with
      | none => simpa [releaseInputs] using ih
      | some b => simpa [releaseInputs] using ih
  have hmap1 : (s.mOutputBufferQueue.map Effect.mbufRelease).count Effect.encRelease = 0 :=
    List.count_eq_zero_of_not_mem (by simp)
  have hmap2 : ((List.range s.mEncoderInputBuffers.length).map
      (fun i => Effect.setMediaBufferBase i none)).count Effect.encRelease = 0 :=
    List.count_eq_zero_of_not_mem (by simp)
  have hmap3 : (s.mStopReplyIDQueue.map (fun id => Effect.postReply id none)).count
      Effect.encRelease = 0 :=
    List.count_eq_zero_of_not_mem (by simp)
  by_cases hs : s.mStopping = true
  · simp [signalEOS, heos, releaseEncoder, hlive, hs, releaseCount, List.count_append,
      hcount, hmap1, hmap2, hmap3]
    exact ⟨rfl, rfl, rfl, rfl, rfl⟩
  · simp [signalEOS, heos, releaseEncoder, hlive, hs, releaseCount, List.count_append,
      hcount, hmap1, hmap2, hmap3]
    exact ⟨rfl, rfl, rfl, rfl, rfl⟩

/-- C10: once a live pipeline has reached EOS with status `err`, after every further
sequence of handled messages and `signalEOS` calls that completes, EOS-reached is still
true, the stored status is still `err`, the encoder reference is null, both slot tables
and the output queue are empty, and the encoder's release has not been invoked again. -/
theorem eos_is_final (C : MediaCodec E) (s s2 : State E) (e0 : E) (err : Status)
    (steps : List Step) (hlive : s.mEncoder = some e0) (heos : s.mEncoderReachedEOS = false)
    (hrun : runSteps C steps (signalEOS err s) = .ok s2) :
    s2.mEncoderReachedEOS = true ∧ s2.mErrorCode = err ∧ s2.mEncoder = none ∧
    s2.mEncoderInputBuffers = [] ∧ s2.mEncoderOutputBuffers = [] ∧
    s2.mOutputBufferQueue = [] ∧
    releaseCount s2.log = releaseCount (signalEOS err s).log ∧
    releaseCount (signalEOS err s).log = releaseCount s.log + 1 := by
  obtain ⟨ht, hc, hrel⟩ := signalEOS_torn err s e0 hlive heos
  have hk := runSteps_kept C steps _ _ ht hrun
  exact ⟨hk.torn.eos, hk.code.trans hc, hk.torn.encoder, hk.torn.inputs, hk.torn.outputs,
    hk.torn.queue, hk.releases, hrel⟩

/-- C10 at a concrete pipeline that reached EOS with status -5 and then takes steps of
every kind. -/
theorem eos_is_final_witness :
    (afterSteps stepsAfterEos (signalEOS (-5) (liveState 0 true ⟨[], [], []⟩))).mEncoderReachedEOS
      = true ∧
    (afterSteps stepsAfterEos (signalEOS (-5) (liveState 0 true ⟨[], [], []⟩))).mErrorCode = -5 ∧
    (afterSteps stepsAfterEos (signalEOS (-5) (liveState 0 true ⟨[], [], []⟩))).mEncoder = none ∧
    (afterSteps stepsAfterEos
      (signalEOS (-5) (liveState 0 true ⟨[], [], []⟩))).mEncoderInputBuffers = [] ∧
    (afterSteps stepsAfterEos
      (signalEOS (-5) (liveState 0 true ⟨[], [], []⟩))).mEncoderOutputBuffers = [] ∧
    (afterSteps stepsAfterEos
      (signalEOS (-5) (liveState 0 true ⟨[], [], []⟩))).mOutputBufferQueue = [] ∧
    releaseCount (afterSteps stepsAfterEos
      (signalEOS (-5) (liveState 0 true ⟨[], [], []⟩))).log =
      releaseCount (signalEOS (-5) (liveState 0 true ⟨[], [], []⟩)).log ∧
    releaseCount (signalEOS (-5) (liveState 0 true ⟨[], [], []⟩)).log =
      releaseCount (liveState 0 true ⟨[], [], []⟩).log + 1 :=
  eos_is_final scriptCodec (liveState 0 true ⟨[], [], []⟩)
    (afterSteps stepsAfterEos (signalEOS (-5) (liveState 0 true ⟨[], [], []⟩)))
    ⟨[], [], []⟩ (-5) stepsAfterEos rfl rfl rfl

/-! ## The invariant of a running pipeline -/

/-- Doing nothing is a control-frame step. -/
theorem CtlFrame.unchanged (s : State E) : CtlFrame s s :=
  ⟨rfl, rfl, rfl, rfl, ⟨[], by simp⟩⟩

/-- Control-frame steps compose. -/
theorem CtlFrame.followedBy {s s1 s2 : State E} (h1 : CtlFrame s s1) (h2 : CtlFrame s1 s2) :
    CtlFrame s s2 := by
  obtain ⟨x1, hx1, hw1⟩ := h1.log
  obtain ⟨x2, hx2, hw2⟩ := h2.log
  refine ⟨h2.mStopping.trans h1.mStopping, h2.mEncoderReachedEOS.trans h1.mEncoderReachedEOS,
    h2.mStopReplyIDQueue.trans h1.mStopReplyIDQueue, h2.mEncoder.trans h1.mEncoder,
    ⟨x1 ++ x2, by rw [hx2, hx1, List.append_assoc], ?_⟩⟩
  intro x hx
  rcases List.mem_append.mp hx with h | h
  · exact hw1 x h
  · exact hw2 x h

/-- A frame step that adds only quiet effects is a control-frame step. -/
theorem WorkFrame.toCtl {p : Effect → Bool} {s s1 : State E} (h : WorkFrame p s s1)
    (hp : ∀ x, p x = true → x.isQuiet = true) : CtlFrame s s1 := by
  obtain ⟨x1, hx1, hw1⟩ := h.log
  exact ⟨h.mStopping, h.mEncoderReachedEOS, h.mStopReplyIDQueue, h.mEncoder,
    ⟨x1, hx1, fun x hx => hp x (hw1 x hx)⟩⟩

/-- The effects of the feed and drain algorithms are quiet. -/
theorem isWork_isQuiet (x : Effect) (h : x.isWork = true) : x.isQuiet = true := by
  cases x <;> simp_all [Effect.isWork, Effect.isInputWork, Effect.isOutputWork, Effect.isQuiet]

/-- The effects of the input side are quiet. -/
theorem isInputWork_isQuiet (x : Effect) (h : x.isInputWork = true) : x.isQuiet = true := by
  cases x <;> simp_all [Effect.isInputWork, Effect.isQuiet]

/-- The replies to a requester in a concatenated log. -/
theorem repliesTo_append (id : Nat) (l1 l2 : List Effect) :
    repliesTo id (l1 ++ l2) = repliesTo id l1 ++ repliesTo id l2 := by
  induction l1 with
  | nil => rfl
  | cons a l ih =>
    cases a <;> simp [repliesTo, ih]
    split <;> simp

/-- A log without replies holds no reply to anyone. -/
theorem repliesTo_no_reply (id : Nat) (l : List Effect) (h : ∀ x ∈ l, x.isReply = false) :
    repliesTo id l = [] := by
  induction l with
  | nil => rfl
  | cons a l ih =>
    have ha := h a (by simp)
    have hl := ih (fun x hx => h x (by simp [hx]))
    cases a <;> simp_all [repliesTo, Effect.isReply]

/-- A quiet effect is not a reply. -/
theorem isQuiet_not_reply (x : Effect) (h : x.isQuiet = true) : x.isReply = false := by
  cases x <;> simp_all [Effect.isQuiet, Effect.isReply]

/-- The release count of a concatenated log. -/
theorem releaseCount_append (l1 l2 : List Effect) :
    releaseCount (l1 ++ l2) = releaseCount l1 + releaseCount l2 := by
  simp [releaseCount, List.count_append]

/-- Quiet effects contain no release. -/
theorem releaseCount_quiet (l : List Effect) (h : ∀ x ∈ l, x.isQuiet = true) :
    releaseCount l = 0 := by
  apply List.count_eq_zero_of_not_mem
  intro hm
  have := h _ hm
  simp [Effect.isQuiet] at this

/-- A control-frame step keeps the release count. -/
theorem CtlFrame.releaseCount {s s1 : State E} (h : CtlFrame s s1) :
    releaseCount s1.log = releaseCount s.log := by
  obtain ⟨x, hx, hw⟩ := h.log
  rw [hx, releaseCount_append, releaseCount_quiet x hw, Nat.add_zero]

/-- A control-frame step keeps the replies to every requester. -/
theorem CtlFrame.repliesTo {s s1 : State E} (h : CtlFrame s s1) (id : Nat) :
    repliesTo id s1.log = repliesTo id s.log := by
  obtain ⟨x, hx, hw⟩ := h.log
  rw [hx, repliesTo_append, repliesTo_no_reply id x (fun y hy => isQuiet_not_reply y (hw y hy)),
    List.append_nil]

/-- The invariant survives a step that only adds quiet effects. -/
theorem Sound.of_ctl {hist : List Message} {s s1 : State E} (h : Sound hist s)
    (f : CtlFrame s s1) : Sound hist s1 := by
  refine ⟨?_, ?_, ?_, ?_, ?_, ?_⟩
  · rw [f.mEncoderReachedEOS, ← h.enc_eos]
    have := f.mEncoder
    cases h1 : s1.mEncoder <;> cases h2 : s.mEncoder <;> simp_all
  · rw [f.mStopping, f.mEncoderReachedEOS]; exact h.stopping_eos
  · rw [f.mStopping, f.mStopReplyIDQueue]; exact h.queue_stopping
  · rw [f.releaseCount, f.mEncoderReachedEOS]; exact h.release
  · intro id
    rw [f.repliesTo, f.mStopReplyIDQueue]; exact h.replies id
  · intro id r
    rw [f.repliesTo]; exact h.noStatus id r

/-- Answering a list of requesters gives each as many empty replies as it has entries. -/
theorem repliesTo_map_postReply (id : Nat) (ids : List Nat) :
    repliesTo id (ids.map (fun i => Effect.postReply i none)) =
      List.replicate (ids.count id) none := by
  induction ids with
  | nil => rfl
  | cons a l ih =>
    by_cases h : a = id
    · subst h
      simp [repliesTo, ih, List.replicate_succ]
    · have h2 : (a == id) = false := by simpa using h
      simp [repliesTo, ih, h, List.count_cons, h2]

/-- Releasing the queued inputs replies to nobody. -/
theorem repliesTo_releaseInputs (id : Nat) (q : List (Option MediaBuffer)) :
    repliesTo id (releaseInputs q) = [] := by
  induction q with
  | nil => rfl
  | cons a l ih =>
    cases a with
    | none => simpa [releaseInputs] using ih
    | some b => simpa [releaseInputs, repliesTo] using ih

/-- Releasing the queued inputs does not release the encoder. -/
theorem releaseCount_releaseInputs (q : List (Option MediaBuffer)) :
    releaseCount (releaseInputs q) = 0 := by
  induction q with
  | nil => rfl
  | cons a l ih =>
    cases a with
    | none => simpa [releaseInputs] using ih
    | some b => simpa [releaseInputs, releaseCount] using ih

/-- A release at the head of a log counts once. -/
theorem releaseCount_cons_release (l : List Effect) :
    releaseCount (Effect.encRelease :: l) = releaseCount l + 1 := by
  simp [releaseCount]

/-- A condition signal at the head of a log does not count. -/
theorem releaseCount_cons_signal (l : List Effect) :
    releaseCount (Effect.condSignal :: l) = releaseCount l := by
  simp [releaseCount]

/-- What `signalEOS` does to a state in which the encoder is null exactly after EOS,
stopping excludes EOS and pending stop requests imply stopping. -/
theorem signalEOS_effect (err : Status) (s : State E)
    (h1 : s.mEncoder = none ↔ s.mEncoderReachedEOS = true)
    (h2 : s.mStopping = true → s.mEncoderReachedEOS = false)
    (h3 : s.mStopReplyIDQueue ≠ [] → s.mStopping = true) :
    (signalEOS err s).mEncoderReachedEOS = true ∧ (signalEOS err s).mEncoder = none ∧
    (signalEOS err s).mStopping = false ∧ (signalEOS err s).mStopReplyIDQueue = [] ∧
    releaseCount (signalEOS err s).log =
      (if s.mEncoderReachedEOS = true then releaseCount s.log else releaseCount s.log + 1) ∧
    ∀ id, repliesTo id (signalEOS err s).log =
      repliesTo id s.log ++ List.replicate (s.mStopReplyIDQueue.count id) none := by
  have hq1 : ∀ id, repliesTo id (s.mOutputBufferQueue.map Effect.mbufRelease) = [] := fun id =>
    repliesTo_no_reply id _ (by simp [Effect.isReply])
  have hq2 : ∀ id, repliesTo id ((List.range s.mEncoderInputBuffers.length).map
      (fun i => Effect.setMediaBufferBase i none)) = [] := fun id =>
    repliesTo_no_reply id _ (by simp [Effect.isReply])
  have hc1 : releaseCount (s.mOutputBufferQueue.map Effect.mbufRelease) = 0 :=
    List.count_eq_zero_of_not_mem (by simp)
  have hc2 : releaseCount ((List.range s.mEncoderInputBuffers.length).map
      (fun i => Effect.setMediaBufferBase i none)) = 0 :=
    List.count_eq_zero_of_not_mem (by simp)
  have hc3 : releaseCount (s.mStopReplyIDQueue.map (fun i => Effect.postReply i none)) = 0 :=
    List.count_eq_zero_of_not_mem (by simp)
  cases heos : s.mEncoderReachedEOS with
  | true =>
    have hst : s.mStopping = false := by
      cases hs : s.mStopping with
      | false => rfl
      | true => have := h2 hs; rw [heos] at this; cases this
    have hqe : s.mStopReplyIDQueue = [] := by
      by_contra hne
      have := h3 hne
      rw [hst] at this; cases this
    have hen : s.mEncoder = none := h1.mpr heos
    simp [signalEOS, heos, hst, hqe, hen]
  | false =>
    cases hen : s.mEncoder with
    | none => have := h1.mp hen; rw [heos] at this; cases this
    | some e =>
      cases hs : s.mStopping with
      | true =>
        refine ⟨?_, ?_, ?_, ?_, ?_, ?_⟩
        · simp [signalEOS, heos, hs, releaseEncoder, hen]
        · simp [signalEOS, heos, hs, releaseEncoder, hen]
        · simp [signalEOS, heos, hs, releaseEncoder, hen]
        · simp [signalEOS, heos, hs, releaseEncoder, hen]
        · simp [signalEOS, heos, hs, releaseEncoder, hen, releaseCount_append, hc1, hc2, hc3,
            releaseCount_releaseInputs, releaseCount_cons_release, releaseCount_cons_signal]
        · intro id
          simp [signalEOS, heos, hs, releaseEncoder, hen, repliesTo_append, hq1, hq2,
            repliesTo_releaseInputs, repliesTo_map_postReply, repliesTo]
      | false =>
        have hqe : s.mStopReplyIDQueue = [] := by
          by_contra hne
          have := h3 hne
          rw [hs] at this; cases this
        refine ⟨?_, ?_, ?_, ?_, ?_, ?_⟩
        · simp [signalEOS, heos, hs, releaseEncoder, hen]
        · simp [signalEOS, heos, hs, releaseEncoder, hen]
        · simp [signalEOS, heos, hs, releaseEncoder, hen]
        · simp [signalEOS, heos, hs, releaseEncoder, hen, hqe]
        · simp [signalEOS, heos, hs, releaseEncoder, hen, releaseCount_append, hc1, hc2,
            releaseCount_releaseInputs, releaseCount_cons_release, releaseCount_cons_signal]
        · intro id
          simp [signalEOS, heos, hs, releaseEncoder, hen, repliesTo_append, hq1, hq2,
            repliesTo_releaseInputs, repliesTo, hqe]

/-- The invariant survives `signalEOS`. -/
theorem Sound.signalEOS {hist : List Message} {s : State E} (h : Sound hist s) (err : Status) :
    Sound hist (signalEOS err s) ∧ (signalEOS err s).mEncoder = none := by
  obtain ⟨a1, a2, a3, a4, a5, a6⟩ :=
    signalEOS_effect err s h.enc_eos h.stopping_eos h.queue_stopping
  refine ⟨⟨?_, ?_, ?_, ?_, ?_, ?_⟩, a2⟩
  · simp [a1, a2]
  · intro hs; rw [a3] at hs; cases hs
  · intro hq; exact absurd a4 hq
  · rw [a5, a1, h.release]
    split <;> simp
  · intro id
    rw [a6, a4, List.length_append, List.length_replicate, List.count_nil, Nat.add_zero]
    exact h.replies id
  · intro id r hr hne
    rw [a6] at hr
    rcases List.mem_append.mp hr with hr | hr
    · exact h.noStatus id r hr hne
    · exact absurd (List.eq_of_mem_replicate hr) hne

/-- The function `scheduleDoMoreWork` is a control-frame step. -/
theorem scheduleDoMoreWork_ctl (C : MediaCodec E) (s s1 : State E)
    (h : scheduleDoMoreWork C s = .ok s1) : CtlFrame s s1 := by
  unfold scheduleDoMoreWork at h
  split at h
  · cases h; exact CtlFrame.unchanged _
  · split at h
    · cases h
    · rename_i e he
      cases h
      exact ⟨rfl, rfl, rfl, by simp [he], ⟨_, rfl, by simp [Effect.isQuiet]⟩⟩

/-- The function `resume` is a control-frame step. -/
theorem resume_ctl (C : MediaCodec E) (t : Int) (s s1 : State E)
    (h : resume C t s = .ok s1) : CtlFrame s s1 := by
  unfold resume at h
  split at h
  · cases h
  · split at h
    · cases h; exact CtlFrame.unchanged _
    · rename_i e he
      cases h
      exact ⟨rfl, rfl, rfl, by simp [he], ⟨_, rfl, by simp [Effect.isQuiet]⟩⟩

/-- The function `suspend` is a control-frame step. -/
theorem suspend_ctl (C : MediaCodec E) (s s1 : State E)
    (h : suspend C s = .ok s1) : CtlFrame s s1 := by
  unfold suspend at h
  split at h
  · cases h
  · split at h
    · cases h; exact CtlFrame.unchanged _
    · rename_i e he
      cases h
      exact ⟨rfl, rfl, rfl, by simp [he], ⟨_, rfl, by simp [Effect.isQuiet]⟩⟩

/-- Changing fields outside the frame and adding quiet effects is a frame step. -/
theorem CtlFrame.of_quiet {s s1 : State E} (h1 : s1.mStopping = s.mStopping)
    (h2 : s1.mEncoderReachedEOS = s.mEncoderReachedEOS)
    (h3 : s1.mStopReplyIDQueue = s.mStopReplyIDQueue) (h4 : s1.mEncoder = s.mEncoder)
    (ext : List Effect) (h5 : s1.log = s.log ++ ext) (h6 : ∀ x ∈ ext, x.isQuiet = true) :
    CtlFrame s s1 :=
  ⟨h1, h2, h3, by rw [h4], ⟨ext, h5, h6⟩⟩

/-- The function `onStart` is a control-frame step. -/
theorem onStart_ctl (C : MediaCodec E) (p : Option MetaData) (pe : Status) (s s1 : State E)
    (st : Status) (hr : onStart C p pe s = .ok (st, s1)) : CtlFrame s s1 := by
  unfold onStart at hr
  split at hr
  · cases hr; exact CtlFrame.unchanged _
  · split at hr
    · split at hr
      · split at hr
        · cases hr
        · rename_i s2 h2
          cases hr
          exact resume_ctl C _ _ _ h2
      · split at hr
        · cases hr
        · cases hr
          exact CtlFrame.of_quiet rfl rfl rfl rfl _ rfl (by simp [Effect.isQuiet])
    · split at hr
      · dsimp only at hr
        split at hr
        · cases hr
        · rename_i s2 h2
          split at hr
          · cases hr
          · rename_i s3 h3
            cases hr
            have f := (resume_ctl C _ _ _ h2).followedBy (scheduleDoMoreWork_ctl C _ _ h3)
            exact f.followedBy (CtlFrame.of_quiet rfl rfl rfl rfl [] (by simp) (by simp))
      · split at hr
        · cases hr
        · dsimp only at hr
          split at hr
          · cases hr
            exact CtlFrame.of_quiet rfl rfl rfl rfl _ rfl (by simp [Effect.isQuiet])
          · cases hr
            exact CtlFrame.of_quiet rfl rfl rfl rfl _ rfl (by simp [Effect.isQuiet])

/-- The invariant does not depend on handled messages that await no response. -/
theorem Sound.hist_append {hist : List Message} {s : State E} (h : Sound hist s) (m : Message)
    (hm : m.replyID = none) : Sound (hist ++ [m]) s := by
  refine ⟨h.enc_eos, h.stopping_eos, h.queue_stopping, h.release, ?_, ?_⟩
  · intro id
    rw [List.filterMap_append]
    simp [hm, h.replies id]
  · intro id r hr hne
    obtain ⟨p, e, hpe⟩ := h.noStatus id r hr hne
    exact ⟨p, e, List.mem_append_left _ hpe⟩

/-- The replies to a requester in a log of one reply. -/
theorem repliesTo_singleton (id i : Nat) (r : Option Status) :
    repliesTo id [Effect.postReply i r] = if i = id then [r] else [] := by
  by_cases h : i = id <;> simp [repliesTo, h]

/-- The invariant survives the reply to a request that has just been handled. -/
theorem Sound.reply {hist : List Message} {s : State E} (h : Sound hist s) (m : Message)
    (i : Nat) (r : Option Status) (hm : m.replyID = some i)
    (hr : r ≠ none → ∃ p e, m = Message.kWhatStart i p e) :
    Sound (hist ++ [m]) (s.emit [Effect.postReply i r]) := by
  refine ⟨h.enc_eos, h.stopping_eos, h.queue_stopping, ?_, ?_, ?_⟩
  · have : releaseCount (s.emit [Effect.postReply i r]).log = releaseCount s.log := by
      simp [State.emit, releaseCount]
    rw [this]; exact h.release
  · intro id
    simp only [State.emit, repliesTo_append, repliesTo_singleton, List.length_append,
      List.filterMap_append, List.count_append]
    have := h.replies id
    by_cases hi : i = id
    · subst hi
      simp [hm]
      omega
    · have h2 : (i == id) = false := by simpa using hi
      simp [hm, hi, List.count_cons, h2]
      omega
  · intro id r1 hr1 hne
    simp only [State.emit, repliesTo_append, repliesTo_singleton, List.mem_append] at hr1
    rcases hr1 with hr1 | hr1
    · obtain ⟨p, e, hpe⟩ := h.noStatus id r1 hr1 hne
      exact ⟨p, e, List.mem_append_left _ hpe⟩
    · split at hr1
      · rename_i hi
        subst hi
        simp only [List.mem_singleton] at hr1
        subst hr1
        obtain ⟨p, e, hpe⟩ := hr hne
        exact ⟨p, e, by simp [hpe]⟩
      · cases hr1

/-- The invariant survives every handled message. -/
theorem Sound.handled (C : MediaCodec E) {hist : List Message} {s s1 : State E} (m : Message)
    (h : Sound hist s) (hr : onMessageReceived C m s = .ok s1) : Sound (hist ++ [m]) s1 := by
  cases m with
  | kWhatPullerNotify mbuf =>
    suffices hs : Sound hist s1 from hs.hist_append _ rfl
    cases mbuf with
    | none =>
      obtain ⟨hs, hn⟩ := h.signalEOS signalEOS_default
      simp only [onMessageReceived, hn] at hr
      cases hr; exact hs
    | some b =>
      simp only [onMessageReceived] at hr
      split at hr
      · cases hr
        exact h.of_ctl (CtlFrame.of_quiet rfl rfl rfl rfl _ rfl (by simp [Effect.isQuiet]))
      · split at hr
        · cases hr
        · rename_i x s3 hfeed
          have f0 : CtlFrame s { s with mInputBufferQueue := s.mInputBufferQueue ++ [some b] } :=
            CtlFrame.of_quiet rfl rfl rfl rfl [] (by simp) (by simp)
          have f1 := (feedEncoderInputBuffers_frame C _ _ _ hfeed).toCtl isInputWork_isQuiet
          have f2 := scheduleDoMoreWork_ctl C _ _ hr
          exact h.of_ctl ((f0.followedBy f1).followedBy f2)
  | kWhatEncoderActivity ib ob =>
    suffices hs : Sound hist s1 from hs.hist_append _ rfl
    have f0 : CtlFrame s { s with mDoMoreWorkPending := false } :=
      CtlFrame.of_quiet rfl rfl rfl rfl [] (by simp) (by simp)
    simp only [onMessageReceived] at hr
    split at hr
    · cases hr; exact h.of_ctl f0
    · split at hr
      · cases hr
      · rename_i st s2 hw
        have f1 := (doMoreWork_frame C _ _ _ _ _ hw).1.toCtl isWork_isQuiet
        split at hr
        · exact h.of_ctl ((f0.followedBy f1).followedBy (scheduleDoMoreWork_ctl C _ _ hr))
        · cases hr
          exact ((h.of_ctl (f0.followedBy f1)).signalEOS st).1
  | kWhatStart id p pe =>
    simp only [onMessageReceived] at hr
    split at hr
    · cases hr
    · rename_i st s2 h2
      cases hr
      exact (h.of_ctl (onStart_ctl C p pe s s2 st h2)).reply _ id (some st) rfl
        (fun _ => ⟨p, pe, rfl⟩)
  | kWhatStop id =>
    simp only [onMessageReceived] at hr
    split at hr
    · cases hr
      exact h.reply _ id none rfl (fun hne => absurd rfl hne)
    · rename_i hneos
      have hneos : s.mEncoderReachedEOS = false := by simpa using hneos
      have hq : Sound (hist ++ [Message.kWhatStop id])
          { s with mStopReplyIDQueue := s.mStopReplyIDQueue ++ [id], mStopping := true } := by
        refine ⟨h.enc_eos, fun _ => hneos, fun _ => rfl, h.release, ?_, ?_⟩
        · intro i
          have := h.replies i
          simp only [List.filterMap_append, List.count_append]
          simp [Message.replyID]
          omega
        · intro i r hr1 hne
          obtain ⟨p, e, hpe⟩ := h.noStatus i r hr1 hne
          exact ⟨p, e, List.mem_append_left _ hpe⟩
      split at hr
      · rename_i hst
        cases hr
        have : ({ s with mStopReplyIDQueue := s.mStopReplyIDQueue ++ [id] } : State E) =
            { s with mStopReplyIDQueue := s.mStopReplyIDQueue ++ [id], mStopping := true } := by
          simp only [← hst]
        rw [this]; exact hq
      · split at hr
        · split at hr
          · cases hr
          · rename_i e he
            cases hr
            exact hq.of_ctl
              ⟨rfl, rfl, rfl, by simp [he], ⟨_, rfl, by simp [Effect.isQuiet]⟩⟩
        · cases hr
          exact (hq.signalEOS signalEOS_default).1
  | kWhatPause =>
    suffices hs : Sound hist s1 from hs.hist_append _ rfl
    simp only [onMessageReceived] at hr
    split at hr
    · exact h.of_ctl (suspend_ctl C _ _ hr)
    · split at hr
      · cases hr
      · cases hr
        exact h.of_ctl (CtlFrame.of_quiet rfl rfl rfl rfl _ rfl (by simp [Effect.isQuiet]))

/-- The invariant survives every run of handled messages. -/
theorem Sound.handledAll (C : MediaCodec E) :
    ∀ (ms hist : List Message) (s s1 : State E), Sound hist s → run C ms s = .ok s1 →
      Sound (hist ++ ms) s1 := by
  intro ms
  induction ms with
  | nil =>
    intro hist s s1 h hr
    cases hr
    simpa using h
  | cons m rest ih =>
    intro hist s s1 h hr
    simp only [MediaCodecSource.run] at hr
    split at hr
    · cases hr
    · rename_i s2 h2
      have := ih (hist ++ [m]) s2 s1 (h.handled C m h2) hr
      simpa [List.append_assoc] using this

/-- What `initEncoder` leaves as it was, and what its success establishes. -/
theorem initEncoder_ok (C : MediaCodec E) (created : Option E) (s s1 : State E) (st : Status)
    (h : initEncoder C created s = .ok (st, s1)) :
    s1.log = s.log ∧ s1.mStopping = s.mStopping ∧
    s1.mStopReplyIDQueue = s.mStopReplyIDQueue ∧
    (st = OK → s1.mEncoder ≠ none ∧ s1.mEncoderReachedEOS = false) := by
  unfold initEncoder at h
  split at h
  · cases h
    exact ⟨rfl, rfl, rfl, fun h => absurd h (by decide)⟩
  · dsimp only at h
    split at h
    · rename_i hne
      cases h
      exact ⟨rfl, rfl, rfl, fun h => absurd h hne⟩
    · split at h
      · cases h
      · split at h
        · rename_i hne
          cases h
          exact ⟨rfl, rfl, rfl, fun h => absurd h hne⟩
        · split at h
          · rename_i hne
            cases h
            exact ⟨rfl, rfl, rfl, fun h => absurd h hne⟩
          · split at h
            · rename_i hne
              cases h
              exact ⟨rfl, rfl, rfl, fun h => absurd h hne⟩
            · split at h
              · rename_i hne
                cases h
                exact ⟨rfl, rfl, rfl, fun h => absurd h hne⟩
              · cases h
                exact ⟨rfl, rfl, rfl, fun _ => ⟨by simp, rfl⟩⟩

/-- A successfully created pipeline satisfies the invariant with no message handled. -/
theorem Create_sound (C : MediaCodec E) (created : Option E) (flags : Nat) (isVideo : Bool)
    (s0 : State E) (h : Create C created flags isVideo = .ok (some s0)) : Sound [] s0 := by
  unfold Create init at h
  split at h
  · cases h
  · rename_i err s hi
    split at hi
    · cases hi
    · rename_i st s1 h1
      obtain ⟨a1, a2, a3, a4⟩ := initEncoder_ok C created _ _ _ h1
      split at hi
      · rename_i hne
        cases hi
        rw [if_neg hne] at h
        cases h
      · rename_i hst
        have hst : st = OK := by simpa using hst
        cases hi
        rw [if_pos hst] at h
        cases h
        obtain ⟨b1, b2⟩ := a4 hst
        refine ⟨?_, ?_, ?_, ?_, ?_, ?_⟩
        · simp [b1, b2]
        · intro _; exact b2
        · intro hq; rw [a3] at hq; exact absurd rfl hq
        · rw [a1, b2]; rfl
        · intro id; rw [a1, a3]; rfl
        · intro id r hr; rw [a1] at hr; cases hr

/-- With pairwise distinct reply ids, two messages of a run with the same id are the
same message. -/
theorem replyID_injective_of_nodup (f : Message → Option Nat) :
    ∀ (l : List Message), (l.filterMap f).Nodup → ∀ a b i, a ∈ l → b ∈ l →
      f a = some i → f b = some i → a = b := by
  intro l
  induction l with
  | nil => intro _ a b i ha; cases ha
  | cons x rest ih =>
    intro hnd a b i ha hb hfa hfb
    have htail : (rest.filterMap f).Nodup := by
      cases hx : f x with
      | none => simpa [List.filterMap_cons, hx] using hnd
      | some y =>
        rw [List.filterMap_cons, hx] at hnd
        exact (List.nodup_cons.mp hnd).2
    have hhead : ∀ c, c ∈ rest → f x = some i → f c = some i → False := by
      intro c hc hx hfc
      rw [List.filterMap_cons, hx] at hnd
      exact (List.nodup_cons.mp hnd).1 (List.mem_filterMap.mpr ⟨c, hc, hfc⟩)
    rcases List.mem_cons.mp ha with hax | har
    · rcases List.mem_cons.mp hb with hbx | hbr
      · rw [hax, hbx]
      · rw [hax] at hfa
        exact absurd (hhead b hbr hfa hfb) id
    · rcases List.mem_cons.mp hb with hbx | hbr
      · rw [hbx] at hfb
        exact absurd (hhead a har hfb hfa) id
      · exact ih htail a b i har hbr hfa hfb

/-- C4: for a successfully initialised pipeline (either mode) and a run of handled
messages whose reply ids are pairwise distinct, if the run ends with EOS reached then
the encoder's release was invoked exactly once over the whole run, and every stop
request of the run received exactly one reply, a reply without status field, for which
`stop` returns OK: all requesters get the same status. -/
theorem stop_replies_once (C : MediaCodec E) (created : Option E) (flags : Nat)
    (isVideo : Bool) (s0 s1 : State E) (ms : List Message)
    (hinit : Create C created flags isVideo = .ok (some s0))
    (hrun : run C ms s0 = .ok s1)
    (hids : (ms.filterMap Message.replyID).Nodup)
    (heos : s1.mEncoderReachedEOS = true) :
    releaseCount s1.log = 1 ∧
    ∀ id, Message.kWhatStop id ∈ ms →
      repliesTo id s1.log = [none] ∧ (stop s1 OK none).1 = OK := by
  have hs := Sound.handledAll C ms [] s0 s1 (Create_sound C created flags isVideo s0 hinit) hrun
  simp only [List.nil_append] at hs
  refine ⟨by rw [hs.release, if_pos heos], ?_⟩
  intro id hid
  refine ⟨?_, rfl⟩
  have hq : s1.mStopReplyIDQueue = [] := by
    by_contra hne
    have := hs.stopping_eos (hs.queue_stopping hne)
    rw [heos] at this; cases this
  have hcount : (ms.filterMap Message.replyID).count id = 1 :=
    List.count_eq_one_of_mem hids (List.mem_filterMap.mpr ⟨_, hid, rfl⟩)
  have hlen : (repliesTo id s1.log).length = 1 := by
    have := hs.replies id
    rw [hq, hcount] at this
    simpa using this
  have hnone : ∀ r ∈ repliesTo id s1.log, r = none := by
    intro r hr
    by_contra hne
    obtain ⟨p, e, hpe⟩ := hs.noStatus id r hr hne
    have := replyID_injective_of_nodup Message.replyID ms hids _ _ id hid hpe rfl rfl
    cases this
  match hr : repliesTo id s1.log, hlen with
  | [r], _ =>
    have := hnone r (by rw [hr]; simp)
    rw [this]

/-- C4 at a concrete run: two stop requests back to back before any buffer is
produced, in pull mode. -/
theorem stop_replies_once_witness :
    releaseCount (afterMsgs twoStops (liveState 0 true ⟨[], [], []⟩)).log = 1 ∧
    ∀ id, Message.kWhatStop id ∈ twoStops →
      repliesTo id (afterMsgs twoStops (liveState 0 true ⟨[], [], []⟩)).log = [none] ∧
      (stop (afterMsgs twoStops (liveState 0 true ⟨[], [], []⟩)) OK none).1 = OK :=
  stop_replies_once scriptCodec (some ⟨[], [], []⟩) 0 true (liveState 0 true ⟨[], [], []⟩)
    (afterMsgs twoStops (liveState 0 true ⟨[], [], []⟩)) twoStops rfl rfl (by decide) rfl

/-! ## The pull-mode system -/

/-- The timestamps of concatenated access units. -/
theorem unitTimes_append (l1 l2 : List (Option MediaBuffer)) :
    unitTimes (l1 ++ l2) = unitTimes l1 ++ unitTimes l2 := by
  induction l1 with
  | nil => rfl
  | cons a l ih =>
    cases a with
    | none => simpa [unitTimes] using ih
    | some b => simp [unitTimes, ih]

/-- A step that keeps the encoder's jobs, the queues, the tables and the flags, and
leaves only the slots 0 and 1 in use, keeps `Good` and the chain. -/
theorem Good.of_same {s s1 : State SlotEncoder} (h : Good s)
    (h1 : s1.mEncoderReachedEOS = s.mEncoderReachedEOS) (h2 : s1.mFlags = s.mFlags)
    (h3 : encoderTimes s1.mEncoder = encoderTimes s.mEncoder)
    (h4 : s1.mEncoder ≠ none)
    (h5 : ∀ e1, s1.mEncoder = some e1 → ∀ j ∈ e1.ready ++ e1.pending, j.flags = 0)
    (h6 : s1.mInputBufferQueue = s.mInputBufferQueue)
    (h7 : s1.mOutputBufferQueue = s.mOutputBufferQueue)
    (h8 : s1.mEncoderInputBuffers = s.mEncoderInputBuffers)
    (h9 : s1.mEncoderOutputBuffers = s.mEncoderOutputBuffers)
    (h10 : ∀ i ∈ s1.mAvailEncoderInputIndices, i < 2)
    (h11 : ∀ e1, s1.mEncoder = some e1 →
      (∀ i ∈ e1.freeInputs, i < 2) ∧ (∀ j ∈ e1.pending, j.slot < 2) ∧
      (∀ o ∈ e1.freeOutputs, o < 2) ∧ (∀ j ∈ e1.ready, j.slot < 2)) :
    Good s1 ∧ pipeChain s1 = pipeChain s := by
  refine ⟨⟨h1.trans h.eos, by rw [h2]; exact h.pull, h4, h5, by rw [h6]; exact h.inputs,
    by rw [h8, h9]; exact h.tables, h10, h11⟩, ?_⟩
  simp only [pipeChain, h3, h6, h7]

/-- Scheduling on a good pipeline succeeds and keeps it good. -/
theorem scheduleDoMoreWork_good (s : State SlotEncoder) (h : Good s) :
    ∃ s1, scheduleDoMoreWork slotCodec s = .ok s1 ∧ Good s1 ∧ pipeChain s1 = pipeChain s := by
  cases he : s.mEncoder with
  | none => exact absurd he h.live
  | some e =>
    by_cases hp : s.mDoMoreWorkPending = true
    · exact ⟨s, by simp [scheduleDoMoreWork, hp], h, rfl⟩
    · refine ⟨_, by simp [scheduleDoMoreWork, hp, he]; rfl, ?_⟩
      exact h.of_same rfl rfl (by simp [he, slotCodec]) (by simp)
        (by
          intro e1 h1
          simp only [slotCodec, Option.some.injEq] at h1
          subst h1
          exact h.jobs e he) rfl rfl rfl rfl h.avail
        (by
          intro e1 h1
          simp only [slotCodec, Option.some.injEq] at h1
          subst h1
          exact h.slots e he)

/-- The encoder completing an input keeps the pipeline good and the chain. -/
theorem encode_good (s : State SlotEncoder) (h : Good s) :
    Good { s with mEncoder := s.mEncoder.map SlotEncoder.encode } ∧
    pipeChain { s with mEncoder := s.mEncoder.map SlotEncoder.encode } = pipeChain s := by
  cases he : s.mEncoder with
  | none => exact absurd he h.live
  | some e =>
    have hj := h.jobs e he
    have hsl := h.slots e he
    cases hp : e.pending with
    | nil =>
      have : SlotEncoder.encode e = e := by simp [SlotEncoder.encode, hp]
      exact h.of_same rfl rfl (by simp [he, this]) (by simp)
        (by
          intro e1 h1
          simp only [Option.map_some', Option.some.injEq, this] at h1
          subst h1; exact hj) rfl rfl rfl rfl h.avail
        (by
          intro e1 h1
          simp only [Option.map_some', Option.some.injEq, this] at h1
          subst h1; exact hsl)
    | cons j ps =>
      cases hf : e.freeOutputs with
      | nil =>
        have : SlotEncoder.encode e = e := by simp [SlotEncoder.encode, hp, hf]
        exact h.of_same rfl rfl (by simp [he, this]) (by simp)
          (by
            intro e1 h1
            simp only [Option.map_some', Option.some.injEq, this] at h1
            subst h1; exact hj) rfl rfl rfl rfl h.avail
          (by
            intro e1 h1
            simp only [Option.map_some', Option.some.injEq, this] at h1
            subst h1; exact hsl)
      | cons o fo =>
        have henc : SlotEncoder.encode e =
            { e with pending := ps, freeInputs := e.freeInputs ++ [j.slot], freeOutputs := fo,
                     ready := e.ready ++ [{ j with slot := o }] } := by
          simp [SlotEncoder.encode, hp, hf]
        refine h.of_same rfl rfl ?_ (by simp) ?_ rfl rfl rfl rfl h.avail ?_
        · simp [he, henc, encoderTimes, jobTimes, hp]
        · intro e1 h1
          simp only [Option.map_some', Option.some.injEq, henc] at h1
          subst h1
          intro x hx
          simp only [List.mem_append, List.mem_singleton] at hx
          rcases hx with (hx | rfl) | hx
          · exact hj x (by simp [hx])
          · exact hj j (by simp [hp])
          · exact hj x (by simp [hp, hx])
        · intro e1 h1
          simp only [Option.map_some', Option.some.injEq, henc] at h1
          subst h1
          obtain ⟨s1, s2, s3, s4⟩ := hsl
          refine ⟨?_, ?_, ?_, ?_⟩
          · intro i hi
            simp only [List.mem_append, List.mem_singleton] at hi
            rcases hi with hi | rfl
            · exact s1 i hi
            · exact s2 j (by simp [hp])
          · intro x hx
            exact s2 x (by simp [hp, hx])
          · intro x hx
            exact s3 x (by simp [hf, hx])
          · intro x hx
            simp only [List.mem_append, List.mem_singleton] at hx
            rcases hx with hx | rfl
            · exact s4 x hx
            · exact s3 o (by simp [hf])

/-- The input-slot loop on a good pipeline: it succeeds with OK or would-block, with OK
when the count does not exceed the free slots, and keeps the pipeline good. -/
theorem dequeueInputLoop_good : ∀ (n : Nat) (s : State SlotEncoder), Good s →
    ∃ st s1, dequeueInputLoop slotCodec n s = .ok (st, s1) ∧ Good s1 ∧
      pipeChain s1 = pipeChain s ∧ (n ≤ availableInputs s → st = OK) := by
  intro n
  induction n with
  | zero =>
    intro s h
    exact ⟨OK, s, rfl, h, rfl, fun _ => rfl⟩
  | succ k ih =>
    intro s h
    cases he : s.mEncoder with
    | none => exact absurd he h.live
    | some e =>
      cases hf : e.freeInputs with
      | nil =>
        refine ⟨-EAGAIN, { s with log := s.log ++ [Effect.dequeueInputBuffer (-EAGAIN) 0] },
          ?_, ?_, ?_, ?_⟩
        · simp [dequeueInputLoop, he, slotCodec, hf, EAGAIN, OK]
        · exact ⟨h.eos, h.pull, h.live, h.jobs, h.inputs, h.tables, h.avail, h.slots⟩
        · rfl
        · intro hle
          simp [availableInputs, he, hf] at hle
      | cons i rest =>
        have hstep : dequeueInputLoop slotCodec (k + 1) s = dequeueInputLoop slotCodec k
            { s with
              mEncoder := some { e with freeInputs := rest }
              log := s.log ++ [Effect.dequeueInputBuffer OK i]
              mAvailEncoderInputIndices := s.mAvailEncoderInputIndices ++ [i] } := by
          simp [dequeueInputLoop, he, slotCodec, hf]
        have hg := h.of_same (rfl : State.mEncoderReachedEOS { s with
              mEncoder := some { e with freeInputs := rest }
              log := s.log ++ [Effect.dequeueInputBuffer OK i]
              mAvailEncoderInputIndices := s.mAvailEncoderInputIndices ++ [i] } = _) rfl
            (by simp [he, encoderTimes]) (by simp)
            (by
              intro e1 h1
              simp only [Option.some.injEq] at h1
              subst h1
              exact h.jobs e he) rfl rfl rfl rfl
            (by
              intro x hx
              simp only [List.mem_append, List.mem_singleton] at hx
              rcases hx with hx | rfl
              · exact h.avail x hx
              · exact (h.slots e he).1 x (by simp [hf]))
            (by
              intro e1 h1
              simp only [Option.some.injEq] at h1
              subst h1
              obtain ⟨s1, s2, s3, s4⟩ := h.slots e he
              exact ⟨fun x hx => s1 x (by simp [hf, hx]), s2, s3, s4⟩)
        obtain ⟨st, s1, h1, h2, h3, h4⟩ := ih _ hg.1
        refine ⟨st, s1, by rw [hstep]; exact h1, h2, h3.trans hg.2, ?_⟩
        intro hle
        apply h4
        simp [availableInputs, he, hf] at hle
        simp [availableInputs]
        exact hle

/-- The feed loop on a good pipeline succeeds with OK and keeps the pipeline good. -/
theorem feedLoop_good : ∀ (q : List (Option MediaBuffer)) (s : State SlotEncoder), Good s →
    s.mInputBufferQueue = q →
    ∃ s1, feedLoop slotCodec q s = .ok (OK, s1) ∧ Good s1 ∧ pipeChain s1 = pipeChain s := by
  intro q
  induction q with
  | nil =>
    intro s h _
    exact ⟨s, rfl, h, rfl⟩
  | cons mbuf rest ih =>
    intro s h hq
    cases hav : s.mAvailEncoderInputIndices with
    | nil => exact ⟨s, by simp [feedLoop, hav], h, rfl⟩
    | cons idx avail =>
      cases he : s.mEncoder with
      | none => exact absurd he h.live
      | some e =>
        obtain ⟨b, hb, hbt⟩ := h.inputs mbuf (by rw [hq]; simp)
        subst hb
        cases hk : b.kKeyTime with
        | none => exact absurd hk hbt
        | some t =>
          have hidx : idx < 2 := h.avail idx (by simp [hav])
          have hstep := feedLoop_cons_some slotCodec s e b rest idx avail t hav hk
            (by rw [h.tables.1]; exact hidx) he rfl
          have hgood : Good { s with
              mInputBufferQueue := rest
              mAvailEncoderInputIndices := avail
              mEncoder := some (slotCodec.queueInputBuffer e idx 0 b.size t 0).2
              log := s.log ++ feedEffects s.mIsVideo (some b, idx) } := by
            refine ⟨h.eos, h.pull, by simp, ?_, ?_, h.tables, ?_, ?_⟩
            · intro e1 h1
              simp only [slotCodec, Option.some.injEq] at h1
              subst h1
              intro j hj
              simp only [List.mem_append, List.mem_singleton] at hj
              rcases hj with hj | hj | rfl
              · exact h.jobs e he j (by simp [hj])
              · exact h.jobs e he j (by simp [hj])
              · rfl
            · intro x hx
              exact h.inputs x (by rw [hq]; exact List.mem_cons_of_mem _ hx)
            · intro x hx
              exact h.avail x (by rw [hav]; exact List.mem_cons_of_mem _ hx)
            · intro e1 h1
              simp only [slotCodec, Option.some.injEq] at h1
              subst h1
              obtain ⟨s1, s2, s3, s4⟩ := h.slots e he
              refine ⟨s1, ?_, s3, s4⟩
              intro x hx
              simp only [List.mem_append, List.mem_singleton] at hx
              rcases hx with hx | rfl
              · exact s2 x hx
              · exact hidx
          have hchain : pipeChain { s with
              mInputBufferQueue := rest
              mAvailEncoderInputIndices := avail
              mEncoder := some (slotCodec.queueInputBuffer e idx 0 b.size t 0).2
              log := s.log ++ feedEffects s.mIsVideo (some b, idx) } = pipeChain s := by
            simp [pipeChain, encoderTimes, jobTimes, slotCodec, he, hq, unitTimes, hk]
          obtain ⟨s1, h1, h2, h3⟩ := ih _ hgood rfl
          exact ⟨s1, by rw [hstep]; exact h1, h2, h3.trans hchain⟩

/-- The buffer built for a completed slot without flags, in pull mode, carries the
slot's timestamp. -/
theorem makeOutputBuffer_plain (mFlags : Nat) (v : Bool) (n : Nat) (info : BufferInfo)
    (hp : mFlags &&& FLAG_USE_SURFACE_INPUT = 0) (hf : info.flags = 0) :
    ∃ m, makeOutputBuffer mFlags v n info = .ok m ∧ m.kKeyTime = some info.timeUs := by
  cases v with
  | true =>
    exact ⟨_, by simp [makeOutputBuffer, hf, hp, BUFFER_FLAG_CODECCONFIG, BUFFER_FLAG_SYNCFRAME]; rfl,
      rfl⟩
  | false =>
    exact ⟨_, by simp [makeOutputBuffer, hf, BUFFER_FLAG_CODECCONFIG, BUFFER_FLAG_SYNCFRAME]; rfl,
      rfl⟩

/-- The output loop on a good pipeline, entered with OK or allowed at least one
iteration: it succeeds with OK and keeps the pipeline good. -/
theorem drainLoop_good : ∀ (n : Nat) (err : Status) (s : State SlotEncoder), Good s →
    (err = OK ∨ 1 ≤ n) →
    ∃ s1, drainLoop slotCodec n err s = .ok (OK, s1) ∧ Good s1 ∧
      pipeChain s1 = pipeChain s := by
  intro n
  induction n with
  | zero =>
    intro err s h hn
    rcases hn with rfl | hn
    · exact ⟨s, rfl, h, rfl⟩
    · omega
  | succ k ih =>
    intro err s h _
    cases he : s.mEncoder with
    | none => exact absurd he h.live
    | some e =>
      cases hr : e.ready with
      | nil =>
        refine ⟨{ s with
            log := s.log ++ [Effect.dequeueOutputBuffer (-EAGAIN) ⟨0, 0, 0, 0, 0⟩] }, ?_, ?_, rfl⟩
        · simp [drainLoop, he, slotCodec, hr, EAGAIN, OK, INFO_FORMAT_CHANGED,
            INFO_OUTPUT_BUFFERS_CHANGED]
        · exact ⟨h.eos, h.pull, h.live, h.jobs, h.inputs, h.tables, h.avail, h.slots⟩
      | cons j rest =>
        have hjf : j.flags = 0 := h.jobs e he j (by simp [hr])
        have hslot : j.slot < s.mEncoderOutputBuffers.length := by
          rw [h.tables.2]
          exact (h.slots e he).2.2.2 j (by simp [hr])
        obtain ⟨outbuf, hout⟩ : ∃ outbuf, s.mEncoderOutputBuffers[j.slot]? = some outbuf :=
          ⟨_, List.getElem?_eq_getElem hslot⟩
        obtain ⟨m, hm, hmt⟩ := makeOutputBuffer_plain s.mFlags s.mIsVideo
          (slotCodec.outputBufferSize { e with ready := rest, held := e.held ++ [j] } outbuf)
          ⟨j.slot, 0, j.size, j.timeUs, 0⟩ h.pull rfl
        have hstep : drainLoop slotCodec (k + 1) err s = drainLoop slotCodec k OK
            { s with
              mEncoder := some (slotCodec.releaseOutputBuffer
                { e with ready := rest, held := e.held ++ [j] } j.slot)
              mOutputBufferQueue := s.mOutputBufferQueue ++ [m]
              log := s.log ++ [Effect.dequeueOutputBuffer OK ⟨j.slot, 0, j.size, j.timeUs, 0⟩,
                Effect.condSignal, Effect.releaseOutputBuffer j.slot] } := by
          have hdq : slotCodec.dequeueOutputBuffer e =
              (OK, ⟨j.slot, 0, j.size, j.timeUs, 0⟩,
                { e with ready := rest, held := e.held ++ [j] }) := by
            simp [slotCodec, hr, hjf]
          rw [drainLoop]
          simp only [he, hdq]
          simp [hout, hm, BUFFER_FLAG_EOS]
        have hgood : Good { s with
              mEncoder := some (slotCodec.releaseOutputBuffer
                { e with ready := rest, held := e.held ++ [j] } j.slot)
              mOutputBufferQueue := s.mOutputBufferQueue ++ [m]
              log := s.log ++ [Effect.dequeueOutputBuffer OK ⟨j.slot, 0, j.size, j.timeUs, 0⟩,
                Effect.condSignal, Effect.releaseOutputBuffer j.slot] } := by
          refine ⟨h.eos, h.pull, by simp, ?_, h.inputs, h.tables, h.avail, ?_⟩
          · intro e1 h1
            simp only [slotCodec, Option.some.injEq] at h1
            subst h1
            intro x hx
            simp only [List.mem_append] at hx
            rcases hx with hx | hx
            · exact h.jobs e he x (by simp [hr, hx])
            · exact h.jobs e he x (by simp [hx])
          · intro e1 h1
            simp only [slotCodec, Option.some.injEq] at h1
            subst h1
            obtain ⟨a1, a2, a3, a4⟩ := h.slots e he
            refine ⟨a1, a2, ?_, fun x hx => a4 x (by simp [hr, hx])⟩
            intro x hx
            simp only [List.mem_append, List.mem_singleton] at hx
            rcases hx with hx | rfl
            · exact a3 x hx
            · exact a4 j (by simp [hr])
        have hchain : pipeChain { s with
              mEncoder := some (slotCodec.releaseOutputBuffer
                { e with ready := rest, held := e.held ++ [j] } j.slot)
              mOutputBufferQueue := s.mOutputBufferQueue ++ [m]
              log := s.log ++ [Effect.dequeueOutputBuffer OK ⟨j.slot, 0, j.size, j.timeUs, 0⟩,
                Effect.condSignal, Effect.releaseOutputBuffer j.slot] } = pipeChain s := by
          simp [pipeChain, encoderTimes, jobTimes, bufferTimes, slotCodec, he, hr, hmt]
        obtain ⟨s1, h1, h2, h3⟩ := ih OK _ hgood (Or.inl rfl)
        exact ⟨s1, by rw [hstep]; exact h1, h2, h3.trans hchain⟩

/-- A puller notification with a stamped buffer on a good pipeline: the handler
succeeds, the pipeline stays good and the buffer joins the chain at its end. -/
theorem onPullerNotify_good (s : State SlotEncoder) (b : MediaBuffer) (h : Good s)
    (hb : b.kKeyTime ≠ none) :
    ∃ s1, onMessageReceived slotCodec (Message.kWhatPullerNotify (some b)) s = .ok s1 ∧
      Good s1 ∧ pipeChain s1 = pipeChain s ++ [b.kKeyTime] := by
  cases he : s.mEncoder with
  | none => exact absurd he h.live
  | some e =>
    have hg : Good { s with mInputBufferQueue := s.mInputBufferQueue ++ [some b] } := by
      refine ⟨h.eos, h.pull, h.live, h.jobs, ?_, h.tables, h.avail, h.slots⟩
      intro x hx
      simp only [List.mem_append, List.mem_singleton] at hx
      rcases hx with hx | rfl
      · exact h.inputs x hx
      · exact ⟨b, rfl, hb⟩
    have hc : pipeChain { s with mInputBufferQueue := s.mInputBufferQueue ++ [some b] } =
        pipeChain s ++ [b.kKeyTime] := by
      simp [pipeChain, unitTimes_append, unitTimes]
    obtain ⟨s2, h1, h2, h3⟩ := feedLoop_good _ _ hg rfl
    obtain ⟨s3, h4, h5, h6⟩ := scheduleDoMoreWork_good s2 h2
    refine ⟨s3, ?_, h5, h6.trans (h3.trans hc)⟩
    have hfeed : feedEncoderInputBuffers slotCodec
        { s with mInputBufferQueue := s.mInputBufferQueue ++ [some b] } = .ok (OK, s2) := h1
    simp only [he] at hfeed
    simp only [onMessageReceived, he, hfeed]
    exact h4

/-- An encoder-activity notification on a good pipeline, when the output count is at
least 1 or the input count does not exceed the free input slots: the handler succeeds
without signalling EOS, the pipeline stays good and the chain is unchanged. -/
theorem onEncoderActivity_good (s : State SlotEncoder) (ib ob : Option Int) (h : Good s)
    (hc : 1 ≤ (countOrMax ob).toNat ∨ (countOrMax ib).toNat ≤ availableInputs s) :
    ∃ s1, onMessageReceived slotCodec (Message.kWhatEncoderActivity ib ob) s = .ok s1 ∧
      Good s1 ∧ pipeChain s1 = pipeChain s := by
  have hg0 : Good { s with mDoMoreWorkPending := false } :=
    ⟨h.eos, h.pull, h.live, h.jobs, h.inputs, h.tables, h.avail, h.slots⟩
  obtain ⟨st, s1, h1, h2, h3, h4⟩ := dequeueInputLoop_good (countOrMax ib).toNat _ hg0
  obtain ⟨s2, h5, h6, h7⟩ := feedLoop_good _ s1 h2 rfl
  have hcond : st = OK ∨ 1 ≤ (countOrMax ob).toNat := by
    rcases hc with hc | hc
    · exact Or.inr hc
    · exact Or.inl (h4 hc)
  obtain ⟨s3, h8, h9, h10⟩ := drainLoop_good (countOrMax ob).toNat st s2 h6 hcond
  obtain ⟨s4, h11, h12, h13⟩ := scheduleDoMoreWork_good s3 h9
  have hwork : doMoreWork slotCodec (countOrMax ib) (countOrMax ob)
      { s with mDoMoreWorkPending := false } = .ok (OK, s3) := by
    have hfeed : feedEncoderInputBuffers slotCodec s1 = .ok (OK, s2) := h5
    have hpull : ({ s with mDoMoreWorkPending := false } : State SlotEncoder).mFlags &&&
        FLAG_USE_SURFACE_INPUT = 0 := h.pull
    simp only [doMoreWork, hpull, if_true, h1, hfeed, h8]
  refine ⟨s4, ?_, h12, ?_⟩
  · rw [onEncoderActivity_eq slotCodec s s3 ib ob OK h.live hwork, if_pos rfl]
    exact h11
  · rw [h13, h10, h7, h3]
    rfl

/-- The end-of-stream notification on a good pipeline: the handler succeeds and leaves
the pipeline torn down with the end-of-stream status. -/
theorem onPullerEos_good (s : State SlotEncoder) (h : Good s) :
    ∃ s1, onMessageReceived slotCodec (Message.kWhatPullerNotify none) s = .ok s1 ∧
      Torn s1 ∧ s1.mErrorCode = ERROR_END_OF_STREAM := by
  cases he : s.mEncoder with
  | none => exact absurd he h.live
  | some e =>
    obtain ⟨h1, h2, _⟩ := signalEOS_torn signalEOS_default s e he h.eos
    refine ⟨signalEOS signalEOS_default s, ?_, h1, h2⟩
    simp only [onMessageReceived, h1.encoder]

/-- A pull handled by a Puller that is not paused, on a list source: the handler
succeeds, posts only pulls to itself, and what it takes from the source it posts as
notifications, in order. -/
theorem onPull_effect (p : Puller (List MediaBuffer)) (g : Int) (hp : p.mPaused = false) :
    ∃ p1 effs, Puller.onMessageReceived listSource (PullerMessage.kWhatPull g) p = .ok (p1, effs) ∧
      p1.mPaused = false ∧ (∀ m ∈ postedPulls effs, ∃ g1, m = PullerMessage.kWhatPull g1) ∧
      unitTimes (postedNotifies effs) ++ bufferTimes p1.mSource = bufferTimes p.mSource := by
  by_cases hg : g = p.mPullGeneration
  · cases hs : p.mSource with
    | nil =>
      by_cases hr : p.mReachedEOS = false
      · refine ⟨{ p with mSource := [], mReachedEOS := true },
          [PullerEffect.sourceRead ERROR_END_OF_STREAM, PullerEffect.postNotify none], ?_, hp, ?_, ?_⟩
        · simp [Puller.onMessageReceived, hg, listSource, hs, hp, Puller.handleEOS, hr,
            ERROR_END_OF_STREAM, OK]
        · simp [postedPulls]
        · simp [postedNotifies, unitTimes, bufferTimes]
      · refine ⟨{ p with mSource := [] },
          [PullerEffect.sourceRead ERROR_END_OF_STREAM], ?_, hp, ?_, ?_⟩
        · simp [Puller.onMessageReceived, hg, listSource, hs, hp, Puller.handleEOS, hr,
            ERROR_END_OF_STREAM, OK]
        · simp [postedPulls]
        · simp [postedNotifies, unitTimes, bufferTimes]
    | cons b rest =>
      refine ⟨{ p with mSource := rest },
        [PullerEffect.sourceRead OK, PullerEffect.postNotify (some b), PullerEffect.postPull g],
        ?_, hp, ?_, ?_⟩
      · simp [Puller.onMessageReceived, hg, listSource, hs, hp]
      · simp [postedPulls]
      · simp [postedNotifies, unitTimes, bufferTimes]
  · exact ⟨p, [], by simp [Puller.onMessageReceived, hg], hp, by simp [postedPulls],
      by simp [postedNotifies, unitTimes]⟩

/-- On a torn-down pipeline the puller-notification and encoder-activity handlers
succeed. -/
theorem onMessageReceived_torn_ok (s : State SlotEncoder) (h : Torn s) :
    (∀ au, ∃ s1, onMessageReceived slotCodec (Message.kWhatPullerNotify au) s = .ok s1) ∧
    (∀ ib ob, ∃ s1, onMessageReceived slotCodec (Message.kWhatEncoderActivity ib ob) s =
      .ok s1) := by
  constructor
  · intro au
    cases au with
    | none =>
      have hk := signalEOS_kept signalEOS_default s h
      exact ⟨_, by simp only [onMessageReceived, hk.torn.encoder]; rfl⟩
    | some b => exact ⟨_, by simp only [onMessageReceived, h.encoder]; rfl⟩
  · intro ib ob
    exact ⟨_, by simp only [onMessageReceived, h.encoder]; rfl⟩

/-- When every read so far returned OK and the timestamps read start the chain, the
read results are an initial segment of the source. -/
theorem reads_initial_segment (reads : List (Status × Option MediaBuffer))
    (rest times : List (Option Int)) (hok : ∀ r ∈ reads, r.1 = OK)
    (hc : reads.map (fun r => (summary r).2) ++ rest = times) :
    reads.map summary = (times.take reads.length).map (fun t => (OK, t)) := by
  have h1 : times.take reads.length = reads.map (fun r => (summary r).2) := by
    rw [← hc]
    simp [List.take_append_eq_append_take]
  rw [h1, List.map_map]
  apply List.map_congr_left
  intro r hr
  have := hok r hr
  simp only [Function.comp, summary] at this ⊢
  rw [this]

/-- The invariant of the system survives the torn-down phase when the pipeline stays
torn down with its status and the reads only grow by end-of-stream results. -/
theorem SystemInv.torn {bufs : List MediaBuffer} {sys sys1 : System}
    (h1 : sys1.puller.mPaused = false)
    (h2 : ∀ m ∈ sys1.pullQueue, ∃ g, m = PullerMessage.kWhatPull g)
    (h3 : Torn sys1.pipeline) (h4 : sys1.pipeline.mErrorCode = ERROR_END_OF_STREAM)
    (h5 : ∃ k m, sys.reads.map summary =
        ((bufferTimes bufs).take k).map (fun t => (OK, t))
          ++ List.replicate m (ERROR_END_OF_STREAM, none))
    (h6 : sys1.reads = sys.reads ∨ sys1.reads = sys.reads ++ [(ERROR_END_OF_STREAM, none)]) :
    SystemInv bufs sys1 := by
  refine ⟨h1, h2, Or.inr ⟨h3, h4, ?_⟩⟩
  obtain ⟨k, m, hkm⟩ := h5
  rcases h6 with h6 | h6
  · exact ⟨k, m, by rw [h6]; exact hkm⟩
  · refine ⟨k, m + 1, ?_⟩
    rw [h6, List.map_append, hkm, List.append_assoc]
    congr 1
    simp [summary, List.replicate_succ']

/-- The invariant of the system survives every event, and no event aborts. -/
theorem SystemInv.event {bufs : List MediaBuffer} (hst : ∀ b ∈ bufs, b.kKeyTime ≠ none)
    (ev : Event) {sys : System} (h : SystemInv bufs sys) :
    ∃ sys1, System.step ev sys = .ok sys1 ∧ SystemInv bufs sys1 := by
  cases ev with
  | pull =>
    cases hq : sys.pullQueue with
    | nil => exact ⟨sys, by simp [System.step, hq], h⟩
    | cons m rest =>
      obtain ⟨g, hg⟩ := h.pulls m (by rw [hq]; simp)
      subst hg
      obtain ⟨p1, effs, h1, h2, h3, h4⟩ := onPull_effect sys.puller g h.notPaused
      refine ⟨_, by simp only [System.step, hq, h1]; rfl, ?_⟩
      have hpulls : ∀ m ∈ rest ++ postedPulls effs, ∃ g1, m = PullerMessage.kWhatPull g1 := by
        intro m hm
        rcases List.mem_append.mp hm with hm | hm
        · exact h.pulls m (by rw [hq]; exact List.mem_cons_of_mem _ hm)
        · exact h3 m hm
      rcases h.phase with ⟨hg, hok, hc⟩ | ⟨ht, hcode, hr⟩
      · refine ⟨h2, hpulls, Or.inl ⟨hg, hok, ?_⟩⟩
        rw [← hc]
        simp only [System.chain, unitTimes_append, List.append_assoc, h4]
      · exact SystemInv.torn h2 hpulls ht hcode hr (Or.inl rfl)
  | pullerNotify =>
    cases hq : sys.notifyQueue with
    | nil => exact ⟨sys, by simp [System.step, hq], h⟩
    | cons au rest =>
      rcases h.phase with ⟨hg, hok, hc⟩ | ⟨ht, hcode, hr⟩
      · cases au with
        | none =>
          obtain ⟨s1, h1, h2, h3⟩ := onPullerEos_good sys.pipeline hg
          refine ⟨{ sys with notifyQueue := rest, pipeline := s1 },
            by simp only [System.step, hq, System.handle, h1], ?_⟩
          refine ⟨h.notPaused, h.pulls, Or.inr ⟨h2, h3, sys.reads.length, 0, ?_⟩⟩
          simp only [List.replicate_zero, List.append_nil]
          refine reads_initial_segment sys.reads (pipeChain sys.pipeline
            ++ unitTimes sys.notifyQueue ++ bufferTimes sys.puller.mSource) _ hok ?_
          rw [← hc]
          simp only [System.chain, List.append_assoc]
        | some b =>
          have hb : b.kKeyTime ≠ none := by
            have hmem : b.kKeyTime ∈ bufferTimes bufs := by
              rw [← hc]
              simp [System.chain, hq, unitTimes]
            simp only [bufferTimes, List.mem_map] at hmem
            obtain ⟨b1, hb1, hb2⟩ := hmem
            rw [← hb2]; exact hst b1 hb1
          obtain ⟨s1, h1, h2, h3⟩ := onPullerNotify_good sys.pipeline b hg hb
          refine ⟨{ sys with notifyQueue := rest, pipeline := s1 },
            by simp only [System.step, hq, System.handle, h1], ?_⟩
          refine ⟨h.notPaused, h.pulls, Or.inl ⟨h2, hok, ?_⟩⟩
          rw [← hc]
          simp only [System.chain, h3, hq, unitTimes, List.append_assoc, List.singleton_append]
      · obtain ⟨s1, h1⟩ := (onMessageReceived_torn_ok sys.pipeline ht).1 au
        have hk := onMessageReceived_kept slotCodec _ _ _ ht h1
        refine ⟨{ sys with notifyQueue := rest, pipeline := s1 },
          by simp only [System.step, hq, System.handle, h1], ?_⟩
        exact SystemInv.torn h.notPaused h.pulls hk.torn (hk.code.trans hcode) hr (Or.inl rfl)
  | encoderActivity counts =>
    have key : ∀ ib ob, (1 ≤ (countOrMax ob).toNat ∨
        (countOrMax ib).toNat ≤ availableInputs sys.pipeline) →
        ∃ sys1, System.handle (Message.kWhatEncoderActivity ib ob) sys = .ok sys1 ∧
          SystemInv bufs sys1 := by
      intro ib ob hcond
      rcases h.phase with ⟨hg, hok, hc⟩ | ⟨ht, hcode, hr⟩
      · obtain ⟨s1, h1, h2, h3⟩ := onEncoderActivity_good sys.pipeline ib ob hg hcond
        refine ⟨{ sys with pipeline := s1 }, by simp only [System.handle, h1], ?_⟩
        refine ⟨h.notPaused, h.pulls, Or.inl ⟨h2, hok, ?_⟩⟩
        rw [← hc]
        simp only [System.chain, h3]
      · obtain ⟨s1, h1⟩ := (onMessageReceived_torn_ok sys.pipeline ht).2 ib ob
        have hk := onMessageReceived_kept slotCodec _ _ _ ht h1
        refine ⟨{ sys with pipeline := s1 }, by simp only [System.handle, h1], ?_⟩
        exact SystemInv.torn h.notPaused h.pulls hk.torn (hk.code.trans hcode) hr (Or.inl rfl)
    cases counts with
    | none =>
      obtain ⟨sys1, h1, h2⟩ := key none none (Or.inl (by decide))
      exact ⟨sys1, by simp only [System.step, h1], h2⟩
    | some c =>
      obtain ⟨i, o⟩ := c
      by_cases hc : i ≤ availableInputs sys.pipeline ∧ o ≤ availableOutputs sys.pipeline
      · obtain ⟨sys1, h1, h2⟩ := key (some (i : Int)) (some (o : Int))
          (Or.inr (by simpa [countOrMax] using hc.1))
        exact ⟨sys1, by simp only [System.step, hc, and_self, if_true, h1], h2⟩
      · exact ⟨sys, by simp only [System.step, hc, if_false], h⟩
  | encode =>
    refine ⟨_, rfl, ?_⟩
    rcases h.phase with ⟨hg, hok, hc⟩ | ⟨ht, hcode, hr⟩
    · obtain ⟨h1, h2⟩ := encode_good sys.pipeline hg
      refine ⟨h.notPaused, h.pulls, Or.inl ⟨h1, hok, ?_⟩⟩
      rw [← hc]
      simp only [System.chain, h2]
    · refine SystemInv.torn h.notPaused h.pulls ?_ hcode hr (Or.inl rfl)
      exact ⟨ht.eos, by simp [ht.encoder], ht.inputs, ht.outputs, ht.queue⟩
  | read =>
    rcases h.phase with ⟨hg, hok, hc⟩ | ⟨ht, hcode, hr⟩
    · cases hq : sys.pipeline.mOutputBufferQueue with
      | nil =>
        exact ⟨sys, by simp [System.step, MediaCodecSource.read, hq, hg.eos], h⟩
      | cons b rest =>
        refine ⟨{ sys with
            pipeline := { sys.pipeline with mOutputBufferQueue := rest }
            reads := sys.reads ++ [(OK, some b)] },
          by simp [System.step, MediaCodecSource.read, hq, hg.eos], ?_⟩
        refine ⟨h.notPaused, h.pulls, Or.inl ⟨⟨hg.eos, hg.pull, hg.live, hg.jobs, hg.inputs,
          hg.tables, hg.avail, hg.slots⟩, ?_, ?_⟩⟩
        · intro r hr
          rcases List.mem_append.mp hr with hr | hr
          · exact hok r hr
          · simp only [List.mem_singleton] at hr
            rw [hr]
        · rw [← hc]
          simp [System.chain, pipeChain, hq, bufferTimes, summary]
    · have hread : MediaCodecSource.read sys.pipeline =
          some (sys.pipeline.mErrorCode, none, sys.pipeline) := by
        unfold MediaCodecSource.read
        rw [ht.eos]
        cases sys.pipeline.mOutputBufferQueue <;> rfl
      refine ⟨{ sys with reads := sys.reads ++ [(sys.pipeline.mErrorCode, none)] },
        by simp only [System.step, hread], ?_⟩
      exact SystemInv.torn h.notPaused h.pulls ht hcode hr (Or.inr (by rw [hcode]))

/-- The started system is what the handlers produce: `Create` on the fresh two-slot
encoder, the pipeline's start handler (the Puller's start returning OK), and the
Puller's own start handler on the list source. -/
theorem System.started_from_handlers (isVideo : Bool) (bufs : List MediaBuffer) :
    (∃ s0, Create slotCodec (some twoSlots) 0 isVideo = .ok (some s0) ∧
      onMessageReceived slotCodec (Message.kWhatStart 0 none OK) s0 =
        .ok (System.started isVideo bufs).pipeline) ∧
    Puller.onMessageReceived listSource PullerMessage.kWhatStart
        (Puller.construct bufs (!isVideo)) =
      .ok ((System.started isVideo bufs).puller,
        [PullerEffect.sourceStart OK, PullerEffect.postPull 0, PullerEffect.postReply OK]) := by
  cases isVideo <;> exact ⟨⟨_, rfl, rfl⟩, rfl⟩

/-- The invariant of the system survives every sequence of events, and no sequence
aborts. -/
theorem SystemInv.events {bufs : List MediaBuffer} (hst : ∀ b ∈ bufs, b.kKeyTime ≠ none) :
    ∀ (evs : List Event) (sys : System), SystemInv bufs sys →
      ∃ sys1, System.run evs sys = .ok sys1 ∧ SystemInv bufs sys1 := by
  intro evs
  induction evs with
  | nil => intro sys h; exact ⟨sys, rfl, h⟩
  | cons ev rest ih =>
    intro sys h
    obtain ⟨sys1, h1, h2⟩ := SystemInv.event hst ev h
    obtain ⟨sys2, h3, h4⟩ := ih sys1 h2
    exact ⟨sys2, by simp only [System.run, h1, h3], h4⟩

/-- The system right after a successful start satisfies the invariant. -/
theorem SystemInv.started (isVideo : Bool) (bufs : List MediaBuffer) :
    SystemInv bufs (System.started isVideo bufs) := by
  refine ⟨rfl, ?_, Or.inl ⟨⟨rfl, ?_, by simp [System.started, startedPipeline], ?_, ?_,
    ⟨rfl, rfl⟩, ?_, ?_⟩, ?_, ?_⟩⟩
  · intro m hm
    simp only [System.started, List.mem_singleton] at hm
    exact ⟨0, hm⟩
  · simp [System.started, startedPipeline, construct]
  · intro e he j hj
    simp only [System.started, startedPipeline, Option.some.injEq] at he
    subst he
    simp [twoSlots] at hj
  · intro x hx
    simp [System.started, startedPipeline, construct] at hx
  · intro x hx
    simp [System.started, startedPipeline, construct] at hx
  · intro e he
    simp only [System.started, startedPipeline, Option.some.injEq] at he
    subst he
    simp only [twoSlots, List.mem_cons, List.mem_singleton, List.not_mem_nil, or_false]
    refine ⟨?_, fun _ hj => absurd hj (by simp), ?_, fun _ hj => absurd hj (by simp)⟩ <;>
      (intro i hi; rcases hi with rfl | rfl <;> decide)
  · intro r hr
    simp [System.started] at hr
  · simp [System.chain, System.started, startedPipeline, construct, pipeChain, encoderTimes,
      twoSlots, jobTimes, bufferTimes, unitTimes, Puller.construct]

/-- For every stamped source and every order of events the run completes and the read
results are an initial segment of the source followed by end-of-stream results. -/
theorem reads_initial_segment_of_source (isVideo : Bool) (bufs : List MediaBuffer)
    (hst : ∀ b ∈ bufs, b.kKeyTime ≠ none) (evs : List Event) :
    ∃ sys, System.run evs (System.started isVideo bufs) = .ok sys ∧
      ∃ k m, sys.reads.map summary =
        ((bufferTimes bufs).take k).map (fun t => (OK, t))
          ++ List.replicate m (ERROR_END_OF_STREAM, none) := by
  obtain ⟨sys, h1, h2⟩ := SystemInv.events hst evs _ (SystemInv.started isVideo bufs)
  refine ⟨sys, h1, ?_⟩
  rcases h2.phase with ⟨_, hok, hc⟩ | ⟨_, _, hr⟩
  · refine ⟨sys.reads.length, 0, ?_⟩
    simp only [List.replicate_zero, List.append_nil]
    refine reads_initial_segment sys.reads (pipeChain sys.pipeline
      ++ unitTimes sys.notifyQueue ++ bufferTimes sys.puller.mSource) _ hok ?_
    rw [← hc]
    simp only [System.chain, List.append_assoc]
  · exact hr

/-- C2 fails as stated: when the Puller's four pulls and then the four notifications
are handled before any encoder activity, the source has yielded its three buffers, the
pipeline releases them unread while handling the end-of-stream notification, and the
first `read` returns the end-of-stream status; and when only the last buffer and the
end of the stream are notified back to back, the last buffer is lost in the encoder. -/
theorem reads_lose_buffers :
    System.run pullerFirst (System.started true threeBuffers) =
      .ok (System.after pullerFirst (System.started true threeBuffers)) ∧
    (System.after pullerFirst (System.started true threeBuffers)).puller.mSource = [] ∧
    (∀ b ∈ threeBuffers, Effect.mbufRelease b ∈
      (System.after pullerFirst (System.started true threeBuffers)).pipeline.log) ∧
    (System.after pullerFirst (System.started true threeBuffers)).reads.map summary =
      [(ERROR_END_OF_STREAM, none)] ∧
    (System.after pullerFirst (System.started true threeBuffers)).reads.map summary ≠
      [(OK, some 0), (OK, some 33), (OK, some 66), (ERROR_END_OF_STREAM, none)] ∧
    System.run lastBufferLate (System.started true threeBuffers) =
      .ok (System.after lastBufferLate (System.started true threeBuffers)) ∧
    (System.after lastBufferLate (System.started true threeBuffers)).reads.map summary =
      [(OK, some 0), (OK, some 33), (ERROR_END_OF_STREAM, none)] :=
  ⟨rfl, rfl, by decide, by decide, by decide, rfl, by decide⟩

/-- C2 as amended: for the source that yields buffers stamped 0, 33, 66 and then
end-of-stream, in pull mode on the two-slot encoder, for every order of events the run
completes and the read results are an initial segment of the three buffers, in order
and each with OK, followed only by end-of-stream results; in the lock-step order all
three buffers are read before the end-of-stream status. -/
theorem reads_in_source_order (isVideo : Bool) (evs : List Event) :
    (∃ sys, System.run evs (System.started isVideo threeBuffers) = .ok sys ∧
      ∃ k m, sys.reads.map summary =
        [(OK, some 0), (OK, some 33), (OK, some 66)].take k
          ++ List.replicate m (ERROR_END_OF_STREAM, none)) ∧
    (System.after lockStep (System.started isVideo threeBuffers)).reads.map summary =
      [(OK, some 0), (OK, some 33), (OK, some 66), (ERROR_END_OF_STREAM, none)] := by
  constructor
  · obtain ⟨sys, h1, k, m, h2⟩ := reads_initial_segment_of_source isVideo threeBuffers
      (by intro b hb; simp [threeBuffers, rawBuffer] at hb; rcases hb with rfl | rfl | rfl <;> simp)
      evs
    refine ⟨sys, h1, k, m, ?_⟩
    rw [h2, List.map_take]
    rfl
  · cases isVideo <;> decide

/-! ## The Puller's generation counter -/

/-- The int32 wrap of a value in range is the value. -/
theorem wrapInt32_of_inRange (x : Int) (h : InRange32 x) : wrapInt32 x = x := by
  unfold InRange32 at h
  unfold wrapInt32
  omega

/-- The int32 wrap lands in range. -/
theorem wrapInt32_inRange (x : Int) : InRange32 (wrapInt32 x) := by
  unfold InRange32 wrapInt32
  omega

/-- Wrapping is absorbed by a later wrap. -/
theorem wrapInt32_add (x y : Int) : wrapInt32 (wrapInt32 x + y) = wrapInt32 (x + y) := by
  unfold wrapInt32
  omega

/-- Only the stop handler changes the generation: it increments it as an int32. -/
theorem Puller.onMessageReceived_generation {S : Type} (M : MediaSource S)
    (msg : PullerMessage) (p p1 : Puller S) (effs : List PullerEffect)
    (h : Puller.onMessageReceived M msg p = .ok (p1, effs)) :
    p1.mPullGeneration =
      if msg = PullerMessage.kWhatStop then wrapInt32 (p.mPullGeneration + 1)
      else p.mPullGeneration := by
  cases msg with
  | kWhatStart =>
    simp only [Puller.onMessageReceived, Except.ok.injEq, Prod.mk.injEq] at h
    rw [← h.1]; simp
  | kWhatStop =>
    simp only [Puller.onMessageReceived, Puller.handleEOS, Except.ok.injEq] at h
    split at h <;> simp only [Prod.mk.injEq] at h <;> rw [← h.1] <;> simp
  | kWhatPull g =>
    simp only [Puller.onMessageReceived, Puller.handleEOS] at h
    split at h
    · simp only [Except.ok.injEq, Prod.mk.injEq] at h
      rw [← h.1]; simp
    · split at h
      · split at h
        · split at h
          · exact absurd h (by simp)
          · simp only [Except.ok.injEq, Prod.mk.injEq] at h
            rw [← h.1]; simp
        · simp only [Except.ok.injEq, Prod.mk.injEq] at h
          rw [← h.1]; simp
      · split at h
        · split at h <;> simp only [Except.ok.injEq, Prod.mk.injEq] at h <;> rw [← h.1] <;> simp
        · simp only [Except.ok.injEq, Prod.mk.injEq] at h
          rw [← h.1]; simp
  | kWhatPause =>
    simp only [Puller.onMessageReceived, Except.ok.injEq, Prod.mk.injEq] at h
    rw [← h.1]; simp
  | kWhatResume =>
    simp only [Puller.onMessageReceived, Except.ok.injEq, Prod.mk.injEq] at h
    rw [← h.1]; simp

/-- After a run the generation is the int32 sum of the generation before and the
number of stop messages handled. -/
theorem Puller.run_generation {S : Type} (M : MediaSource S) (msgs : List PullerMessage) :
    ∀ (p p1 : Puller S) (effs : List PullerEffect), InRange32 p.mPullGeneration →
      Puller.run M msgs p = .ok (p1, effs) →
      p1.mPullGeneration =
        wrapInt32 (p.mPullGeneration + (msgs.count PullerMessage.kWhatStop : Nat)) := by
  induction msgs with
  | nil =>
    intro p p1 effs hr h
    simp only [Puller.run, Except.ok.injEq, Prod.mk.injEq] at h
    rw [← h.1]
    simp [wrapInt32_of_inRange _ hr]
  | cons m ms ih =>
    intro p p1 effs hr h
    simp only [Puller.run] at h
    cases h1 : Puller.onMessageReceived M m p with
    | error f => rw [h1] at h; exact absurd h (by simp)
    | ok r1 =>
      obtain ⟨q, e1⟩ := r1
      rw [h1] at h
      simp only at h
      cases h2 : Puller.run M ms q with
      | error f => rw [h2] at h; exact absurd h (by simp)
      | ok r2 =>
        obtain ⟨q2, e2⟩ := r2
        rw [h2] at h
        simp only [Except.ok.injEq, Prod.mk.injEq] at h
        have hg := Puller.onMessageReceived_generation M m p q e1 h1
        have hq : InRange32 q.mPullGeneration := by
          rw [hg]; split
          · exact wrapInt32_inRange _
          · exact hr
        have := ih q q2 e2 hq h2
        rw [← h.1, this, hg]
        by_cases hm : m = PullerMessage.kWhatStop
        · subst hm
          simp only [if_true, List.count_cons_self, Nat.cast_add, Nat.cast_one]
          rw [wrapInt32_add]
          congr 1
          ring
        · have hne : (m == PullerMessage.kWhatStop) = false := by simpa using hm
          simp only [hm, if_false, List.count_cons, hne]
          simp

/-- C11: a pull message tagged with the generation of a state is dropped once between
1 and 2^32 - 1 stop messages have been handled since: the handler reads nothing from the
source, posts no notification and no pull, and leaves the Puller as it is. -/
theorem stale_pull_is_dropped {S : Type} (M : MediaSource S) (p p1 : Puller S)
    (msgs : List PullerMessage) (effs : List PullerEffect)
    (hrange : InRange32 p.mPullGeneration)
    (hrun : Puller.run M msgs p = .ok (p1, effs))
    (hstop : 0 < msgs.count PullerMessage.kWhatStop)
    (hfew : msgs.count PullerMessage.kWhatStop < 4294967296) :
    Puller.onMessageReceived M (PullerMessage.kWhatPull p.mPullGeneration) p1 = .ok (p1, []) := by
  have hg := Puller.run_generation M msgs p p1 effs hrange hrun
  have hne : p.mPullGeneration ≠ p1.mPullGeneration := by
    rw [hg]
    unfold InRange32 at hrange
    unfold wrapInt32
    omega
  simp [Puller.onMessageReceived, hne]

/-- C11 at a concrete input: a pull scheduled at generation 0 is dropped after a stop. -/
theorem stale_pull_is_dropped_witness :
    Puller.onMessageReceived listSource (PullerMessage.kWhatPull 0)
      { freshPuller with mPullGeneration := 1, mReachedEOS := true }
      = .ok ({ freshPuller with mPullGeneration := 1, mReachedEOS := true }, []) :=
  stale_pull_is_dropped listSource freshPuller
    { freshPuller with mPullGeneration := 1, mReachedEOS := true }
    [PullerMessage.kWhatStop] [PullerEffect.postNotify none]
    (by unfold InRange32; decide) rfl (by decide) (by decide)

/-! ## The paused Puller -/

/-- What the handler does with a pull of the current generation while paused. -/
theorem onPull_paused {S : Type} (M : MediaSource S) (p : Puller S)
    (hpaused : p.mPaused = true)
    (hsrc : (M.read p.mSource).1 = OK → (M.read p.mSource).2.1 ≠ none) :
    Puller.onMessageReceived M (PullerMessage.kWhatPull p.mPullGeneration) p
      = .ok ({ p with mSource := (M.read p.mSource).2.2 },
          [PullerEffect.sourceRead (M.read p.mSource).1]
            ++ releasedUnread (M.read p.mSource).1 (M.read p.mSource).2.1
            ++ [PullerEffect.postPull p.mPullGeneration]) := by
  by_cases herr : (M.read p.mSource).1 = OK
  · cases hb : (M.read p.mSource).2.1 with
    | none => exact absurd hb (hsrc herr)
    | some b => simp [Puller.onMessageReceived, hpaused, herr, hb, releasedUnread]
  · simp [Puller.onMessageReceived, hpaused, herr, releasedUnread]

/-- Among the effects of a paused pull there is no notification and one pull. -/
theorem posted_releasedUnread (e err : Status) (mbuf : Option MediaBuffer) (g : Int) :
    postedNotifies ([PullerEffect.sourceRead e] ++ releasedUnread err mbuf
      ++ [PullerEffect.postPull g]) = [] ∧
    postedPulls ([PullerEffect.sourceRead e] ++ releasedUnread err mbuf
      ++ [PullerEffect.postPull g]) = [PullerMessage.kWhatPull g] := by
  unfold releasedUnread
  split
  · cases mbuf <;> simp [postedNotifies, postedPulls]
  · simp [postedNotifies, postedPulls]

/-- C12: a paused Puller handling a pull of the current generation reads the source
once, releases the buffer if the read succeeded, posts no notification and posts the
pull again with the same generation; only the source has changed afterwards. -/
theorem paused_pull_discards {S : Type} (M : MediaSource S) (p : Puller S)
    (hpaused : p.mPaused = true)
    (hsrc : (M.read p.mSource).1 = OK → (M.read p.mSource).2.1 ≠ none) :
    ∃ effs, Puller.onMessageReceived M (PullerMessage.kWhatPull p.mPullGeneration) p
        = .ok ({ p with mSource := (M.read p.mSource).2.2 }, effs) ∧
      effs = [PullerEffect.sourceRead (M.read p.mSource).1]
        ++ releasedUnread (M.read p.mSource).1 (M.read p.mSource).2.1
        ++ [PullerEffect.postPull p.mPullGeneration] ∧
      postedNotifies effs = [] ∧
      postedPulls effs = [PullerMessage.kWhatPull p.mPullGeneration] := by
  have h := posted_releasedUnread (M.read p.mSource).1 (M.read p.mSource).1
    (M.read p.mSource).2.1 p.mPullGeneration
  exact ⟨_, onPull_paused M p hpaused hsrc, rfl, h.1, h.2⟩

/-- C12 at a concrete input: the paused Puller reads the first of the three buffers,
releases it and posts the pull again. -/
theorem paused_pull_discards_witness :
    ∃ effs, Puller.onMessageReceived listSource (PullerMessage.kWhatPull 0)
        { freshPuller with mPaused := true }
        = .ok ({ { freshPuller with mPaused := true } with
                 mSource := [rawBuffer 10 33, rawBuffer 10 66] }, effs) ∧
      effs = [PullerEffect.sourceRead OK] ++ releasedUnread OK (some (rawBuffer 10 0))
        ++ [PullerEffect.postPull 0] ∧
      postedNotifies effs = [] ∧ postedPulls effs = [PullerMessage.kWhatPull 0] :=
  paused_pull_discards listSource { freshPuller with mPaused := true } rfl (by decide)

/-- In the system, a pull handled by a paused Puller leaves the pipeline (its input and
output queues included) and the notifications under way as they are. -/
theorem paused_pull_keeps_pipeline (sys : System) (rest : List PullerMessage)
    (hpaused : sys.puller.mPaused = true)
    (hq : sys.pullQueue = PullerMessage.kWhatPull sys.puller.mPullGeneration :: rest) :
    ∃ sys1, System.step Event.pull sys = .ok sys1 ∧ sys1.pipeline = sys.pipeline ∧
      sys1.notifyQueue = sys.notifyQueue ∧
      sys1.pullQueue = rest ++ [PullerMessage.kWhatPull sys.puller.mPullGeneration] := by
  have hsrc : (listSource.read sys.puller.mSource).1 = OK →
      (listSource.read sys.puller.mSource).2.1 ≠ none := by
    cases hs : sys.puller.mSource <;> simp [listSource, ERROR_END_OF_STREAM, OK]
  have h := onPull_paused listSource sys.puller hpaused hsrc
  have hp := posted_releasedUnread (listSource.read sys.puller.mSource).1
    (listSource.read sys.puller.mSource).1 (listSource.read sys.puller.mSource).2.1
    sys.puller.mPullGeneration
  simp only [System.step, hq, h, hp.1, hp.2]
  exact ⟨_, rfl, rfl, by simp, rfl⟩

/-! ## End of stream in the Puller -/

/-- C13 refuted for a paused Puller: at the end of the source, with no EOS notification
posted so far, the handler posts no notification and posts the pull again. -/
theorem paused_pull_error_posts_no_eos :
    (listSource.read pausedAtEnd.mSource).1 ≠ OK ∧ pausedAtEnd.mReachedEOS = false ∧
    Puller.onMessageReceived listSource (PullerMessage.kWhatPull pausedAtEnd.mPullGeneration)
      pausedAtEnd
      = .ok (pausedAtEnd,
          [PullerEffect.sourceRead ERROR_END_OF_STREAM, PullerEffect.postPull 0]) :=
  ⟨by decide, rfl, rfl⟩

/-- The notifications of two effect lists in a row. -/
theorem postedNotifies_append (a b : List PullerEffect) :
    postedNotifies (a ++ b) = postedNotifies a ++ postedNotifies b := by
  induction a with
  | nil => rfl
  | cons x l ih => cases x <;> simp [postedNotifies, ih]

/-- What the handler does with a pull of the current generation whose read fails,
while not paused. -/
theorem onPull_error {S : Type} (M : MediaSource S) (p : Puller S)
    (herr : (M.read p.mSource).1 ≠ OK) (hp : p.mPaused = false) :
    Puller.onMessageReceived M (PullerMessage.kWhatPull p.mPullGeneration) p
      = .ok ({ p with mSource := (M.read p.mSource).2.2, mReachedEOS := true },
          PullerEffect.sourceRead (M.read p.mSource).1 ::
            (if p.mReachedEOS = false then [PullerEffect.postNotify none] else [])) := by
  by_cases hr : p.mReachedEOS = false
  · simp [Puller.onMessageReceived, hp, herr, Puller.handleEOS, hr]
  · have hr1 : p.mReachedEOS = true := by simpa using hr
    simp [Puller.onMessageReceived, hp, herr, Puller.handleEOS, hr1]

/-- One message other than a start: the handler completes, and it posts a null access
unit exactly when it sets the EOS-emitted flag; the flag is never cleared. -/
theorem Puller.onMessageReceived_notifies {S : Type} (M : MediaSource S) (hM : Delivers M)
    (msg : PullerMessage) (hmsg : msg ≠ PullerMessage.kWhatStart) (p : Puller S) :
    ∃ p1 effs, Puller.onMessageReceived M msg p = .ok (p1, effs) ∧
      (postedNotifies effs).count none + (if p1.mReachedEOS = true then 0 else 1) =
        (if p.mReachedEOS = true then 0 else 1) := by
  cases msg with
  | kWhatStart => exact absurd rfl hmsg
  | kWhatStop =>
    by_cases hr : p.mReachedEOS = false
    · exact ⟨{ p with mPullGeneration := wrapInt32 (p.mPullGeneration + 1),
                      mReachedEOS := true },
        [PullerEffect.postNotify none],
        by simp only [Puller.onMessageReceived, Puller.handleEOS, hr, if_true],
        by simp [postedNotifies, hr]⟩
    · have hr1 : p.mReachedEOS = true := by simpa using hr
      exact ⟨{ p with mPullGeneration := wrapInt32 (p.mPullGeneration + 1) }, [],
        by simp [Puller.onMessageReceived, Puller.handleEOS, hr1],
        by simp [postedNotifies, hr1]⟩
  | kWhatPull g =>
    by_cases hg : g = p.mPullGeneration
    · subst hg
      by_cases hp : p.mPaused = true
      · have h := onPull_paused M p hp (hM p.mSource)
        have hn := (posted_releasedUnread (M.read p.mSource).1 (M.read p.mSource).1
          (M.read p.mSource).2.1 p.mPullGeneration).1
        exact ⟨_, _, h, by rw [hn]; simp⟩
      · have hp1 : p.mPaused = false := by simpa using hp
        by_cases herr : (M.read p.mSource).1 = OK
        · cases hb : (M.read p.mSource).2.1 with
          | none => exact absurd hb (hM p.mSource herr)
          | some b =>
            exact ⟨{ p with mSource := (M.read p.mSource).2.2 },
              [PullerEffect.sourceRead (M.read p.mSource).1, PullerEffect.postNotify (some b),
                PullerEffect.postPull p.mPullGeneration],
              by simp [Puller.onMessageReceived, hp1, herr, hb], by simp [postedNotifies]⟩
        · refine ⟨_, _, onPull_error M p herr hp1, ?_⟩
          by_cases hr : p.mReachedEOS = false
          · simp [postedNotifies, hr]
          · have hr1 : p.mReachedEOS = true := by simpa using hr
            simp [postedNotifies, hr1]
    · exact ⟨p, [], by simp [Puller.onMessageReceived, hg], by simp [postedNotifies]⟩
  | kWhatPause => exact ⟨_, _, rfl, by simp [postedNotifies]⟩
  | kWhatResume => exact ⟨_, _, rfl, by simp [postedNotifies]⟩

/-- A run without start messages completes, and the null access units it posts plus
the one still to come (flag clear) are what was still to come before. -/
theorem Puller.run_notifies {S : Type} (M : MediaSource S) (hM : Delivers M)
    (msgs : List PullerMessage) :
    PullerMessage.kWhatStart ∉ msgs → ∀ p : Puller S,
    ∃ p1 effs, Puller.run M msgs p = .ok (p1, effs) ∧
      (postedNotifies effs).count none + (if p1.mReachedEOS = true then 0 else 1) =
        (if p.mReachedEOS = true then 0 else 1) := by
  induction msgs with
  | nil => intro _ p; exact ⟨p, [], rfl, by simp [postedNotifies]⟩
  | cons m ms ih =>
    intro hmem p
    have hm : m ≠ PullerMessage.kWhatStart := fun h => hmem (by simp [h])
    have hms : PullerMessage.kWhatStart ∉ ms := fun h => hmem (by simp [h])
    obtain ⟨q, e1, h1, hc1⟩ := Puller.onMessageReceived_notifies M hM m hm p
    obtain ⟨q2, e2, h2, hc2⟩ := ih hms q
    refine ⟨q2, e1 ++ e2, by simp only [Puller.run, h1, h2], ?_⟩
    rw [postedNotifies_append, List.count_append]
    omega

/-- What the start handler of the Puller does. -/
theorem Puller.onMessageReceived_start {S : Type} (M : MediaSource S) (p : Puller S) :
    Puller.onMessageReceived M PullerMessage.kWhatStart p
      = .ok ({ p with mReachedEOS := false, mSource := (M.start p.mSource).2 },
          [PullerEffect.sourceStart (M.start p.mSource).1]
            ++ (if (M.start p.mSource).1 = OK then [PullerEffect.postPull p.mPullGeneration]
                else [])
            ++ [PullerEffect.postReply (M.start p.mSource).1]) ∧
    postedNotifies ([PullerEffect.sourceStart (M.start p.mSource).1]
            ++ (if (M.start p.mSource).1 = OK then [PullerEffect.postPull p.mPullGeneration]
                else [])
            ++ [PullerEffect.postReply (M.start p.mSource).1]) = [] := by
  constructor
  · rfl
  · split <;> simp [postedNotifies]

/-- A start followed by messages other than a start: the run completes, and the
EOS-emitted flag is clear at the end exactly when no null access unit was posted. -/
theorem Puller.run_after_start {S : Type} (M : MediaSource S) (hM : Delivers M)
    (msgs : List PullerMessage) (hmsgs : PullerMessage.kWhatStart ∉ msgs) (p : Puller S) :
    ∃ p1 effs, Puller.run M (PullerMessage.kWhatStart :: msgs) p = .ok (p1, effs) ∧
      (postedNotifies effs).count none + (if p1.mReachedEOS = true then 0 else 1) = 1 := by
  obtain ⟨e0, h0, hn0⟩ : ∃ e0, Puller.onMessageReceived M PullerMessage.kWhatStart p
      = .ok ({ p with mReachedEOS := false, mSource := (M.start p.mSource).2 }, e0) ∧
      postedNotifies e0 = [] := ⟨_, Puller.onMessageReceived_start M p⟩
  obtain ⟨p1, e1, h1, hc⟩ := Puller.run_notifies M hM msgs hmsgs
    { p with mReachedEOS := false, mSource := (M.start p.mSource).2 }
  refine ⟨p1, e0 ++ e1, by simp only [Puller.run, h0, h1], ?_⟩
  rw [postedNotifies_append, hn0]
  simpa using hc

/-- The list source keeps to the interface of a raw source. -/
theorem listSource_delivers : Delivers listSource := by
  intro src
  cases src <;> simp [listSource, ERROR_END_OF_STREAM, OK]

/-- C13 as amended: when the read of a pull of the current generation fails, a Puller
that is not paused posts a null access unit if its EOS-emitted flag is clear, sets the
flag and posts no further pull; a paused Puller posts nothing to the pipeline and posts
the pull again. After a start and any messages other than a start, the flag is clear
exactly when no null access unit has been posted since that start. -/
theorem pull_error_posts_eos_unless_paused {S : Type} (M : MediaSource S) (p : Puller S)
    (herr : (M.read p.mSource).1 ≠ OK) :
    (p.mPaused = false →
      Puller.onMessageReceived M (PullerMessage.kWhatPull p.mPullGeneration) p
        = .ok ({ p with mSource := (M.read p.mSource).2.2, mReachedEOS := true },
            PullerEffect.sourceRead (M.read p.mSource).1 ::
              (if p.mReachedEOS = false then [PullerEffect.postNotify none] else []))) ∧
    (p.mPaused = true →
      Puller.onMessageReceived M (PullerMessage.kWhatPull p.mPullGeneration) p
        = .ok ({ p with mSource := (M.read p.mSource).2.2 },
            [PullerEffect.sourceRead (M.read p.mSource).1,
              PullerEffect.postPull p.mPullGeneration])) ∧
    (Delivers M → ∀ (q q1 : Puller S) (msgs : List PullerMessage) (effs : List PullerEffect),
      PullerMessage.kWhatStart ∉ msgs →
      Puller.run M (PullerMessage.kWhatStart :: msgs) q = .ok (q1, effs) →
      (q1.mReachedEOS = false ↔ none ∉ postedNotifies effs)) := by
  refine ⟨fun hp => onPull_error M p herr hp, fun hp => ?_, ?_⟩
  · have h := onPull_paused M p hp (fun h => absurd h herr)
    simpa [releasedUnread, herr] using h
  · intro hM q q1 msgs effs hmsgs hrun
    obtain ⟨q2, e2, h2, hc⟩ := Puller.run_after_start M hM msgs hmsgs q
    rw [h2] at hrun
    simp only [Except.ok.injEq, Prod.mk.injEq] at hrun
    obtain ⟨rfl, rfl⟩ := hrun
    rw [← List.count_eq_zero]
    by_cases hr : q2.mReachedEOS = true
    · simp [hr] at hc ⊢
      omega
    · have hr0 : q2.mReachedEOS = false := by simpa using hr
      simp [hr0] at hc ⊢
      exact hc

/-- C13 as amended, at a concrete input: at the end of the source a Puller that is not
paused posts the null access unit and no pull. -/
theorem pull_error_posts_eos_unless_paused_witness :
    Puller.onMessageReceived listSource (PullerMessage.kWhatPull 0) (Puller.construct [] false)
      = .ok ({ (Puller.construct [] false : Puller (List MediaBuffer)) with
               mSource := [], mReachedEOS := true },
          [PullerEffect.sourceRead ERROR_END_OF_STREAM, PullerEffect.postNotify none]) :=
  (pull_error_posts_eos_unless_paused listSource (Puller.construct [] false) (by decide)).1 rfl

/-- C14: after a start, whatever messages other than a start follow and whatever the
source returns, the run completes and at most one null access unit is posted; the stop
handler replaces the generation by its int32 successor (one more, below INT32_MAX) and
leaves the EOS-emitted flag set. -/
theorem eos_notified_at_most_once {S : Type} (M : MediaSource S) (hM : Delivers M)
    (p : Puller S) (msgs : List PullerMessage) (hmsgs : PullerMessage.kWhatStart ∉ msgs) :
    (∃ p1 effs, Puller.run M (PullerMessage.kWhatStart :: msgs) p = .ok (p1, effs) ∧
      (postedNotifies effs).count none ≤ 1) ∧
    (∃ effs, Puller.onMessageReceived M PullerMessage.kWhatStop p =
      .ok ({ p with mPullGeneration := wrapInt32 (p.mPullGeneration + 1),
                    mReachedEOS := true }, effs)) ∧
    (InRange32 p.mPullGeneration → p.mPullGeneration ≠ INT32_MAX →
      wrapInt32 (p.mPullGeneration + 1) = p.mPullGeneration + 1) := by
  refine ⟨?_, ?_, ?_⟩
  · obtain ⟨p1, effs, h, hc⟩ := Puller.run_after_start M hM msgs hmsgs p
    exact ⟨p1, effs, h, by omega⟩
  · by_cases hr : p.mReachedEOS = false
    · exact ⟨[PullerEffect.postNotify none],
        by simp only [Puller.onMessageReceived, Puller.handleEOS, hr, if_true]⟩
    · have hr1 : p.mReachedEOS = true := by simpa using hr
      refine ⟨[], ?_⟩
      obtain ⟨src, g, a, pa, r⟩ := p
      simp only at hr1
      subst hr1
      simp [Puller.onMessageReceived, Puller.handleEOS]
  · intro hr hne
    unfold InRange32 at hr
    unfold INT32_MAX at hne
    unfold wrapInt32
    omega

/-- C14 at a concrete input: the Puller on the three-buffer source handles a start and
then messages of every other kind. -/
theorem eos_notified_at_most_once_witness :
    (∃ p1 effs, Puller.run listSource (PullerMessage.kWhatStart :: afterStartMessages)
        freshPuller = .ok (p1, effs) ∧ (postedNotifies effs).count none ≤ 1) ∧
    (∃ effs, Puller.onMessageReceived listSource PullerMessage.kWhatStop freshPuller =
      .ok ({ freshPuller with mPullGeneration := wrapInt32 (freshPuller.mPullGeneration + 1),
                              mReachedEOS := true }, effs)) ∧
    (InRange32 freshPuller.mPullGeneration → freshPuller.mPullGeneration ≠ INT32_MAX →
      wrapInt32 (freshPuller.mPullGeneration + 1) = freshPuller.mPullGeneration + 1) :=
  eos_notified_at_most_once listSource listSource_delivers freshPuller afterStartMessages
    (by decide)

/-! ## Start -/

/-- C15: the Puller's start handler replies with the status of the source's start and
posts a first pull of the current generation exactly when that status is OK;
`Puller::start` returns that status; the pipeline's first start in pull mode replies
with it, so `start` returns it, and sets the started flag only when it is OK; after a
failed start a later start request calls `Puller::start` again. -/
theorem start_status_propagates {S : Type} (M : MediaSource S) (C : MediaCodec E)
    (p : Puller S) (s : State E) (replyID : Nat) (params : Option MetaData)
    (hpull : s.mFlags &&& FLAG_USE_SURFACE_INPUT = 0) (hP : s.mPuller = true)
    (hfirst : s.mStarted = false) (hns : s.mStopping = false) :
    Puller.onMessageReceived M PullerMessage.kWhatStart p
      = .ok ({ p with mReachedEOS := false, mSource := (M.start p.mSource).2 },
          [PullerEffect.sourceStart (M.start p.mSource).1]
            ++ (if (M.start p.mSource).1 = OK then [PullerEffect.postPull p.mPullGeneration]
                else [])
            ++ [PullerEffect.postReply (M.start p.mSource).1]) ∧
    (∃ p1 effs, Puller.start M p = .ok ((M.start p.mSource).1, p1, effs)) ∧
    (∃ s1, onMessageReceived C (Message.kWhatStart replyID params (M.start p.mSource).1) s
        = .ok s1 ∧
      s1 = { s with
             mStarted := decide ((M.start p.mSource).1 = OK)
             log := s.log ++ [Effect.pullerStart,
               Effect.postReply replyID (some (M.start p.mSource).1)] } ∧
      start OK (some (M.start p.mSource).1) = (M.start p.mSource).1 ∧
      ((M.start p.mSource).1 ≠ OK → ∀ (id2 : Nat) (params2 : Option MetaData) (e2 : Status),
        ∃ s2, onMessageReceived C (Message.kWhatStart id2 params2 e2) s1 = .ok s2 ∧
          s2.log = s1.log ++ [Effect.pullerStart, Effect.postReply id2 (some e2)])) := by
  refine ⟨rfl, ?_, ?_⟩
  · refine ⟨{ p with mReachedEOS := false, mSource := (M.start p.mSource).2 },
      [PullerEffect.sourceStart (M.start p.mSource).1]
        ++ (if (M.start p.mSource).1 = OK then [PullerEffect.postPull p.mPullGeneration]
            else [])
        ++ [PullerEffect.postReply (M.start p.mSource).1], ?_⟩
    simp only [Puller.start, (Puller.onMessageReceived_start M p).1]
    have hrep : repliedStatus ([PullerEffect.sourceStart (M.start p.mSource).1]
        ++ (if (M.start p.mSource).1 = OK then [PullerEffect.postPull p.mPullGeneration]
            else [])
        ++ [PullerEffect.postReply (M.start p.mSource).1]) = some (M.start p.mSource).1 := by
      split <;> simp [repliedStatus]
    rw [hrep]
    simp [Puller.postSynchronouslyAndReturnError]
  · have hflag : ¬ (s.mFlags &&& FLAG_USE_SURFACE_INPUT ≠ 0) := by simp [hpull]
    by_cases he : (M.start p.mSource).1 = OK
    · refine ⟨_, ?_, rfl, ?_, fun h => absurd he h⟩
      · simp [onMessageReceived, onStart, hns, hfirst, hpull, hP, he, State.emit]
      · simp [start, postSynchronouslyAndReturnError]
    · refine ⟨{ s with
               mStarted := decide ((M.start p.mSource).1 = OK)
               log := s.log ++ [Effect.pullerStart,
                 Effect.postReply replyID (some (M.start p.mSource).1)] }, ?_, rfl, ?_, ?_⟩
      · simp only [onMessageReceived, onStart, hns, hfirst, hpull, hP, he, State.emit]
        obtain ⟨f1, f2, f3, f4, f5, f6, f7, f8, f9, f10, f11, f12, f13, f14, f15, f16, f17,
          f18⟩ := s
        simp only at hfirst
        subst hfirst
        simp [OK] at he ⊢
        simp [he]
      · simp [start, postSynchronouslyAndReturnError]
      · intro _ id2 params2 e2
        by_cases he2 : e2 = OK
        · subst he2
          exact ⟨_, by simp [onMessageReceived, onStart, hns, hfirst, hpull, hP, he,
            State.emit]; rfl, by simp⟩
        · exact ⟨_, by simp [onMessageReceived, onStart, hns, hfirst, hpull, hP, he, he2,
            State.emit]; rfl, by simp⟩

/-- C15 at a concrete input: the source's start fails with -5 on a fresh pull-mode
pipeline. -/
theorem start_status_propagates_witness :
    Puller.onMessageReceived failingSource PullerMessage.kWhatStart freshPuller
      = .ok (freshPuller, [PullerEffect.sourceStart (-5), PullerEffect.postReply (-5)]) ∧
    (∃ p1 effs, Puller.start failingSource freshPuller = .ok (-5, p1, effs)) ∧
    (∃ s1, onMessageReceived scriptCodec (Message.kWhatStart 1 none (-5))
        (liveState 0 true ⟨[], [], []⟩) = .ok s1 ∧
      s1 = { liveState 0 true ⟨[], [], []⟩ with
             mStarted := false
             log := [Effect.pullerStart, Effect.postReply 1 (some (-5))] } ∧
      start OK (some (-5)) = -5 ∧
      ((-5 : Status) ≠ OK → ∀ (id2 : Nat) (params2 : Option MetaData) (e2 : Status),
        ∃ s2, onMessageReceived scriptCodec (Message.kWhatStart id2 params2 e2) s1 = .ok s2 ∧
          s2.log = s1.log ++ [Effect.pullerStart, Effect.postReply id2 (some e2)])) :=
  start_status_propagates failingSource scriptCodec freshPuller (liveState 0 true ⟨[], [], []⟩)
    1 none (by decide) rfl rfl rfl

/-! ## Start on a started or stopping pipeline, and resume -/

/-- C16: on a started pipeline that is not stopping, the start handler replies OK and
only resumes: in pull mode it calls `Puller::resume`, in surface-input mode it asks the
encoder (if it is still there) to stop dropping input frames, without a skip threshold;
nothing else is called, and only the encoder's own state and the log change. -/
theorem start_when_started_resumes (C : MediaCodec E) (s : State E) (replyID : Nat)
    (params : Option MetaData) (pullerErr : Status)
    (hstarted : s.mStarted = true) (hns : s.mStopping = false)
    (hP : s.mFlags &&& FLAG_USE_SURFACE_INPUT = 0 → s.mPuller = true) :
    onMessageReceived C (Message.kWhatStart replyID params pullerErr) s
      = .ok { s with
              mEncoder :=
                if s.mFlags &&& FLAG_USE_SURFACE_INPUT ≠ 0 then
                  s.mEncoder.map (fun e =>
                    C.setParameters e { dropInputFrames := false, skipFramesBefore := none })
                else s.mEncoder
              log := s.log ++ resumeEffects s ++ [Effect.postReply replyID (some OK)] } ∧
    start OK (some OK) = OK := by
  refine ⟨?_, by simp [start, postSynchronouslyAndReturnError]⟩
  by_cases hsurf : s.mFlags &&& FLAG_USE_SURFACE_INPUT = 0
  · simp [onMessageReceived, onStart, hns, hstarted, hsurf, hP hsurf, State.emit,
      resumeEffects]
  · cases he : s.mEncoder with
    | none =>
      simp [onMessageReceived, onStart, hns, hstarted, hsurf, resume, he, State.emit,
        resumeEffects]
    | some e =>
      simp [onMessageReceived, onStart, hns, hstarted, hsurf, resume, he, State.emit,
        resumeEffects, resume_default]

/-- C16 at a concrete input: a started surface-input pipeline handles a second start. -/
theorem start_when_started_resumes_witness :
    onMessageReceived scriptCodec (Message.kWhatStart 2 none OK) startedSurface
      = .ok { startedSurface with
              mEncoder :=
                if startedSurface.mFlags &&& FLAG_USE_SURFACE_INPUT ≠ 0 then
                  startedSurface.mEncoder.map (fun e =>
                    scriptCodec.setParameters e
                      { dropInputFrames := false, skipFramesBefore := none })
                else startedSurface.mEncoder
              log := startedSurface.log ++ resumeEffects startedSurface
                ++ [Effect.postReply 2 (some OK)] } ∧
    start OK (some OK) = OK :=
  start_when_started_resumes scriptCodec startedSurface 2 none OK rfl rfl (by decide)

/-- C17: on a stopping pipeline `onStart` returns INVALID_OPERATION and leaves the state
as it is; the handler only posts the reply with that status, which `start` returns. -/
theorem start_while_stopping (C : MediaCodec E) (s : State E) (replyID : Nat)
    (params : Option MetaData) (pullerErr : Status) (hs : s.mStopping = true) :
    onStart C params pullerErr s = .ok (INVALID_OPERATION, s) ∧
    onMessageReceived C (Message.kWhatStart replyID params pullerErr) s
      = .ok { s with log := s.log ++ [Effect.postReply replyID (some INVALID_OPERATION)] } ∧
    start OK (some INVALID_OPERATION) = INVALID_OPERATION := by
  refine ⟨by simp [onStart, hs], by simp [onMessageReceived, onStart, hs, State.emit], ?_⟩
  simp [start, postSynchronouslyAndReturnError, INVALID_OPERATION, OK]

/-- C17 at a concrete input: the stopping surface-input pipeline with two pending stop
requests handles a start request. -/
theorem start_while_stopping_witness :
    onStart scriptCodec none OK stoppingExample = .ok (INVALID_OPERATION, stoppingExample) ∧
    onMessageReceived scriptCodec (Message.kWhatStart 3 none OK) stoppingExample
      = .ok { stoppingExample with
              log := stoppingExample.log ++ [Effect.postReply 3 (some INVALID_OPERATION)] } ∧
    start OK (some INVALID_OPERATION) = INVALID_OPERATION :=
  start_while_stopping scriptCodec stoppingExample 3 none OK rfl

/-- C18: on a surface-input pipeline with a live encoder `resume(T)` sends one
`setParameters` request with drop-input-frames false, carrying skip-frames-before = T
exactly when T > 0 (no threshold for T = 0 and negative T); with the encoder released
it does nothing. -/
theorem resume_sets_threshold (C : MediaCodec E) (T : Int) (s : State E)
    (hsurf : s.mFlags &&& FLAG_USE_SURFACE_INPUT ≠ 0) :
    (∀ e, s.mEncoder = some e →
      resume C T s = .ok { s with
        mEncoder := some (C.setParameters e
          { dropInputFrames := false, skipFramesBefore := if T > 0 then some T else none })
        log := s.log ++ [Effect.setParameters
          { dropInputFrames := false, skipFramesBefore := if T > 0 then some T else none }] }) ∧
    ((if T > 0 then some T else none) = some T ↔ T > 0) ∧
    (T ≤ 0 → (if T > 0 then some T else none) = none) ∧
    (s.mEncoder = none → resume C T s = .ok s) := by
  refine ⟨fun e he => ?_, ?_, ?_, fun he => ?_⟩
  · simp [resume, hsurf, he]
  · by_cases hT : T > 0 <;> simp [hT]
  · intro hT
    have : ¬ T > 0 := by omega
    simp [this]
  · simp [resume, hsurf, he]

/-- C18 at a concrete input: `resume(0)` on a started surface-input pipeline. -/
theorem resume_sets_threshold_witness :
    (∀ e, startedSurface.mEncoder = some e →
      resume scriptCodec 0 startedSurface = .ok { startedSurface with
        mEncoder := some (scriptCodec.setParameters e
          { dropInputFrames := false,
            skipFramesBefore := if (0 : Int) > 0 then some 0 else none })
        log := startedSurface.log ++ [Effect.setParameters
          { dropInputFrames := false,
            skipFramesBefore := if (0 : Int) > 0 then some 0 else none }] }) ∧
    ((if (0 : Int) > 0 then some (0 : Int) else none) = some 0 ↔ (0 : Int) > 0) ∧
    ((0 : Int) ≤ 0 → (if (0 : Int) > 0 then some (0 : Int) else none) = none) ∧
    (startedSurface.mEncoder = none → resume scriptCodec 0 startedSurface = .ok startedSurface) :=
  resume_sets_threshold scriptCodec 0 startedSurface (by decide)

/-! ## What the output loop does -/

/-- The dequeued slots of two effect lists in a row. -/
theorem dequeuedSlots_append (a b : List Effect) :
    dequeuedSlots (a ++ b) = dequeuedSlots a ++ dequeuedSlots b := by
  simp [dequeuedSlots, List.filterMap_append]

/-- The released slots of two effect lists in a row. -/
theorem releasedSlots_append (a b : List Effect) :
    releasedSlots (a ++ b) = releasedSlots a ++ releasedSlots b := by
  simp [releasedSlots, List.filterMap_append]

/-- The copied slots of two effect lists in a row. -/
theorem copiedSlots_append (a b : List Effect) :
    copiedSlots (a ++ b) = copiedSlots a ++ copiedSlots b := by
  simp [copiedSlots, dequeuedSlots_append]

/-- Effects of the input side dequeue and release no output slot. -/
theorem slots_of_inputWork (ext : List Effect) (h : ∀ x ∈ ext, x.isInputWork = true) :
    dequeuedSlots ext = [] ∧ releasedSlots ext = [] := by
  constructor
  · rw [dequeuedSlots, List.filterMap_eq_nil_iff]
    intro x hx
    have hw := h x hx
    cases x <;> first | rfl | simp [Effect.isInputWork] at hw
  · rw [releasedSlots, List.filterMap_eq_nil_iff]
    intro x hx
    have hw := h x hx
    cases x <;> first | rfl | simp [Effect.isInputWork] at hw

/-- A loop that does nothing. -/
theorem DrainTrace.idle (s : State E) (st : Status) (n : Nat) : DrainTrace s s st n [] [] :=
  ⟨by simp, by simp, rfl, rfl, by simp, by simp [copiedSlots, dequeuedSlots],
    by simp [releasedSlots, dequeuedSlots], by simp [dequeuedSlots],
    by simp [dequeuedSlots]⟩

/-- One iteration that goes on, followed by the rest of the loop. -/
theorem DrainTrace.prepend {s s' s1 : State E} {st : Status} {n : Nat}
    {ext : List Effect} {new : List MediaBuffer}
    (hd : List Effect) (hnew : List MediaBuffer)
    (hlog : s'.log = s.log ++ hd)
    (hq : s'.mOutputBufferQueue = s.mOutputBufferQueue ++ hnew)
    (hin : s'.mInputBufferQueue = s.mInputBufferQueue)
    (hav : s'.mAvailEncoderInputIndices = s.mAvailEncoderInputIndices)
    (hfl : s'.mFlags = s.mFlags) (hvid : s'.mIsVideo = s.mIsVideo)
    (hwork : ∀ x ∈ hd, x.isOutputWork = true)
    (hbuilt : List.Forall₂ (Built s.mFlags s.mIsVideo) (copiedSlots hd) hnew)
    (hrel : releasedSlots hd = (dequeuedSlots hd).map BufferInfo.index)
    (hbound : (dequeuedSlots hd).length ≤ 1)
    (hplain : ∀ i ∈ dequeuedSlots hd, i.isEOS = false)
    (tr : DrainTrace s' s1 st n ext new) :
    DrainTrace s s1 st (n + 1) (hd ++ ext) (hnew ++ new) := by
  refine ⟨?_, ?_, tr.inputs.trans hin, tr.avail.trans hav, ?_, ?_, ?_, ?_, ?_⟩
  · rw [tr.log, hlog, List.append_assoc]
  · rw [tr.queue, hq, List.append_assoc]
  · intro x hx
    rcases List.mem_append.mp hx with h | h
    · exact hwork x h
    · exact tr.outputWork x h
  · rw [copiedSlots_append]
    have hb := tr.built
    rw [hfl, hvid] at hb
    exact List.rel_append hbuilt hb
  · rw [releasedSlots_append, dequeuedSlots_append, List.map_append, hrel, tr.released]
  · rw [dequeuedSlots_append, List.length_append]
    have := tr.bound
    omega
  · intro info hinfo heos
    rw [dequeuedSlots_append] at hinfo
    rcases List.mem_append.mp hinfo with h | h
    · rw [hplain info h] at heos
      cases heos
    · obtain ⟨hst, pre, hpre, hno⟩ := tr.eos info h heos
      refine ⟨hst, hd ++ pre, by rw [hpre, List.append_assoc], ?_⟩
      intro i hi
      rw [dequeuedSlots_append] at hi
      rcases List.mem_append.mp hi with h1 | h1
      · exact hplain i h1
      · exact hno i h1

/-- The output loop, whenever it returns: the buffers it appended are those of the
successfully dequeued slots without the end-of-stream flag, in order; it released the
dequeued slots, in order; and a slot with the flag is the last thing it handled. -/
theorem drainLoop_trace (C : MediaCodec E) :
    ∀ (n : Nat) (err : Status) (s s1 : State E) (st : Status),
      drainLoop C n err s = .ok (st, s1) → ∃ ext new, DrainTrace s s1 st n ext new := by
  intro n
  induction n with
  | zero =>
    intro err s s1 st h
    simp only [drainLoop, Except.ok.injEq, Prod.mk.injEq] at h
    obtain ⟨rfl, rfl⟩ := h
    exact ⟨[], [], DrainTrace.idle _ _ _⟩
  | succ k ih =>
    intro err s s1 st h
    unfold drainLoop at h
    split at h
    · cases h
    · rename_i e he
      dsimp only at h
      split at h
      · rename_i hne
        have hnone : dequeuedSlots [Effect.dequeueOutputBuffer (C.dequeueOutputBuffer e).1
            (C.dequeueOutputBuffer e).2.1] = [] := by
          simp [dequeuedSlots, hne]
        split at h
        · obtain ⟨ext, new, tr⟩ := ih _ _ _ _ h
          refine ⟨_, _, DrainTrace.prepend
            [Effect.dequeueOutputBuffer (C.dequeueOutputBuffer e).1 (C.dequeueOutputBuffer e).2.1]
            [] ?_ ?_ ?_ ?_ ?_ ?_ ?_ ?_ ?_ ?_ ?_ tr⟩
          all_goals first
            | rfl
            | simp [Effect.isOutputWork, copiedSlots, releasedSlots, hnone]
        · split at h
          · obtain ⟨ext, new, tr⟩ := ih _ _ _ _ h
            have hnone2 : dequeuedSlots [Effect.dequeueOutputBuffer (C.dequeueOutputBuffer e).1
                (C.dequeueOutputBuffer e).2.1, Effect.getOutputBuffers] = [] := by
              simp [dequeuedSlots, hne]
            refine ⟨_, _, DrainTrace.prepend
              [Effect.dequeueOutputBuffer (C.dequeueOutputBuffer e).1
                (C.dequeueOutputBuffer e).2.1, Effect.getOutputBuffers]
              [] ?_ ?_ ?_ ?_ ?_ ?_ ?_ ?_ ?_ ?_ ?_ tr⟩
            all_goals first
              | rfl
              | simp [Effect.isOutputWork, copiedSlots, releasedSlots, hnone2]
          · simp only [Except.ok.injEq, Prod.mk.injEq] at h
            obtain ⟨rfl, rfl⟩ := h
            exact ⟨[Effect.dequeueOutputBuffer (C.dequeueOutputBuffer e).1
                (C.dequeueOutputBuffer e).2.1], [],
              ⟨rfl, by simp, rfl, rfl, by simp [Effect.isOutputWork],
                by simp [copiedSlots, hnone], by simp [releasedSlots, hnone],
                by simp [hnone], by simp [hnone]⟩⟩
      · rename_i hok
        have hok : (C.dequeueOutputBuffer e).1 = OK := by simpa using hok
        split at h
        · cases h
        · rename_i s2 hq
          split at hq
          · rename_i hnoeos
            split at hq
            · cases hq
            split at hq
            · cases hq
            · rename_i mbuf hmk
              simp only [Except.ok.injEq] at hq
              subst hq
              rw [if_neg (by simpa using hnoeos)] at h
              obtain ⟨ext, new, tr⟩ := ih _ _ _ _ h
              have hone : dequeuedSlots [Effect.dequeueOutputBuffer (C.dequeueOutputBuffer e).1
                  (C.dequeueOutputBuffer e).2.1, Effect.condSignal,
                  Effect.releaseOutputBuffer (C.dequeueOutputBuffer e).2.1.index]
                  = [(C.dequeueOutputBuffer e).2.1] := by
                simp [dequeuedSlots, hok]
              have hplain : (C.dequeueOutputBuffer e).2.1.isEOS = false := by
                simp [BufferInfo.isEOS, hnoeos]
              have hb : List.Forall₂ (Built s.mFlags s.mIsVideo)
                  (copiedSlots [Effect.dequeueOutputBuffer (C.dequeueOutputBuffer e).1
                    (C.dequeueOutputBuffer e).2.1, Effect.condSignal,
                    Effect.releaseOutputBuffer (C.dequeueOutputBuffer e).2.1.index]) [mbuf] := by
                simp only [copiedSlots, hone, List.filter, hplain, Bool.not_false]
                exact List.Forall₂.cons ⟨_, hmk⟩ List.Forall₂.nil
              refine ⟨_, _, DrainTrace.prepend
                [Effect.dequeueOutputBuffer (C.dequeueOutputBuffer e).1
                  (C.dequeueOutputBuffer e).2.1, Effect.condSignal,
                  Effect.releaseOutputBuffer (C.dequeueOutputBuffer e).2.1.index]
                [mbuf] ?_ ?_ ?_ ?_ ?_ ?_ ?_ hb ?_ ?_ ?_ tr⟩
              all_goals first
                | rfl
                | simp [Effect.isOutputWork, releasedSlots, hone, hplain]
          · rename_i heos
            simp only [Except.ok.injEq] at hq
            subst hq
            rw [if_pos (by simpa using heos)] at h
            simp only [Except.ok.injEq, Prod.mk.injEq] at h
            obtain ⟨rfl, rfl⟩ := h
            have hone : dequeuedSlots [Effect.dequeueOutputBuffer (C.dequeueOutputBuffer e).1
                (C.dequeueOutputBuffer e).2.1,
                Effect.releaseOutputBuffer (C.dequeueOutputBuffer e).2.1.index]
                = [(C.dequeueOutputBuffer e).2.1] := by
              simp [dequeuedSlots, hok]
            have hflag : (C.dequeueOutputBuffer e).2.1.isEOS = true := by
              simpa [BufferInfo.isEOS] using heos
            refine ⟨[Effect.dequeueOutputBuffer (C.dequeueOutputBuffer e).1
                (C.dequeueOutputBuffer e).2.1,
                Effect.releaseOutputBuffer (C.dequeueOutputBuffer e).2.1.index], [],
              ⟨by simp, by simp, rfl, rfl, by simp [Effect.isOutputWork],
                by simp [copiedSlots, hone, hflag], by simp [releasedSlots, hone],
                by simp [hone], ?_⟩⟩
            intro info hinfo _
            rw [hone, List.mem_singleton] at hinfo
            subst hinfo
            exact ⟨rfl, [], by simp [hok], by simp [dequeuedSlots]⟩

/-- One `queueInputBuffer` call leaves the output queue as it is. -/
theorem callQueueInputBuffer_queue (C : MediaCodec E) (i o n : Nat) (t : Int) (f : Nat)
    (s s1 : State E) (st : Status)
    (h : callQueueInputBuffer C i o n t f s = .ok (st, s1)) :
    s1.mOutputBufferQueue = s.mOutputBufferQueue := by
  unfold callQueueInputBuffer at h
  split at h
  · cases h
  · simp only [Except.ok.injEq, Prod.mk.injEq] at h
    obtain ⟨_, rfl⟩ := h
    rfl

/-- The feed loop leaves the output queue as it is. -/
theorem feedLoop_queue (C : MediaCodec E) :
    ∀ (q : List (Option MediaBuffer)) (s s1 : State E) (st : Status),
      feedLoop C q s = .ok (st, s1) → s1.mOutputBufferQueue = s.mOutputBufferQueue := by
  intro q
  induction q with
  | nil =>
    intro s s1 st h
    simp only [feedLoop, Except.ok.injEq, Prod.mk.injEq] at h
    obtain ⟨_, rfl⟩ := h
    rfl
  | cons mbuf rest ih =>
    intro s s1 st h
    unfold feedLoop at h
    split at h
    · simp only [Except.ok.injEq, Prod.mk.injEq] at h
      obtain ⟨_, rfl⟩ := h
      rfl
    · split at h
      · split at h
        · cases h
        · dsimp only at h
          split at h
          · cases h
          split at h
          · cases h
          · rename_i err s3 hc
            have h1 := callQueueInputBuffer_queue C _ _ _ _ _ _ _ _ hc
            split at h
            · simp only [Except.ok.injEq, Prod.mk.injEq] at h
              obtain ⟨_, rfl⟩ := h
              exact h1
            · exact (ih _ _ _ h).trans h1
      · dsimp only at h
        split at h
        · cases h
        · rename_i err s3 hc
          have h1 := callQueueInputBuffer_queue C _ _ _ _ _ _ _ _ hc
          split at h
          · simp only [Except.ok.injEq, Prod.mk.injEq] at h
            obtain ⟨_, rfl⟩ := h
            exact h1
          · exact (ih _ _ _ h).trans h1

/-- The input-slot loop leaves the output queue and the input queue as they are. -/
theorem dequeueInputLoop_queue (C : MediaCodec E) :
    ∀ (n : Nat) (s s1 : State E) (st : Status),
      dequeueInputLoop C n s = .ok (st, s1) →
      s1.mOutputBufferQueue = s.mOutputBufferQueue ∧
      s1.mInputBufferQueue = s.mInputBufferQueue := by
  intro n
  induction n with
  | zero =>
    intro s s1 st h
    simp only [dequeueInputLoop, Except.ok.injEq, Prod.mk.injEq] at h
    obtain ⟨_, rfl⟩ := h
    exact ⟨rfl, rfl⟩
  | succ k ih =>
    intro s s1 st h
    unfold dequeueInputLoop at h
    split at h
    · cases h
    · dsimp only at h
      split at h
      · simp only [Except.ok.injEq, Prod.mk.injEq] at h
        obtain ⟨_, rfl⟩ := h
        exact ⟨rfl, rfl⟩
      · have := ih _ _ _ h
        exact this

/-- The function `doMoreWork`, whenever it returns: an input part that touches neither
the output queue nor any output slot (and is empty in surface-input mode), followed by
the output loop. -/
theorem doMoreWork_trace (C : MediaCodec E) (numInput numOutput : Int) (s s1 : State E)
    (st : Status) (h : doMoreWork C numInput numOutput s = .ok (st, s1)) :
    ∃ (pre : List Effect) (s' : State E) (ext : List Effect) (new : List MediaBuffer),
      (∀ x ∈ pre, x.isInputWork = true) ∧ s'.log = s.log ++ pre ∧
      s'.mOutputBufferQueue = s.mOutputBufferQueue ∧
      s'.mFlags = s.mFlags ∧ s'.mIsVideo = s.mIsVideo ∧
      (s.mFlags &&& FLAG_USE_SURFACE_INPUT ≠ 0 → s' = s ∧ pre = []) ∧
      DrainTrace s' s1 st numOutput.toNat ext new := by
  unfold doMoreWork at h
  split at h
  · rename_i hpull
    split at h
    · cases h
    · rename_i err sa ha
      split at h
      · cases h
      · rename_i x sb hb
        obtain ⟨fa, _⟩ := dequeueInputLoop_frame C _ _ _ _ ha
        have fb := feedEncoderInputBuffers_frame C _ _ _ hb
        have fab := fa.andThen fb
        obtain ⟨pre, hpre, hw⟩ := fab.log
        obtain ⟨ext, new, tr⟩ := drainLoop_trace C _ _ _ _ _ h
        have hq1 := (dequeueInputLoop_queue C _ _ _ _ ha).1
        have hq2 := feedLoop_queue C _ _ _ _ hb
        exact ⟨pre, sb, ext, new, hw, hpre, hq2.trans hq1, fab.mFlags, fab.mIsVideo,
          fun hs => absurd hpull hs, tr⟩
  · obtain ⟨ext, new, tr⟩ := drainLoop_trace C _ _ _ _ _ h
    exact ⟨[], s, ext, new, by simp, by simp, rfl, rfl, rfl, fun _ => ⟨rfl, rfl⟩, tr⟩

/-! ## When the feed and drain algorithms return -/

/-- The input-slot loop returns when the encoder is live. -/
theorem dequeueInputLoop_total (C : MediaCodec E) :
    ∀ (n : Nat) (s : State E), s.mEncoder ≠ none →
      ∃ st s1, dequeueInputLoop C n s = .ok (st, s1) := by
  intro n
  induction n with
  | zero => intro s _; exact ⟨_, _, rfl⟩
  | succ k ih =>
    intro s henc
    obtain ⟨e, he⟩ := Option.ne_none_iff_exists'.mp henc
    simp only [dequeueInputLoop, he]
    split
    · exact ⟨_, _, rfl⟩
    · exact ih _ (by simp)

/-- One iteration of the output loop on a completed slot flagged end-of-stream: the
slot is released and the loop returns the end-of-stream status at once. -/
theorem drainLoop_eos_slot (C : MediaCodec E) (n : Nat) (err : Status) (t : State E) (e : E)
    (he : t.mEncoder = some e) (hok : (C.dequeueOutputBuffer e).1 = OK)
    (heos : (C.dequeueOutputBuffer e).2.1.isEOS = true) :
    drainLoop C (n + 1) err t = .ok (ERROR_END_OF_STREAM,
      { t with
        mEncoder := some (C.releaseOutputBuffer (C.dequeueOutputBuffer e).2.2
          (C.dequeueOutputBuffer e).2.1.index)
        log := t.log ++ [Effect.dequeueOutputBuffer OK (C.dequeueOutputBuffer e).2.1,
          Effect.releaseOutputBuffer (C.dequeueOutputBuffer e).2.1.index] }) := by
  have hflag : ¬ (C.dequeueOutputBuffer e).2.1.flags &&& BUFFER_FLAG_EOS = 0 := by
    simpa [BufferInfo.isEOS] using heos
  simp only [drainLoop, he, hok, hflag]
  simp [hflag]

/-- C19: when a `doMoreWork` call of the activity handler has successfully dequeued a
slot flagged end-of-stream, that dequeue and the release of the slot are the last two
things the call did (no buffer enqueued for the slot, no further dequeue), the releases
before belong to the slots dequeued before, the output queue grew by one buffer per
earlier slot only, `doMoreWork` returned the end-of-stream status, and the handler ends
in `signalEOS` with that status. The iteration that dequeues such a slot always
returns. -/
theorem eos_flag_ends_drain (C : MediaCodec E) (s s1 : State E) (ib ob : Option Int)
    (st : Status) (info : BufferInfo) (henc : s.mEncoder ≠ none)
    (hrun : doMoreWork C (countOrMax ib) (countOrMax ob) { s with mDoMoreWorkPending := false } =
      .ok (st, s1))
    (hslot : info ∈ dequeuedSlots (s1.log.drop s.log.length)) (heos : info.isEOS = true) :
    st = ERROR_END_OF_STREAM ∧
    (∃ pre, s1.log = s.log ++ pre ++ [Effect.dequeueOutputBuffer OK info,
        Effect.releaseOutputBuffer info.index] ∧
      (∀ i ∈ dequeuedSlots pre, i.isEOS = false) ∧
      releasedSlots pre = (dequeuedSlots pre).map BufferInfo.index ∧
      s1.mOutputBufferQueue.length = s.mOutputBufferQueue.length + (dequeuedSlots pre).length) ∧
    onMessageReceived C (Message.kWhatEncoderActivity ib ob) s
      = .ok (signalEOS ERROR_END_OF_STREAM s1) ∧
    (∀ (n : Nat) (err : Status) (t : State E) (e : E), t.mEncoder = some e →
      (C.dequeueOutputBuffer e).1 = OK → (C.dequeueOutputBuffer e).2.1.isEOS = true →
      drainLoop C (n + 1) err t = .ok (ERROR_END_OF_STREAM,
        { t with
          mEncoder := some (C.releaseOutputBuffer (C.dequeueOutputBuffer e).2.2
            (C.dequeueOutputBuffer e).2.1.index)
          log := t.log ++ [Effect.dequeueOutputBuffer OK (C.dequeueOutputBuffer e).2.1,
            Effect.releaseOutputBuffer (C.dequeueOutputBuffer e).2.1.index] })) := by
  obtain ⟨pre, s', ext, new, hpre, hlog, hq, _, _, _, tr⟩ :=
    doMoreWork_trace C _ _ _ s1 st hrun
  obtain ⟨hd0, hr0⟩ := slots_of_inputWork pre hpre
  have hlog1 : s1.log = s.log ++ (pre ++ ext) := by
    rw [tr.log, hlog, List.append_assoc]
  have hmem : info ∈ dequeuedSlots ext := by
    rw [hlog1, List.drop_left, dequeuedSlots_append, hd0, List.nil_append] at hslot
    exact hslot
  obtain ⟨hst, pre2, hext, hplain⟩ := tr.eos info hmem heos
  have hone : dequeuedSlots [Effect.dequeueOutputBuffer OK info,
      Effect.releaseOutputBuffer info.index] = [info] := by
    simp [dequeuedSlots]
  have hrone : releasedSlots [Effect.dequeueOutputBuffer OK info,
      Effect.releaseOutputBuffer info.index] = [info.index] := by
    simp [releasedSlots]
  have hdpre : dequeuedSlots (pre ++ pre2) = dequeuedSlots pre2 := by
    rw [dequeuedSlots_append, hd0, List.nil_append]
  refine ⟨hst, ⟨pre ++ pre2, ?_, ?_, ?_, ?_⟩, ?_,
    fun n err t e => drainLoop_eos_slot C n err t e⟩
  · rw [hlog1, hext]
    simp only [List.append_assoc]
  · intro i hi
    rw [hdpre] at hi
    exact hplain i hi
  · have hrel := tr.released
    rw [hext, releasedSlots_append, dequeuedSlots_append, hone, hrone, List.map_append] at hrel
    rw [releasedSlots_append, hr0, List.nil_append, hdpre]
    exact List.append_cancel_right hrel
  · have hlen := tr.built.length_eq
    rw [hext, copiedSlots_append] at hlen
    have hc1 : copiedSlots pre2 = dequeuedSlots pre2 := by
      unfold copiedSlots
      rw [List.filter_eq_self]
      intro i hi
      simp [hplain i hi]
    have hc2 : copiedSlots [Effect.dequeueOutputBuffer OK info,
        Effect.releaseOutputBuffer info.index] = [] := by
      simp [copiedSlots, hone, heos]
    rw [hc1, hc2, List.append_nil] at hlen
    have hq1 : s1.mOutputBufferQueue = s.mOutputBufferQueue ++ new := by
      rw [tr.queue, hq]
    rw [hq1, List.length_append, hdpre, hlen]
  · rw [onEncoderActivity_eq C s s1 ib ob st henc hrun, hst]
    simp [ERROR_END_OF_STREAM, OK]

/-- C19 at a concrete input: the surface-input pipeline whose encoder completes one
slot flagged end-of-stream handles an activity notification. -/
theorem eos_flag_ends_drain_witness :
    doMoreWork scriptCodec (countOrMax none) (countOrMax (some 3))
        { surfaceEosState with mDoMoreWorkPending := false }
      = .ok (ERROR_END_OF_STREAM, afterWork (countOrMax none) (countOrMax (some 3))
          { surfaceEosState with mDoMoreWorkPending := false }) ∧
    (afterWork (countOrMax none) (countOrMax (some 3))
        { surfaceEosState with mDoMoreWorkPending := false }).log =
      [Effect.dequeueOutputBuffer OK ⟨0, 0, 0, 0, BUFFER_FLAG_EOS⟩,
        Effect.releaseOutputBuffer 0] ∧
    onMessageReceived scriptCodec (Message.kWhatEncoderActivity none (some 3)) surfaceEosState
      = .ok (signalEOS ERROR_END_OF_STREAM (afterWork (countOrMax none) (countOrMax (some 3))
          { surfaceEosState with mDoMoreWorkPending := false })) :=
  ⟨rfl, rfl,
    (eos_flag_ends_drain scriptCodec surfaceEosState
      (afterWork (countOrMax none) (countOrMax (some 3))
        { surfaceEosState with mDoMoreWorkPending := false })
      none (some 3) ERROR_END_OF_STREAM ⟨0, 0, 0, 0, BUFFER_FLAG_EOS⟩
      (by decide) rfl (by decide) rfl).2.2.1⟩

/-! ## No null sentinel in the input queue -/

/-- Doing nothing is a tidy step. -/
theorem Tidy.nothing (s : State E) : Tidy s s :=
  ⟨rfl, rfl, fun h => h, fun _ => ⟨[], by simp, by simp⟩⟩

/-- Tidy steps compose. -/
theorem Tidy.next {s s1 s2 : State E} (h1 : Tidy s s1) (h2 : Tidy s1 s2) : Tidy s s2 := by
  refine ⟨h2.mFlags.trans h1.mFlags, h2.mPuller.trans h1.mPuller,
    fun h => h2.inputs (h1.inputs h), fun h => ?_⟩
  obtain ⟨x1, hx1, hw1⟩ := h1.log h
  obtain ⟨x2, hx2, hw2⟩ := h2.log (h1.inputs h)
  refine ⟨x1 ++ x2, by rw [hx2, hx1, List.append_assoc], ?_⟩
  intro x hx
  rcases List.mem_append.mp hx with h | h
  · exact hw1 x h
  · exact hw2 x h

/-- A step that keeps the flags and the Puller, queues nothing new and adds the
effects `ext`, none of them a flagged submission, is tidy. -/
theorem Tidy.of_step {s s1 : State E} (hf : s1.mFlags = s.mFlags)
    (hp : s1.mPuller = s.mPuller)
    (hq : ∀ x ∈ s1.mInputBufferQueue, x ∈ s.mInputBufferQueue)
    (ext : List Effect) (hlog : s1.log = s.log ++ ext)
    (hext : ∀ x ∈ ext, x.submitsEOS = false) : Tidy s s1 :=
  ⟨hf, hp, fun h hn => h (hq _ hn), fun _ => ⟨ext, hlog, hext⟩⟩

/-- A teardown effect is no submission. -/
theorem isTeardown_submitsEOS (x : Effect) (h : x.isTeardown = true) :
    x.submitsEOS = false := by
  cases x <;> first | rfl | simp [Effect.isTeardown] at h

/-- An effect of the output side is no submission. -/
theorem isOutputWork_submitsEOS (x : Effect) (h : x.isOutputWork = true) :
    x.submitsEOS = false := by
  cases x <;> first | rfl | simp [Effect.isOutputWork] at h

/-- What `signalEOS` leaves as it was, and that it queues no input. -/
theorem signalEOS_setup (err : Status) (s : State E) :
    (signalEOS err s).mFlags = s.mFlags ∧ (signalEOS err s).mPuller = s.mPuller ∧
    (signalEOS err s).mStarted = s.mStarted ∧
    (signalEOS err s).mDoMoreWorkPending = s.mDoMoreWorkPending ∧
    (∀ x ∈ (signalEOS err s).mInputBufferQueue, x ∈ s.mInputBufferQueue) := by
  unfold signalEOS releaseEncoder
  dsimp only
  by_cases h1 : s.mEncoderReachedEOS = false
  · cases h2 : s.mEncoder <;> by_cases h3 : s.mStopping = true <;> simp [h1, h2, h3]
  · by_cases h3 : s.mStopping = true <;> simp [h1, h3]

/-- The function `signalEOS` is a tidy step. -/
theorem signalEOS_tidy (err : Status) (s : State E) : Tidy s (signalEOS err s) := by
  obtain ⟨h1, h2, _, _, h5⟩ := signalEOS_setup err s
  obtain ⟨ext, hlog, hext⟩ := signalEOS_log err s
  exact Tidy.of_step h1 h2 h5 ext hlog (fun x hx => isTeardown_submitsEOS x (hext x hx))

/-- The function `scheduleDoMoreWork` is a tidy step that keeps the started flag. -/
theorem scheduleDoMoreWork_tidy (C : MediaCodec E) (s s1 : State E)
    (h : scheduleDoMoreWork C s = .ok s1) : Tidy s s1 ∧ s1.mStarted = s.mStarted := by
  unfold scheduleDoMoreWork at h
  split at h
  · cases h; exact ⟨Tidy.nothing _, rfl⟩
  · split at h
    · cases h
    · cases h
      exact ⟨Tidy.of_step rfl rfl (fun _ hx => hx) _ rfl (by simp [Effect.submitsEOS]), rfl⟩

/-- The function `resume` is a tidy step that keeps the started flag, the pending flag
and the EOS state. -/
theorem resume_tidy (C : MediaCodec E) (t : Int) (s s1 : State E)
    (h : resume C t s = .ok s1) :
    Tidy s s1 ∧ s1.mStarted = s.mStarted ∧ s1.mDoMoreWorkPending = s.mDoMoreWorkPending ∧
      s1.mEncoderReachedEOS = s.mEncoderReachedEOS := by
  unfold resume at h
  split at h
  · cases h
  · split at h
    · cases h; exact ⟨Tidy.nothing _, rfl, rfl, rfl⟩
    · cases h
      exact ⟨Tidy.of_step rfl rfl (fun _ hx => hx) _ rfl (by simp [Effect.submitsEOS]),
        rfl, rfl, rfl⟩

/-- The function `suspend` is a tidy step that keeps the started flag, the pending flag
and the EOS state. -/
theorem suspend_tidy (C : MediaCodec E) (s s1 : State E) (h : suspend C s = .ok s1) :
    Tidy s s1 ∧ s1.mStarted = s.mStarted ∧ s1.mDoMoreWorkPending = s.mDoMoreWorkPending ∧
      s1.mEncoderReachedEOS = s.mEncoderReachedEOS := by
  unfold suspend at h
  split at h
  · cases h
  · split at h
    · cases h; exact ⟨Tidy.nothing _, rfl, rfl, rfl⟩
    · cases h
      exact ⟨Tidy.of_step rfl rfl (fun _ hx => hx) _ rfl (by simp [Effect.submitsEOS]),
        rfl, rfl, rfl⟩

/-- The feed loop on a queue without the null sentinel submits no flagged slot and
leaves a queue without the sentinel. -/
theorem feedLoop_clean (C : MediaCodec E) :
    ∀ (q : List (Option MediaBuffer)) (s s1 : State E) (st : Status), none ∉ q →
      feedLoop C q s = .ok (st, s1) →
      (none ∉ s.mInputBufferQueue → none ∉ s1.mInputBufferQueue) ∧
      ∃ ext, s1.log = s.log ++ ext ∧ ∀ x ∈ ext, x.submitsEOS = false := by
  intro q
  induction q with
  | nil =>
    intro s s1 st _ h
    simp only [feedLoop, Except.ok.injEq, Prod.mk.injEq] at h
    obtain ⟨_, rfl⟩ := h
    exact ⟨fun h => h, [], by simp, by simp⟩
  | cons mbuf rest ih =>
    intro s s1 st hq h
    have hrest : none ∉ rest := fun hn => hq (List.mem_cons_of_mem _ hn)
    cases mbuf with
    | none => exact absurd (List.mem_cons_self _ _) hq
    | some b =>
      unfold feedLoop at h
      split at h
      · simp only [Except.ok.injEq, Prod.mk.injEq] at h
        obtain ⟨_, rfl⟩ := h
        exact ⟨fun h => h, [], by simp, by simp⟩
      · rename_i idx avail hav
        dsimp only at h
        split at h
        · cases h
        · rename_i t ht
          split at h
          · cases h
          split at h
          · cases h
          · rename_i err s3 hc
            unfold callQueueInputBuffer at hc
            split at hc
            · cases hc
            · rename_i e he
              simp only [State.emit, Except.ok.injEq, Prod.mk.injEq] at hc
              obtain ⟨_, rfl⟩ := hc
              have hone : ∀ x ∈ [
                  if s.mIsVideo = true then Effect.setMediaBufferBase idx (some b)
                  else Effect.mbufRelease b,
                  Effect.queueInputBuffer idx 0 b.size t 0
                    (C.queueInputBuffer e idx 0 b.size t 0).1], x.submitsEOS = false := by
                intro x hx
                simp only [List.mem_cons, List.mem_singleton, List.not_mem_nil, or_false] at hx
                rcases hx with rfl | rfl
                · split <;> rfl
                · simp [Effect.submitsEOS, BUFFER_FLAG_EOS]
              split at h
              · simp only [Except.ok.injEq, Prod.mk.injEq] at h
                obtain ⟨_, rfl⟩ := h
                exact ⟨fun _ => hrest, [
                  if s.mIsVideo = true then Effect.setMediaBufferBase idx (some b)
                  else Effect.mbufRelease b,
                  Effect.queueInputBuffer idx 0 b.size t 0
                    (C.queueInputBuffer e idx 0 b.size t 0).1],
                  by simp only [List.append_assoc]; rfl, hone⟩
              · obtain ⟨hi, ext, hlog, hext⟩ := ih _ _ _ hrest h
                refine ⟨fun _ => hi hrest, [
                  if s.mIsVideo = true then Effect.setMediaBufferBase idx (some b)
                  else Effect.mbufRelease b,
                  Effect.queueInputBuffer idx 0 b.size t 0
                    (C.queueInputBuffer e idx 0 b.size t 0).1] ++ ext, ?_, ?_⟩
                · rw [hlog]
                  simp only [List.append_assoc]
                  rfl
                · intro x hx
                  rcases List.mem_append.mp hx with h1 | h1
                  · exact hone x h1
                  · exact hext x h1

/-- The function `feedEncoderInputBuffers` is a tidy step. -/
theorem feedEncoderInputBuffers_tidy (C : MediaCodec E) (s s1 : State E) (st : Status)
    (h : feedEncoderInputBuffers C s = .ok (st, s1)) : Tidy s s1 := by
  have fr := feedEncoderInputBuffers_frame C s s1 st h
  refine ⟨fr.mFlags, fr.mPuller, fun hq => ?_, fun hq => ?_⟩
  · exact (feedLoop_clean C _ _ _ _ hq h).1 hq
  · exact (feedLoop_clean C _ _ _ _ hq h).2

/-- The input-slot loop adds only input dequeues to the log. -/
theorem dequeueInputLoop_log (C : MediaCodec E) :
    ∀ (n : Nat) (s s1 : State E) (st : Status), dequeueInputLoop C n s = .ok (st, s1) →
      ∃ ext, s1.log = s.log ++ ext ∧ ∀ x ∈ ext, x.submitsEOS = false := by
  intro n
  induction n with
  | zero =>
    intro s s1 st h
    simp only [dequeueInputLoop, Except.ok.injEq, Prod.mk.injEq] at h
    obtain ⟨_, rfl⟩ := h
    exact ⟨[], by simp, by simp⟩
  | succ k ih =>
    intro s s1 st h
    unfold dequeueInputLoop at h
    split at h
    · cases h
    · rename_i e he
      dsimp only at h
      split at h
      · simp only [Except.ok.injEq, Prod.mk.injEq] at h
        obtain ⟨_, rfl⟩ := h
        exact ⟨_, rfl, by simp [Effect.submitsEOS]⟩
      · obtain ⟨ext, hlog, hext⟩ := ih _ _ _ h
        refine ⟨[Effect.dequeueInputBuffer (C.dequeueInputBuffer e).1
          (C.dequeueInputBuffer e).2.1] ++ ext, ?_, ?_⟩
        · rw [hlog]; simp only [List.append_assoc]
        · intro x hx
          rcases List.mem_append.mp hx with h1 | h1
          · simp only [List.mem_singleton] at h1
            subst h1; rfl
          · exact hext x h1

/-- The function `doMoreWork` is a tidy step. -/
theorem doMoreWork_tidy (C : MediaCodec E) (numInput numOutput : Int) (s s1 : State E)
    (st : Status) (h : doMoreWork C numInput numOutput s = .ok (st, s1)) : Tidy s s1 := by
  have drain : ∀ (n : Nat) (err : Status) (a b : State E) (r : Status),
      drainLoop C n err a = .ok (r, b) → Tidy a b := by
    intro n err a b r hd
    have fr := (drainLoop_frame C n err a b r hd).1
    obtain ⟨ext, new, tr⟩ := drainLoop_trace C n err a b r hd
    exact Tidy.of_step fr.mFlags fr.mPuller (fun x hx => by rw [← tr.inputs]; exact hx) ext
      tr.log (fun x hx => isOutputWork_submitsEOS x (tr.outputWork x hx))
  unfold doMoreWork at h
  split at h
  · split at h
    · cases h
    · rename_i err sa ha
      split at h
      · cases h
      · rename_i x sb hb
        have fa := (dequeueInputLoop_frame C _ _ _ _ ha).1
        obtain ⟨ext, hlog, hext⟩ := dequeueInputLoop_log C _ _ _ _ ha
        have ta : Tidy s sa := Tidy.of_step fa.mFlags fa.mPuller
          (fun x hx => by rw [← (dequeueInputLoop_queue C _ _ _ _ ha).2]; exact hx) ext hlog hext
        exact (ta.next (feedEncoderInputBuffers_tidy C _ _ _ hb)).next
          (drain _ _ _ _ _ h)
  · exact drain _ _ _ _ _ h

/-- A step that changes neither the flags, nor the Puller, nor the input queue and
adds effects that are no submissions is tidy. -/
theorem Tidy.of_still {s s1 : State E} (hf : s1.mFlags = s.mFlags)
    (hp : s1.mPuller = s.mPuller) (hq : s1.mInputBufferQueue = s.mInputBufferQueue)
    (ext : List Effect) (hlog : s1.log = s.log ++ ext)
    (hext : ∀ x ∈ ext, x.submitsEOS = false) : Tidy s s1 :=
  Tidy.of_step hf hp (fun x hx => by rw [← hq]; exact hx) ext hlog hext

/-- The function `onStart` is a tidy step. -/
theorem onStart_tidy (C : MediaCodec E) (p : Option MetaData) (pe : Status) (s s1 : State E)
    (st : Status) (hr : onStart C p pe s = .ok (st, s1)) : Tidy s s1 := by
  unfold onStart at hr
  split at hr
  · cases hr; exact Tidy.nothing _
  · split at hr
    · split at hr
      · split at hr
        · cases hr
        · rename_i s2 h2
          cases hr
          exact (resume_tidy C _ _ _ h2).1
      · split at hr
        · cases hr
        · cases hr
          exact Tidy.of_still rfl rfl rfl _ rfl (by simp [Effect.submitsEOS])
    · split at hr
      · dsimp only at hr
        split at hr
        · cases hr
        · rename_i s2 h2
          split at hr
          · cases hr
          · rename_i s3 h3
            cases hr
            have f := (resume_tidy C _ _ _ h2).1.next (scheduleDoMoreWork_tidy C _ _ h3).1
            exact f.next (Tidy.of_still rfl rfl rfl [] (by simp) (by simp))
      · split at hr
        · cases hr
        · dsimp only at hr
          split at hr
          · cases hr
            exact Tidy.of_still rfl rfl rfl _ rfl (by simp [Effect.submitsEOS])
          · cases hr
            exact Tidy.of_still rfl rfl rfl _ rfl (by simp [Effect.submitsEOS])

/-- Every handler is a tidy step on a pipeline that satisfies the invariant. -/
theorem onMessageReceived_tidy (C : MediaCodec E) {hist : List Message} {s s1 : State E}
    (m : Message) (hs : Sound hist s) (hr : onMessageReceived C m s = .ok s1) : Tidy s s1 := by
  cases m with
  | kWhatPullerNotify mbuf =>
    cases mbuf with
    | none =>
      obtain ⟨_, hn⟩ := hs.signalEOS signalEOS_default
      simp only [onMessageReceived, hn] at hr
      cases hr
      exact signalEOS_tidy _ _
    | some b =>
      simp only [onMessageReceived] at hr
      split at hr
      · cases hr
        exact Tidy.of_still rfl rfl rfl _ rfl (by simp [Effect.submitsEOS])
      · split at hr
        · cases hr
        · rename_i x s3 hfeed
          have f0 : Tidy s { s with mInputBufferQueue := s.mInputBufferQueue ++ [some b] } :=
            ⟨rfl, rfl, fun h => by simpa using h, fun _ => ⟨[], by simp, by simp⟩⟩
          have f1 := feedEncoderInputBuffers_tidy C _ _ _ hfeed
          have f2 := (scheduleDoMoreWork_tidy C _ _ hr).1
          exact (f0.next f1).next f2
  | kWhatEncoderActivity ib ob =>
    have f0 : Tidy s { s with mDoMoreWorkPending := false } :=
      Tidy.of_still rfl rfl rfl [] (by simp) (by simp)
    simp only [onMessageReceived] at hr
    split at hr
    · cases hr; exact f0
    · split at hr
      · cases hr
      · rename_i st s2 hw
        have f1 := doMoreWork_tidy C _ _ _ _ _ hw
        split at hr
        · exact (f0.next f1).next (scheduleDoMoreWork_tidy C _ _ hr).1
        · cases hr
          exact (f0.next f1).next (signalEOS_tidy _ _)
  | kWhatStart id p pe =>
    simp only [onMessageReceived] at hr
    split at hr
    · cases hr
    · rename_i st s2 h2
      cases hr
      exact (onStart_tidy C p pe s s2 st h2).next
        (Tidy.of_still rfl rfl rfl _ rfl (by simp [Effect.submitsEOS]))
  | kWhatStop id =>
    simp only [onMessageReceived] at hr
    split at hr
    · cases hr
      exact Tidy.of_still rfl rfl rfl _ rfl (by simp [Effect.submitsEOS])
    · split at hr
      · cases hr
        exact Tidy.of_still rfl rfl rfl [] (by simp) (by simp)
      · split at hr
        · split at hr
          · cases hr
          · cases hr
            exact Tidy.of_still rfl rfl rfl _ rfl (by simp [Effect.submitsEOS])
        · cases hr
          have f0 : Tidy s { s with mStopReplyIDQueue := s.mStopReplyIDQueue ++ [id],
                                    mStopping := true } :=
            Tidy.of_still rfl rfl rfl [] (by simp) (by simp)
          exact f0.next (signalEOS_tidy _ _)
  | kWhatPause =>
    simp only [onMessageReceived] at hr
    split at hr
    · exact (suspend_tidy C _ _ hr).1
    · split at hr
      · cases hr
      · cases hr
        exact Tidy.of_still rfl rfl rfl _ rfl (by simp [Effect.submitsEOS])

/-- Every run of handled messages is a tidy step on a pipeline that satisfies the
invariant. -/
theorem Tidy.ofRun (C : MediaCodec E) :
    ∀ (ms hist : List Message) (s s1 : State E), Sound hist s → run C ms s = .ok s1 →
      Tidy s s1 := by
  intro ms
  induction ms with
  | nil =>
    intro hist s s1 _ hr
    cases hr
    exact Tidy.nothing _
  | cons m rest ih =>
    intro hist s s1 h hr
    simp only [MediaCodecSource.run] at hr
    split at hr
    · cases hr
    · rename_i s2 h2
      exact (onMessageReceived_tidy C m h h2).next
        (ih (hist ++ [m]) s2 s1 (h.handled C m h2) hr)

/-- What `initEncoder` leaves as it was. -/
theorem initEncoder_keeps (C : MediaCodec E) (created : Option E) (s s1 : State E)
    (st : Status) (h : initEncoder C created s = .ok (st, s1)) :
    s1.mFlags = s.mFlags ∧ s1.mPuller = s.mPuller ∧ s1.mStarted = s.mStarted ∧
    s1.mDoMoreWorkPending = s.mDoMoreWorkPending ∧
    s1.mInputBufferQueue = s.mInputBufferQueue := by
  unfold initEncoder at h
  split at h
  · cases h
    exact ⟨rfl, rfl, rfl, rfl, rfl⟩
  · dsimp only at h
    split at h
    · cases h
      exact ⟨rfl, rfl, rfl, rfl, rfl⟩
    · split at h
      · cases h
      · split at h
        · cases h
          exact ⟨rfl, rfl, rfl, rfl, rfl⟩
        · split at h
          · cases h
            exact ⟨rfl, rfl, rfl, rfl, rfl⟩
          · split at h
            · cases h
              exact ⟨rfl, rfl, rfl, rfl, rfl⟩
            · split at h
              · cases h
                exact ⟨rfl, rfl, rfl, rfl, rfl⟩
              · cases h
                exact ⟨rfl, rfl, rfl, rfl, rfl⟩

/-- A successfully created pipeline: the flags are those given, the Puller exists
exactly in pull mode, nothing is started, pending, stopping, queued or logged. -/
theorem Create_fresh (C : MediaCodec E) (created : Option E) (flags : Nat) (isVideo : Bool)
    (s0 : State E) (h : Create C created flags isVideo = .ok (some s0)) :
    s0.mFlags = flags ∧ s0.mPuller = decide (flags &&& FLAG_USE_SURFACE_INPUT = 0) ∧
    s0.mStarted = false ∧ s0.mDoMoreWorkPending = false ∧ s0.mInputBufferQueue = [] ∧
    s0.log = [] ∧ s0.mStopping = false ∧ s0.mStopReplyIDQueue = [] := by
  unfold Create init at h
  split at h
  · cases h
  · rename_i err s hi
    split at hi
    · cases hi
    · rename_i st s1 h1
      obtain ⟨a1, a2, a3, _⟩ := initEncoder_ok C created _ _ _ h1
      obtain ⟨b1, b2, b3, b4, b5⟩ := initEncoder_keeps C created _ _ _ h1
      split at hi
      · rename_i hne
        cases hi
        rw [if_neg hne] at h
        cases h
      · rename_i hst
        have hst : st = OK := by simpa using hst
        cases hi
        rw [if_pos hst] at h
        cases h
        exact ⟨b1, b2, b3, b4, b5, a1, a2, a3⟩

/-- C21: in every state a successfully created pipeline reaches by handling messages,
the input queue holds no null sentinel and no input slot flagged end-of-stream has been
submitted; the handler of a puller notification with a null access unit returns with
the encoder released and the null not queued. -/
theorem no_null_input (C : MediaCodec E) (created : Option E) (flags : Nat) (isVideo : Bool)
    (s0 s : State E) (msgs : List Message)
    (hc : Create C created flags isVideo = .ok (some s0)) (hrun : run C msgs s0 = .ok s) :
    none ∉ s.mInputBufferQueue ∧ (∀ x ∈ s.log, x.submitsEOS = false) ∧
    onMessageReceived C (Message.kWhatPullerNotify none) s
      = .ok (signalEOS signalEOS_default s) ∧
    (signalEOS signalEOS_default s).mEncoder = none ∧
    none ∉ (signalEOS signalEOS_default s).mInputBufferQueue := by
  have h0 := Create_sound C created flags isVideo s0 hc
  obtain ⟨_, _, _, _, hq0, hl0, _, _⟩ := Create_fresh C created flags isVideo s0 hc
  have hs : Sound ([] ++ msgs) s := Sound.handledAll C msgs [] s0 s h0 hrun
  have ht := Tidy.ofRun C msgs [] s0 s h0 hrun
  have hq : none ∉ s0.mInputBufferQueue := by simp [hq0]
  have hclean := ht.inputs hq
  obtain ⟨ext, hlog, hext⟩ := ht.log hq
  obtain ⟨_, hn⟩ := hs.signalEOS signalEOS_default
  refine ⟨hclean, ?_, ?_, hn, (signalEOS_tidy _ _).inputs hclean⟩
  · intro x hx
    rw [hlog, hl0, List.nil_append] at hx
    exact hext x hx
  · simp only [onMessageReceived, hn]

/-- C21 at a concrete input: a pull-mode pipeline that handles buffers and two null
access units. -/
theorem no_null_input_witness :
    none ∉ (afterMsgs notifiesThroughEos
      (liveState 0 true ⟨[(OK, 0)], [], []⟩)).mInputBufferQueue ∧
    (∀ x ∈ (afterMsgs notifiesThroughEos (liveState 0 true ⟨[(OK, 0)], [], []⟩)).log,
      x.submitsEOS = false) ∧
    onMessageReceived scriptCodec (Message.kWhatPullerNotify none)
        (afterMsgs notifiesThroughEos (liveState 0 true ⟨[(OK, 0)], [], []⟩))
      = .ok (signalEOS signalEOS_default
          (afterMsgs notifiesThroughEos (liveState 0 true ⟨[(OK, 0)], [], []⟩))) ∧
    (signalEOS signalEOS_default
      (afterMsgs notifiesThroughEos (liveState 0 true ⟨[(OK, 0)], [], []⟩))).mEncoder = none ∧
    none ∉ (signalEOS signalEOS_default
      (afterMsgs notifiesThroughEos
        (liveState 0 true ⟨[(OK, 0)], [], []⟩))).mInputBufferQueue :=
  no_null_input scriptCodec (some ⟨[(OK, 0)], [], []⟩) 0 true
    (liveState 0 true ⟨[(OK, 0)], [], []⟩)
    (afterMsgs notifiesThroughEos (liveState 0 true ⟨[(OK, 0)], [], []⟩))
    notifiesThroughEos rfl rfl

/-! ## Encoder calls on a live encoder -/

/-- Building an output buffer never aborts through a null reference. -/
theorem makeOutputBuffer_fault (flags : Nat) (isVideo : Bool) (size : Nat) (info : BufferInfo)
    (f : Fault) (h : makeOutputBuffer flags isVideo size info = .error f) :
    f ≠ Fault.nullDeref := by
  unfold makeOutputBuffer at h
  dsimp only at h
  split at h
  · rename_i f1 hw
    cases h
    split at hw
    · split at hw
      · split at hw
        · split at hw
          · cases hw; decide
          · cases hw
        · cases hw
      · cases hw
    · cases hw
  · split at h <;> cases h

/-- With a live encoder the feed loop never aborts through a null reference. -/
theorem feedLoop_fault (C : MediaCodec E) :
    ∀ (q : List (Option MediaBuffer)) (s : State E) (f : Fault), s.mEncoder ≠ none →
      feedLoop C q s = .error f → f ≠ Fault.nullDeref := by
  intro q
  induction q with
  | nil => intro s f _ h; simp [feedLoop] at h
  | cons mbuf rest ih =>
    intro s f henc h
    obtain ⟨e, he⟩ := Option.ne_none_iff_exists'.mp henc
    cases hav : s.mAvailEncoderInputIndices with
    | nil => simp [feedLoop, hav] at h
    | cons idx avail =>
      cases mbuf with
      | none =>
        simp only [feedLoop, hav, callQueueInputBuffer, he] at h
        split at h
        · cases h
        · exact ih _ f (by simp) h
      | some b =>
        cases hk : b.kKeyTime with
        | none =>
          simp only [feedLoop, hav, hk] at h
          cases h; decide
        | some t =>
          simp only [feedLoop, hav, hk] at h
          split at h
          · cases h; decide
          · simp only [callQueueInputBuffer, he, State.emit] at h
            split at h
            · cases h
            · exact ih _ f (by simp) h

/-- With a live encoder the output loop never aborts through a null reference. -/
theorem drainLoop_fault (C : MediaCodec E) :
    ∀ (n : Nat) (err : Status) (s : State E) (f : Fault), s.mEncoder ≠ none →
      drainLoop C n err s = .error f → f ≠ Fault.nullDeref := by
  intro n
  induction n with
  | zero => intro err s f _ h; simp [drainLoop] at h
  | succ k ih =>
    intro err s f henc h
    obtain ⟨e, he⟩ := Option.ne_none_iff_exists'.mp henc
    simp only [drainLoop, he] at h
    split at h
    · split at h
      · exact ih _ _ f (by simp) h
      · split at h
        · exact ih _ _ f (by simp) h
        · cases h
    · split at h
      · rename_i f1 hq
        cases h
        split at hq
        · split at hq
          · cases hq; decide
          · split at hq
            · rename_i f2 hm
              cases hq
              exact makeOutputBuffer_fault _ _ _ _ _ hm
            · cases hq
        · cases hq
      · rename_i s2 hq
        split at h
        · cases h
        · exact ih _ _ f (by simp) h

/-- With a live encoder `doMoreWork` never aborts through a null reference. -/
theorem doMoreWork_fault (C : MediaCodec E) (numInput numOutput : Int) (s : State E)
    (f : Fault) (henc : s.mEncoder ≠ none)
    (h : doMoreWork C numInput numOutput s = .error f) : f ≠ Fault.nullDeref := by
  have live : ∀ {p : Effect → Bool} {a b : State E}, WorkFrame p a b → a.mEncoder ≠ none →
      b.mEncoder ≠ none := by
    intro p a b fr ha hb
    have := fr.mEncoder
    rw [hb] at this
    cases hx : a.mEncoder with
    | none => exact ha hx
    | some _ => rw [hx] at this; simp at this
  unfold doMoreWork at h
  split at h
  · split at h
    · rename_i f1 ha
      obtain ⟨st, s1, hok⟩ := dequeueInputLoop_total C numInput.toNat s henc
      rw [hok] at ha
      cases ha
    · rename_i err sa ha
      have fa := (dequeueInputLoop_frame C _ _ _ _ ha).1
      split at h
      · rename_i f1 hb
        cases h
        exact feedLoop_fault C _ _ _ (live fa henc) hb
      · rename_i x sb hb
        have fb := feedEncoderInputBuffers_frame C _ _ _ hb
        exact drainLoop_fault C _ _ _ _ (live fb (live fa henc)) h
  · exact drainLoop_fault C _ _ _ _ henc h

/-- A control-frame step keeps a live encoder live. -/
theorem CtlFrame.live {s s1 : State E} (fr : CtlFrame s s1) (h : s.mEncoder ≠ none) :
    s1.mEncoder ≠ none := by
  intro hb
  have := fr.mEncoder
  rw [hb] at this
  cases hx : s.mEncoder with
  | none => exact h hx
  | some _ => rw [hx] at this; simp at this

/-- With a live encoder `scheduleDoMoreWork` returns. -/
theorem scheduleDoMoreWork_live (C : MediaCodec E) (s : State E) (h : s.mEncoder ≠ none) :
    ∃ s1, scheduleDoMoreWork C s = .ok s1 := by
  obtain ⟨e, he⟩ := Option.ne_none_iff_exists'.mp h
  unfold scheduleDoMoreWork
  split
  · exact ⟨_, rfl⟩
  · simp only [he]
    exact ⟨_, rfl⟩

/-- The functions `resume` and `suspend` never abort through a null reference. -/
theorem resume_fault (C : MediaCodec E) (t : Int) (s : State E) (f : Fault) :
    (resume C t s = .error f → f ≠ Fault.nullDeref) ∧
    (suspend C s = .error f → f ≠ Fault.nullDeref) := by
  constructor
  · intro h
    unfold resume at h
    split at h
    · cases h; decide
    · split at h <;> cases h
  · intro h
    unfold suspend at h
    split at h
    · cases h; decide
    · split at h <;> cases h

/-- On a pipeline that satisfies the invariants `onStart` never aborts through a null
reference. -/
theorem onStart_fault (C : MediaCodec E) {hist : List Message} {s : State E}
    (p : Option MetaData) (pe : Status) (f : Fault) (hs : Sound hist s)
    (hk : QuietBeforeStart s) (h : onStart C p pe s = .error f) : f ≠ Fault.nullDeref := by
  unfold onStart at h
  split at h
  · cases h
  · split at h
    · split at h
      · split at h
        · rename_i f1 h1
          cases h
          exact (resume_fault C _ s _).1 h1
        · cases h
      · split at h
        · cases h; decide
        · cases h
    · rename_i hns
      split at h
      · rename_i hsurf
        dsimp only at h
        split at h
        · rename_i f1 h1
          cases h
          exact (resume_fault C _ s _).1 h1
        · rename_i s2 h2
          split at h
          · rename_i f1 h3
            have hst : s.mStarted = false := by simpa using hns
            have heos := (hk hsurf hst).2
            have henc : s.mEncoder ≠ none := by
              intro hn
              rw [hs.enc_eos.mp hn] at heos
              cases heos
            obtain ⟨s3, h4⟩ := scheduleDoMoreWork_live C s2
              ((resume_ctl C _ _ _ h2).live henc)
            rw [h4] at h3
            cases h3
          · cases h
      · split at h
        · cases h; decide
        · dsimp only at h
          split at h <;> cases h

/-- After `onStart` the pipeline is started, or nothing the start protocol looks at
has changed. -/
theorem onStart_started (C : MediaCodec E) (p : Option MetaData) (pe : Status)
    (s s1 : State E) (st : Status) (hr : onStart C p pe s = .ok (st, s1)) :
    s1.mStarted = true ∨
    (s1.mStarted = s.mStarted ∧ s1.mDoMoreWorkPending = s.mDoMoreWorkPending ∧
      s1.mEncoderReachedEOS = s.mEncoderReachedEOS) := by
  unfold onStart at hr
  split at hr
  · cases hr; exact Or.inr ⟨rfl, rfl, rfl⟩
  · split at hr
    · rename_i hst
      split at hr
      · split at hr
        · cases hr
        · rename_i s2 h2
          cases hr
          exact Or.inl ((resume_tidy C _ _ _ h2).2.1.trans hst)
      · split at hr
        · cases hr
        · cases hr
          exact Or.inl hst
    · split at hr
      · dsimp only at hr
        split at hr
        · cases hr
        · split at hr
          · cases hr
          · cases hr
            exact Or.inl rfl
      · split at hr
        · cases hr
        · dsimp only at hr
          split at hr
          · cases hr
            exact Or.inr ⟨rfl, rfl, rfl⟩
          · cases hr
            exact Or.inl rfl

/-- A work-frame step keeps a live encoder live. -/
theorem WorkFrame.liveEncoder {p : Effect → Bool} {s s1 : State E} (fr : WorkFrame p s s1)
    (h : s.mEncoder ≠ none) : s1.mEncoder ≠ none := by
  intro hb
  have := fr.mEncoder
  rw [hb] at this
  cases hx : s.mEncoder with
  | none => exact h hx
  | some _ => rw [hx] at this; simp at this

/-- On a pipeline that satisfies the invariants no handler aborts through a null
reference: every encoder call is made on a live encoder. -/
theorem onMessageReceived_fault (C : MediaCodec E) {hist : List Message} {s : State E}
    (m : Message) (f : Fault) (hs : Sound hist s) (hk : QuietBeforeStart s)
    (h : onMessageReceived C m s = .error f) : f ≠ Fault.nullDeref := by
  cases m with
  | kWhatPullerNotify mbuf =>
    cases mbuf with
    | none =>
      obtain ⟨_, hn⟩ := hs.signalEOS signalEOS_default
      simp only [onMessageReceived, hn] at h
      cases h
    | some b =>
      cases he : s.mEncoder with
      | none =>
        simp only [onMessageReceived, he] at h
        cases h
      | some e =>
        simp only [onMessageReceived, he] at h
        split at h
        · rename_i f1 hfeed
          cases h
          exact feedLoop_fault C _ _ _ (by simp [he]) hfeed
        · rename_i x s3 hfeed
          have fr := feedEncoderInputBuffers_frame C _ _ _ hfeed
          obtain ⟨s4, h4⟩ := scheduleDoMoreWork_live C s3 (fr.liveEncoder (by simp [he]))
          rw [h4] at h
          cases h
  | kWhatEncoderActivity ib ob =>
    cases he : s.mEncoder with
    | none =>
      simp only [onMessageReceived, he] at h
      cases h
    | some e =>
      simp only [onMessageReceived, he] at h
      split at h
      · rename_i f1 hw
        cases h
        exact doMoreWork_fault C _ _ _ _ (by simp [he]) hw
      · rename_i st s2 hw
        have fr := (doMoreWork_frame C _ _ _ _ _ hw).1
        split at h
        · obtain ⟨s4, h4⟩ := scheduleDoMoreWork_live C s2 (fr.liveEncoder (by simp [he]))
          rw [h4] at h
          cases h
        · cases h
  | kWhatStart id p pe =>
    simp only [onMessageReceived] at h
    split at h
    · rename_i f1 h1
      cases h
      exact onStart_fault C p pe _ hs hk h1
    · cases h
  | kWhatStop id =>
    simp only [onMessageReceived] at h
    split at h
    · cases h
    · rename_i hneos
      split at h
      · cases h
      · split at h
        · split at h
          · rename_i hnone
            have hnone : s.mEncoder = none := hnone
            exact absurd (hs.enc_eos.mp hnone) hneos
          · cases h
        · cases h
  | kWhatPause =>
    simp only [onMessageReceived] at h
    split at h
    · exact (resume_fault C 0 s f).2 h
    · split at h
      · cases h; decide
      · cases h

/-- A step that changes nothing the start protocol looks at keeps the pipeline quiet
before its start. -/
theorem QuietBeforeStart.of_fields {s s1 : State E} (hk : QuietBeforeStart s)
    (hf : s1.mFlags = s.mFlags) (h1 : s1.mStarted = s.mStarted)
    (h2 : s1.mDoMoreWorkPending = s.mDoMoreWorkPending)
    (h3 : s1.mEncoderReachedEOS = s.mEncoderReachedEOS) : QuietBeforeStart s1 := by
  intro hsurf hst
  rw [hf] at hsurf
  rw [h1] at hst
  rw [h2, h3]
  exact hk hsurf hst

/-- Every handled message that could arrive keeps the pipeline quiet before its
start. -/
theorem QuietBeforeStart.afterMessage (C : MediaCodec E) {hist : List Message} {s s1 : State E}
    (m : Message) (hs : Sound hist s) (hk : QuietBeforeStart s) (hm : mayArrive m s = true)
    (hr : onMessageReceived C m s = .ok s1) : QuietBeforeStart s1 := by
  have ht := onMessageReceived_tidy C m hs hr
  by_cases hpull : s.mFlags &&& FLAG_USE_SURFACE_INPUT = 0
  · intro hsurf
    rw [ht.mFlags] at hsurf
    exact absurd hpull hsurf
  · have started : s1.mStarted = true → QuietBeforeStart s1 := by
      intro h1 _ h2
      rw [h1] at h2
      cases h2
    cases m with
    | kWhatPullerNotify mbuf =>
      simp only [mayArrive, decide_eq_true_eq] at hm
      exact absurd hm hpull
    | kWhatEncoderActivity ib ob =>
      simp only [mayArrive] at hm
      have hst : s.mStarted = true := by
        cases hx : s.mStarted with
        | true => rfl
        | false =>
          have := (hk hpull hx).1
          rw [hm] at this
          cases this
      apply started
      simp only [onMessageReceived] at hr
      split at hr
      · cases hr; exact hst
      · split at hr
        · cases hr
        · rename_i st s2 hw
          have fr := (doMoreWork_frame C _ _ _ _ _ hw).1
          have h2 : s2.mStarted = true := fr.mStarted.trans hst
          split at hr
          · exact (scheduleDoMoreWork_tidy C _ _ hr).2.trans h2
          · cases hr
            exact (signalEOS_setup _ _).2.2.1.trans h2
    | kWhatStart id p pe =>
      simp only [onMessageReceived] at hr
      split at hr
      · cases hr
      · rename_i st s2 h2
        cases hr
        rcases onStart_started C p pe s s2 st h2 with h3 | ⟨h3, h4, h5⟩
        · exact started h3
        · exact hk.of_fields (onStart_tidy C p pe s s2 st h2).mFlags h3 h4 h5
    | kWhatStop id =>
      simp only [onMessageReceived] at hr
      split at hr
      · cases hr
        exact hk.of_fields rfl rfl rfl rfl
      · split at hr
        · cases hr
          exact hk.of_fields rfl rfl rfl rfl
        · split at hr
          · cases hr
          · cases hr
            exact hk.of_fields rfl rfl rfl rfl
    | kWhatPause =>
      simp only [onMessageReceived] at hr
      split at hr
      · obtain ⟨t, h1, h2, h3⟩ := suspend_tidy C _ _ hr
        exact hk.of_fields t.mFlags h1 h2 h3
      · split at hr
        · cases hr
        · cases hr
          exact hk.of_fields rfl rfl rfl rfl

/-- A run of deliverable messages from a pipeline that satisfies the invariants never
aborts through a null reference. -/
theorem run_fault (C : MediaCodec E) :
    ∀ (ms hist : List Message) (s : State E) (f : Fault), Sound hist s →
      QuietBeforeStart s → deliverable C ms s = true → run C ms s = .error f →
      f ≠ Fault.nullDeref := by
  intro ms
  induction ms with
  | nil => intro hist s f _ _ _ h; cases h
  | cons m rest ih =>
    intro hist s f hs hk hd h
    simp only [deliverable, Bool.and_eq_true] at hd
    simp only [MediaCodecSource.run] at h
    cases hx : onMessageReceived C m s with
    | error f1 =>
      rw [hx] at h
      cases h
      exact onMessageReceived_fault C m _ hs hk hx
    | ok s1 =>
      rw [hx] at h hd
      exact ih (hist ++ [m]) s1 f (hs.handled C m hx) (hk.afterMessage C m hs hd.1 hx) hd.2 h

/-- Why the messages are taken to be deliverable: were an activity notification handled
that the pipeline never requested, on a surface-input pipeline before its first start,
and did it reach EOS, the start handler would then call `requestActivityNotification`
through the null reference. The sequence is not deliverable. -/
theorem start_after_early_eos_calls_null_encoder :
    Create scriptCodec (some ⟨[], [], [(OK, ⟨0, 0, 0, 0, BUFFER_FLAG_EOS⟩)]⟩)
        FLAG_USE_SURFACE_INPUT true = .ok (some surfaceEosState) ∧
    run scriptCodec earlyEosThenStart surfaceEosState = .error Fault.nullDeref ∧
    deliverable scriptCodec earlyEosThenStart surfaceEosState = false :=
  ⟨rfl, rfl, rfl⟩

/-- C22: after every run of handled messages from a successfully created pipeline the
encoder is null exactly when EOS has been reached, and stopping is not set together
with EOS-reached; and when the messages are deliverable (puller notifications only in
pull mode, activity notifications only while one is requested and not yet handled), no
run aborts through a null reference: every encoder call of the handlers is made on a
non-null encoder. -/
theorem encoder_calls_are_live (C : MediaCodec E) (created : Option E) (flags : Nat)
    (isVideo : Bool) (s0 : State E) (msgs : List Message)
    (hc : Create C created flags isVideo = .ok (some s0)) :
    (∀ s, run C msgs s0 = .ok s →
      (s.mEncoder = none ↔ s.mEncoderReachedEOS = true) ∧
      ¬ (s.mStopping = true ∧ s.mEncoderReachedEOS = true)) ∧
    (deliverable C msgs s0 = true →
      ∀ f, run C msgs s0 = .error f → f ≠ Fault.nullDeref) := by
  have h0 := Create_sound C created flags isVideo s0 hc
  obtain ⟨_, _, hst, hpend, _, hl0, _, _⟩ := Create_fresh C created flags isVideo s0 hc
  refine ⟨fun s hrun => ?_, fun hd f hf => ?_⟩
  · have hs := Sound.handledAll C msgs [] s0 s h0 hrun
    refine ⟨hs.enc_eos, fun h => ?_⟩
    have := hs.stopping_eos h.1
    rw [h.2] at this
    cases this
  · have hk : QuietBeforeStart s0 := by
      intro _ _
      refine ⟨hpend, ?_⟩
      have hrel := h0.release
      rw [hl0] at hrel
      cases hx : s0.mEncoderReachedEOS with
      | false => rfl
      | true =>
        rw [hx] at hrel
        simp [releaseCount] at hrel
    exact run_fault C msgs [] s0 f h0 hk hd hf

/-- C22 at a concrete input: a surface-input pipeline is started, reaches EOS through
the activity notification it requested, and handles a start and a stop. -/
theorem encoder_calls_are_live_witness :
    (∀ s, run scriptCodec startThenEos surfaceEosState = .ok s →
      (s.mEncoder = none ↔ s.mEncoderReachedEOS = true) ∧
      ¬ (s.mStopping = true ∧ s.mEncoderReachedEOS = true)) ∧
    (deliverable scriptCodec startThenEos surfaceEosState = true →
      ∀ f, run scriptCodec startThenEos surfaceEosState = .error f → f ≠ Fault.nullDeref) :=
  encoder_calls_are_live scriptCodec (some ⟨[], [], [(OK, ⟨0, 0, 0, 0, BUFFER_FLAG_EOS⟩)]⟩)
    FLAG_USE_SURFACE_INPUT true surfaceEosState startThenEos rfl

/-- The run of the example is deliverable and completes in the EOS-reached state. -/
theorem startThenEos_runs :
    deliverable scriptCodec startThenEos surfaceEosState = true ∧
    ∃ s, run scriptCodec startThenEos surfaceEosState = .ok s ∧
      s.mEncoderReachedEOS = true ∧ s.mEncoder = none ∧ s.mStopping = false :=
  ⟨rfl, _, rfl, rfl, rfl, rfl⟩

/-! ## Stop and start in pull mode -/

/-- When no stop is under way `signalEOS` leaves it so. -/
theorem signalEOS_idle (err : Status) (s : State E) (h : Idle s) : Idle (signalEOS err s) := by
  obtain ⟨h1, h2⟩ := h
  unfold Idle signalEOS releaseEncoder
  dsimp only
  by_cases h3 : s.mEncoderReachedEOS = false
  · cases h4 : s.mEncoder <;> simp [h1, h2, h3, h4]
  · simp [h1, h2, h3]

/-- A control-frame step leaves it so when no stop is under way. -/
theorem CtlFrame.keepsIdle {s s1 : State E} (fr : CtlFrame s s1) (h : Idle s) : Idle s1 :=
  ⟨fr.mStopping.trans h.1, fr.mStopReplyIDQueue.trans h.2⟩

/-- The teardown of the stop handler posts no reply and releases the encoder. -/
theorem stopTeardown_effects (s : State E) :
    (stopTeardown s).filter Effect.isReply = [] ∧ Effect.encRelease ∈ stopTeardown s := by
  constructor
  · simp [stopTeardown, List.filter_append, filter_isReply_releaseInputs, Effect.isReply,
      List.filter_map, Function.comp_def]
  · simp [stopTeardown]

/-- The stop handler in pull mode when no stop is under way: it performs the EOS
handling (if EOS has not been reached) and replies to its requester last. -/
theorem onStop_pull (C : MediaCodec E) {hist : List Message} (s : State E) (id : Nat)
    (hs : Sound hist s) (hpull : s.mFlags &&& FLAG_USE_SURFACE_INPUT = 0) (hi : Idle s) :
    ∃ s1, onMessageReceived C (Message.kWhatStop id) s = .ok s1 ∧
      s1.log = s.log ++ (if s.mEncoderReachedEOS = false then stopTeardown s else [])
        ++ [Effect.postReply id none] ∧
      s1.mEncoderReachedEOS = true ∧ s1.mEncoder = none ∧ Idle s1 ∧
      s1.mPuller = s.mPuller := by
  obtain ⟨h1, h2⟩ := hi
  by_cases heos : s.mEncoderReachedEOS = true
  · refine ⟨s.emit [Effect.postReply id none], by simp [onMessageReceived, heos], ?_, heos,
      hs.enc_eos.mpr heos, ⟨h1, h2⟩, rfl⟩
    simp [State.emit, heos]
  · have heos0 : s.mEncoderReachedEOS = false := by simpa using heos
    cases he : s.mEncoder with
    | none => exact absurd (hs.enc_eos.mp he) heos
    | some e =>
      refine ⟨signalEOS signalEOS_default
        { s with mStopReplyIDQueue := s.mStopReplyIDQueue ++ [id], mStopping := true },
        by simp [onMessageReceived, heos0, h1, hpull], ?_, ?_, ?_, ?_, ?_⟩
      · simp [signalEOS, releaseEncoder, heos0, he, h2, stopTeardown, List.append_assoc]
      · simp [signalEOS, releaseEncoder, heos0, he]
      · simp [signalEOS, releaseEncoder, heos0, he]
      · simp [Idle, signalEOS, releaseEncoder, heos0, he]
      · simp [signalEOS, releaseEncoder, heos0, he]

/-- In pull mode every handled message leaves no stop under way. -/
theorem Idle.afterHandler (C : MediaCodec E) {hist : List Message} {s s1 : State E} (m : Message)
    (hs : Sound hist s) (hpull : s.mFlags &&& FLAG_USE_SURFACE_INPUT = 0) (hi : Idle s)
    (hr : onMessageReceived C m s = .ok s1) : Idle s1 := by
  cases m with
  | kWhatPullerNotify mbuf =>
    cases mbuf with
    | none =>
      obtain ⟨_, hn⟩ := hs.signalEOS signalEOS_default
      simp only [onMessageReceived, hn] at hr
      cases hr
      exact signalEOS_idle _ _ hi
    | some b =>
      simp only [onMessageReceived] at hr
      split at hr
      · cases hr
        exact hi
      · split at hr
        · cases hr
        · rename_i x s3 hfeed
          have f1 := (feedEncoderInputBuffers_frame C _ _ _ hfeed).toCtl isInputWork_isQuiet
          have f2 := scheduleDoMoreWork_ctl C _ _ hr
          exact (f1.followedBy f2).keepsIdle hi
  | kWhatEncoderActivity ib ob =>
    simp only [onMessageReceived] at hr
    split at hr
    · cases hr; exact hi
    · split at hr
      · cases hr
      · rename_i st s2 hw
        have f1 := (doMoreWork_frame C _ _ _ _ _ hw).1.toCtl isWork_isQuiet
        have h2 : Idle s2 := f1.keepsIdle hi
        split at hr
        · exact (scheduleDoMoreWork_ctl C _ _ hr).keepsIdle h2
        · cases hr
          exact signalEOS_idle _ _ h2
  | kWhatStart id p pe =>
    simp only [onMessageReceived] at hr
    split at hr
    · cases hr
    · rename_i st s2 h2
      cases hr
      exact (onStart_ctl C p pe s s2 st h2).keepsIdle hi
  | kWhatStop id =>
    obtain ⟨s2, h2, _, _, _, h5, _⟩ := onStop_pull C s id hs hpull hi
    rw [h2] at hr
    cases hr
    exact h5
  | kWhatPause =>
    simp only [onMessageReceived] at hr
    split at hr
    · exact (suspend_ctl C _ _ hr).keepsIdle hi
    · split at hr
      · cases hr
      · cases hr
        exact hi

/-- In pull mode every run of handled messages leaves no stop under way. -/
theorem Idle.afterRun (C : MediaCodec E) :
    ∀ (ms hist : List Message) (s s1 : State E), Sound hist s →
      s.mFlags &&& FLAG_USE_SURFACE_INPUT = 0 → Idle s → run C ms s = .ok s1 → Idle s1 := by
  intro ms
  induction ms with
  | nil =>
    intro hist s s1 _ _ hi hr
    cases hr
    exact hi
  | cons m rest ih =>
    intro hist s s1 hs hpull hi hr
    simp only [MediaCodecSource.run] at hr
    split at hr
    · cases hr
    · rename_i s2 h2
      have ht := onMessageReceived_tidy C m hs h2
      exact ih (hist ++ [m]) s2 s1 (hs.handled C m h2) (by rw [ht.mFlags]; exact hpull)
        (hi.afterHandler C m hs hpull h2) hr

/-- In pull mode, when no stop is under way, `onStart` returns OK on a started pipeline
and otherwise the status of `Puller::start`. -/
theorem onStart_pull (C : MediaCodec E) (p : Option MetaData) (pe : Status) (s : State E)
    (hpull : s.mFlags &&& FLAG_USE_SURFACE_INPUT = 0) (hP : s.mPuller = true)
    (hns : s.mStopping = false) :
    ∃ s1, onStart C p pe s = .ok (if s.mStarted = true then OK else pe, s1) := by
  by_cases hst : s.mStarted = true
  · exact ⟨_, by simp [onStart, hns, hst, hpull, hP]; rfl⟩
  · by_cases hpe : pe = OK
    · subst hpe
      exact ⟨_, by simp [onStart, hns, hst, hpull, hP]; rfl⟩
    · exact ⟨_, by simp [onStart, hns, hst, hpull, hP, hpe]; rfl⟩

/-- C23 refuted as stated: on a fresh pull-mode pipeline (not stopping) whose source
refuses to start with INVALID_OPERATION, `Puller::start` returns that status and the
start handler replies with it, so `start` returns INVALID_OPERATION. -/
theorem pull_mode_start_returns_invalid_operation :
    Create scriptCodec (some ⟨[], [], []⟩) 0 true
      = .ok (some (liveState 0 true ⟨[], [], []⟩)) ∧
    (liveState 0 true ⟨[], [], []⟩).mStopping = false ∧
    (∃ p1 effs, Puller.start refusingSource freshPuller = .ok (INVALID_OPERATION, p1, effs)) ∧
    (∃ s1, onMessageReceived scriptCodec (Message.kWhatStart 1 none INVALID_OPERATION)
        (liveState 0 true ⟨[], [], []⟩) = .ok s1 ∧
      repliesTo 1 s1.log = [some INVALID_OPERATION]) ∧
    start OK (some INVALID_OPERATION) = INVALID_OPERATION :=
  ⟨rfl, rfl, ⟨_, _, rfl⟩, ⟨_, rfl, rfl⟩, rfl⟩

/-- C23 as amended: in pull mode, after every run of handled messages the stopping flag
is clear and no stop request is pending; a stop request is then answered within its own
handler, after the EOS handling and the release of the encoder (when EOS had not been
reached), and `stop` goes on to `Puller::stop` only after that reply; a start request
returns OK on a started pipeline and otherwise the status of `Puller::start`. In both
modes a pending stop request implies stopping and EOS not reached. -/
theorem pull_mode_stop_is_immediate (C : MediaCodec E) (created : Option E) (flags : Nat)
    (isVideo : Bool) (s0 s : State E) (msgs : List Message)
    (hc : Create C created flags isVideo = .ok (some s0)) (hrun : run C msgs s0 = .ok s) :
    (flags &&& FLAG_USE_SURFACE_INPUT = 0 →
      s.mStopping = false ∧ s.mStopReplyIDQueue = [] ∧
      (∀ id, ∃ s1, onMessageReceived C (Message.kWhatStop id) s = .ok s1 ∧
        s1.log = s.log ++ (if s.mEncoderReachedEOS = false then stopTeardown s else [])
          ++ [Effect.postReply id none] ∧
        (stopTeardown s).filter Effect.isReply = [] ∧ Effect.encRelease ∈ stopTeardown s ∧
        s1.mEncoderReachedEOS = true ∧ s1.mEncoder = none ∧
        s1.mStopping = false ∧ s1.mStopReplyIDQueue = [] ∧
        stop s1 OK none = (OK, true)) ∧
      (∀ p pe, ∃ s1, onStart C p pe s = .ok (if s.mStarted = true then OK else pe, s1))) ∧
    (s.mStopReplyIDQueue ≠ [] → s.mStopping = true ∧ s.mEncoderReachedEOS = false) := by
  have h0 := Create_sound C created flags isVideo s0 hc
  obtain ⟨hf0, hp0, _, _, _, _, hst0, hq0⟩ := Create_fresh C created flags isVideo s0 hc
  have hs : Sound ([] ++ msgs) s := Sound.handledAll C msgs [] s0 s h0 hrun
  have ht := Tidy.ofRun C msgs [] s0 s h0 hrun
  refine ⟨fun hpull => ?_, fun hq => ?_⟩
  · have hpull0 : s0.mFlags &&& FLAG_USE_SURFACE_INPUT = 0 := by rw [hf0]; exact hpull
    have hpulls : s.mFlags &&& FLAG_USE_SURFACE_INPUT = 0 := by rw [ht.mFlags]; exact hpull0
    have hi : Idle s := Idle.afterRun C msgs [] s0 s h0 hpull0 ⟨hst0, hq0⟩ hrun
    have hP : s.mPuller = true := by
      rw [ht.mPuller, hp0]
      simpa using hpull
    refine ⟨hi.1, hi.2, fun id => ?_, fun p pe => onStart_pull C p pe s hpulls hP hi.1⟩
    obtain ⟨s1, h1, h2, h3, h4, h5, h6⟩ := onStop_pull C s id hs hpulls hi
    obtain ⟨t1, t2⟩ := stopTeardown_effects s
    refine ⟨s1, h1, h2, t1, t2, h3, h4, h5.1, h5.2, ?_⟩
    simp [stop, postSynchronouslyAndReturnError, h6, hP]
  · have h1 := hs.queue_stopping hq
    exact ⟨h1, hs.stopping_eos h1⟩

/-- C23 as amended, at a concrete input: a pull-mode pipeline that handles messages of
every kind. -/
theorem pull_mode_stop_is_immediate_witness :
    (afterMsgs pullModeMessages (liveState 0 true ⟨[(OK, 0)], [], []⟩)).mStopping = false ∧
    (afterMsgs pullModeMessages
      (liveState 0 true ⟨[(OK, 0)], [], []⟩)).mStopReplyIDQueue = [] :=
  ⟨((pull_mode_stop_is_immediate scriptCodec (some ⟨[(OK, 0)], [], []⟩) 0 true
      (liveState 0 true ⟨[(OK, 0)], [], []⟩)
      (afterMsgs pullModeMessages (liveState 0 true ⟨[(OK, 0)], [], []⟩))
      pullModeMessages rfl rfl).1 (by decide)).1,
   ((pull_mode_stop_is_immediate scriptCodec (some ⟨[(OK, 0)], [], []⟩) 0 true
      (liveState 0 true ⟨[(OK, 0)], [], []⟩)
      (afterMsgs pullModeMessages (liveState 0 true ⟨[(OK, 0)], [], []⟩))
      pullModeMessages rfl rfl).1 (by decide)).2.1⟩

end MediaCodecSource
